import Mathlib

/-!
Verification development for the `grel` chat system (server `greld` and its
library crate).  The definitions below are shallow embeddings of the Rust
sources: `src/sock.rs`, `src/user.rs`, `src/room.rs`, `src/proto3.rs` /
`src/proto2.rs` and `src/bin/greld.rs`.  Machine integers (`u64`, `usize`)
are modelled as `Nat` (none of the verified code paths can overflow a
`u64`, and Rust `usize` subtraction appears only in the saturating form,
modelled by truncated `Nat` subtraction).  Rust `HashMap`s are modelled as
association lists with duplicate-free key lists; `Vec` as `List`.
-/

/-! ## Association-list maps (model of `std::collections::HashMap`) -/

/-- Model of `HashMap::get`: the value stored at key `k`, if any. -/
def alookup {α β : Type} [DecidableEq α] (m : List (α × β)) (k : α) : Option β :=
  match m.find? (fun p => p.1 = k) with
  | some p => some p.2
  | none => none

/-- Model of `HashMap::remove` (drops the binding for `k`). -/
def aremove {α β : Type} [DecidableEq α] (m : List (α × β)) (k : α) : List (α × β) :=
  m.filter (fun p => p.1 ≠ k)

/-- Model of `HashMap::insert` (replaces any binding for `k`). -/
def ainsert {α β : Type} [DecidableEq α] (m : List (α × β)) (k : α) (v : β) :
    List (α × β) :=
  (k, v) :: aremove m k

/-- Keys of an association map. -/
def akeys {α β : Type} (m : List (α × β)) : List α := m.map Prod.fst

/-- String-keyed `HashMap::get` (`users_by_name` / `rooms_by_name`). -/
def slookup {β : Type} (m : List (String × β)) (k : String) : Option β :=
  alookup m k

/-- String-keyed `HashMap::remove`. -/
def sremove {β : Type} (m : List (String × β)) (k : String) : List (String × β) :=
  aremove m k

/-- String-keyed `HashMap::insert`. -/
def sinsert {β : Type} (m : List (String × β)) (k : String) (v : β) :
    List (String × β) :=
  ainsert m k v

theorem alookup_nil {α β : Type} [DecidableEq α] (k : α) : alookup ([] : List (α × β)) k = none := rfl

theorem alookup_cons {α β : Type} [DecidableEq α] (p : α × β) (t : List (α × β)) (k : α) :
    alookup (p :: t) k = if p.1 = k then some p.2 else alookup t k := by
  by_cases h : p.1 = k
  · simp [alookup, List.find?_cons_of_pos, h]
  · simp [alookup, List.find?_cons_of_neg, h]

theorem aremove_nil {α β : Type} [DecidableEq α] (k : α) : aremove ([] : List (α × β)) k = [] := rfl

theorem aremove_cons {α β : Type} [DecidableEq α] (p : α × β) (t : List (α × β)) (k : α) :
    aremove (p :: t) k = if p.1 = k then aremove t k else p :: aremove t k := by
  by_cases h : p.1 = k <;> simp [aremove, List.filter_cons, h]

theorem alookup_aremove_self {α β : Type} [DecidableEq α] (m : List (α × β)) (k : α) :
    alookup (aremove m k) k = none := by
  induction m with
  | nil => rfl
  | cons p t ih =>
    rw [aremove_cons]
    by_cases hp : p.1 = k
    · simpa [hp] using ih
    · rw [if_neg hp, alookup_cons, if_neg hp]; exact ih

theorem alookup_aremove_ne {α β : Type} [DecidableEq α] (m : List (α × β)) (k k' : α)
    (h : k' ≠ k) : alookup (aremove m k) k' = alookup m k' := by
  induction m with
  | nil => rfl
  | cons p t ih =>
    rw [aremove_cons, alookup_cons]
    by_cases hp : p.1 = k
    · have : p.1 ≠ k' := by rw [hp]; exact fun hh => h hh.symm
      rw [if_pos hp, if_neg this]; exact ih
    · rw [if_neg hp, alookup_cons]
      by_cases hk' : p.1 = k'
      · rw [if_pos hk', if_pos hk']
      · rw [if_neg hk', if_neg hk']; exact ih

theorem alookup_ainsert_self {α β : Type} [DecidableEq α] (m : List (α × β)) (k : α) (v : β) :
    alookup (ainsert m k v) k = some v := by
  rw [ainsert, alookup_cons, if_pos rfl]

theorem alookup_ainsert_ne {α β : Type} [DecidableEq α] (m : List (α × β)) (k k' : α) (v : β)
    (h : k' ≠ k) : alookup (ainsert m k v) k' = alookup m k' := by
  rw [ainsert, alookup_cons, if_neg (fun hh => h hh.symm)]
  exact alookup_aremove_ne m k k' h

theorem mem_akeys_iff {α β : Type} [DecidableEq α] (m : List (α × β)) (k : α) :
    k ∈ akeys m ↔ alookup m k ≠ none := by
  induction m with
  | nil => simp [akeys, alookup_nil]
  | cons p t ih =>
    rw [alookup_cons]
    by_cases hp : p.1 = k
    · simp [akeys, hp]
    · have hne : ¬ (k = p.1) := fun h => hp h.symm
      simp only [akeys, List.map_cons, List.mem_cons, if_neg hp]
      simp only [akeys] at ih
      simp [hne, ih]

theorem akeys_ainsert {α β : Type} [DecidableEq α] (m : List (α × β)) (k k' : α) (v : β) :
    k' ∈ akeys (ainsert m k v) ↔ (k' = k ∨ k' ∈ akeys m) := by
  by_cases h : k' = k
  · subst h
    simp [mem_akeys_iff, alookup_ainsert_self]
  · rw [mem_akeys_iff, alookup_ainsert_ne m k k' v h, ← mem_akeys_iff]
    simp [h]

theorem akeys_aremove_subset {α β : Type} [DecidableEq α] (m : List (α × β)) (k k' : α) :
    k' ∈ akeys (aremove m k) → k' ∈ akeys m := by
  by_cases h : k' = k
  · subst h
    rw [mem_akeys_iff, alookup_aremove_self]
    simp
  · rw [mem_akeys_iff, alookup_aremove_ne m k k' h, ← mem_akeys_iff]
    exact id

/-! ## The block list (`User::block_id` / `User::unblock_id`, src/user.rs) -/

/-- Model of `slice::binary_search` as specified by its contract on a sorted
slice: `Except.ok i` when the element is found at index `i`, `Except.error j`
when absent with `j` the insertion index keeping the slice sorted.  (The Rust
standard-library routine itself is outside the repository; on the sorted,
duplicate-free lists maintained by `User` this is its exact behaviour.) -/
def binarySearch (l : List Nat) (x : Nat) : Except Nat Nat :=
  if x ∈ l then .ok (l.indexOf x) else .error (l.countP (fun y => decide (y < x)))

/-- Model of `User::block_id`: insert `id` at the `binary_search` insertion
point when absent; report whether the list changed. -/
def blockId (l : List Nat) (x : Nat) : Bool × List Nat :=
  match binarySearch l x with
  | .error n => (true, l.insertIdx n x)
  | .ok _ => (false, l)

/-- Model of `User::unblock_id`: remove the element at the found index;
report whether the list changed. -/
def unblockId (l : List Nat) (x : Nat) : Bool × List Nat :=
  match binarySearch l x with
  | .error _ => (false, l)
  | .ok n => (true, l.eraseIdx n)

theorem countP_lt_eq_zero (t : List Nat) (a x : Nat) (hx : x < a)
    (hall : ∀ b ∈ t, a < b) : t.countP (fun y => decide (y < x)) = 0 := by
  induction t with
  | nil => rfl
  | cons b r ih =>
    have hb : a < b := hall b (List.mem_cons_self b r)
    have hnb : ¬ (b < x) := by omega
    rw [List.countP_cons]
    simp only [hnb, decide_False, if_false, Nat.add_zero]
    exact ih (fun c hc => hall c (List.mem_cons_of_mem b hc))

theorem blockId_insert_sorted (l : List Nat) (x : Nat)
    (hs : List.Sorted (· < ·) l) (hx : x ∉ l) :
    List.Sorted (· < ·) (l.insertIdx (l.countP (fun y => decide (y < x))) x) := by
  induction l with
  | nil => simp
  | cons a t ih =>
    rw [List.sorted_cons] at hs
    obtain ⟨hall, hst⟩ := hs
    have hxa : x ≠ a := fun h => hx (h ▸ List.mem_cons_self a t)
    by_cases hlt : a < x
    · have hcount : (a :: t).countP (fun y => decide (y < x))
          = t.countP (fun y => decide (y < x)) + 1 := by
        simp [List.countP_cons, hlt]
      rw [hcount]
      have hstep : (a :: t).insertIdx (t.countP (fun y => decide (y < x)) + 1) x
          = a :: t.insertIdx (t.countP (fun y => decide (y < x))) x := by
        simp [List.insertIdx]
      rw [hstep, List.sorted_cons]
      constructor
      · intro b hb
        have hle : t.countP (fun y => decide (y < x)) ≤ t.length :=
          List.countP_le_length _
        rcases (List.mem_insertIdx hle).mp hb with h | h
        · omega
        · exact hall b h
      · exact ih hst (fun h => hx (List.mem_cons_of_mem a h))
    · have hxlt : x < a := by omega
      have hc : (a :: t).countP (fun y => decide (y < x)) = 0 := by
        have h1 : (a :: t).countP (fun y => decide (y < x))
            = t.countP (fun y => decide (y < x)) := by
          simp [List.countP_cons, hlt]
        rw [h1]
        exact countP_lt_eq_zero t a x hxlt hall
      rw [hc]
      simp only [List.insertIdx_zero]
      rw [List.sorted_cons]
      refine ⟨?_, List.sorted_cons.mpr ⟨hall, hst⟩⟩
      intro b hb
      rcases List.mem_cons.mp hb with h | h
      · omega
      · exact lt_trans hxlt (hall b h)

theorem unblockId_insertIdx (l : List Nat) (x : Nat)
    (hs : List.Sorted (· < ·) l) (hx : x ∉ l) :
    (unblockId (l.insertIdx (l.countP (fun y => decide (y < x))) x) x).2 = l := by
  induction l with
  | nil =>
    simp [unblockId, binarySearch, List.insertIdx]
  | cons a t ih =>
    rw [List.sorted_cons] at hs
    obtain ⟨hall, hst⟩ := hs
    have hxa : x ≠ a := fun h => hx (h ▸ List.mem_cons_self a t)
    by_cases hlt : a < x
    · have hcount : (a :: t).countP (fun y => decide (y < x))
          = t.countP (fun y => decide (y < x)) + 1 := by
        simp [List.countP_cons, hlt]
      rw [hcount]
      have hins : (a :: t).insertIdx (t.countP (fun y => decide (y < x)) + 1) x
          = a :: t.insertIdx (t.countP (fun y => decide (y < x))) x := by
        simp [List.insertIdx]
      rw [hins]
      have hxt : x ∉ t := fun h => hx (List.mem_cons_of_mem a h)
      have hle : t.countP (fun y => decide (y < x)) ≤ t.length :=
        List.countP_le_length _
      have hmem : x ∈ t.insertIdx (t.countP (fun y => decide (y < x))) x :=
        (List.mem_insertIdx hle).mpr (Or.inl rfl)
      have hmem2 : x ∈ a :: t.insertIdx (t.countP (fun y => decide (y < x))) x :=
        List.mem_cons_of_mem a hmem
      have ihr : (t.insertIdx (t.countP (fun y => decide (y < x))) x).erase x = t := by
        simpa [unblockId, binarySearch, hmem] using ih hst hxt
      have hane : a ≠ x := fun h => hxa h.symm
      simp [unblockId, binarySearch, hmem2, List.indexOf_cons_ne _ hxa,
        List.erase_cons_tail, hane, ihr]
    · have hxlt : x < a := by omega
      have hc : (a :: t).countP (fun y => decide (y < x)) = 0 := by
        have h1 : (a :: t).countP (fun y => decide (y < x))
            = t.countP (fun y => decide (y < x)) := by
          simp [List.countP_cons, hlt]
        rw [h1]
        exact countP_lt_eq_zero t a x hxlt hall
      rw [hc]
      simp only [List.insertIdx_zero]
      have hmem : x ∈ x :: a :: t := List.mem_cons_self x (a :: t)
      rw [unblockId, binarySearch, if_pos hmem, List.indexOf_cons_self]
      simp

theorem blockId_unblockId_roundtrip (l : List Nat) (x : Nat)
    (hs : List.Sorted (· < ·) l) (hx : x ∉ l) :
    (unblockId (blockId l x).2 x).2 = l := by
  have hb : (blockId l x).2 = l.insertIdx (l.countP (fun y => decide (y < x))) x := by
    rw [blockId, binarySearch, if_neg hx]
  rw [hb]
  exact unblockId_insertIdx l x hs hx

theorem blockId_sorted (l : List Nat) (x : Nat) (hs : List.Sorted (· < ·) l) :
    List.Sorted (· < ·) (blockId l x).2 := by
  by_cases hx : x ∈ l
  · rw [blockId, binarySearch, if_pos hx]
    exact hs
  · rw [blockId, binarySearch, if_neg hx]
    exact blockId_insert_sorted l x hs hx

theorem unblockId_sorted (l : List Nat) (x : Nat) (hs : List.Sorted (· < ·) l) :
    List.Sorted (· < ·) (unblockId l x).2 := by
  by_cases hx : x ∈ l
  · rw [unblockId, binarySearch, if_pos hx]
    exact List.Pairwise.sublist (List.eraseIdx_sublist _ _) hs
  · rw [unblockId, binarySearch, if_neg hx]
    exact hs

/-- C9 counterexample: with `5` already present in the (sorted, duplicate-free)
block list `[5]`, `block_id 5` is a no-op but the following `unblock_id 5`
removes the entry, so the list does not return to its original value. -/
theorem c9_counterexample :
    List.Sorted (· < ·) [5] ∧ ([5] : List Nat).Nodup
    ∧ (unblockId (blockId [5] 5).2 5).2 ≠ [5] := by
  refine ⟨?_, ?_, ?_⟩ <;> decide

/-- C9 (amended): on a sorted duplicate-free block list, `block_id` followed by
`unblock_id` of the same id restores the original list provided the id was not
already blocked; both operations preserve sortedness and duplicate-freedom
unconditionally, `block_id` returns `true` iff the id was absent, and
`unblock_id` returns `true` iff the id was present. -/
theorem c9_block_unblock (l : List Nat) (x : Nat) (hs : List.Sorted (· < ·) l) :
    (x ∉ l → (unblockId (blockId l x).2 x).2 = l)
    ∧ List.Sorted (· < ·) (blockId l x).2
    ∧ List.Sorted (· < ·) (unblockId l x).2
    ∧ (blockId l x).2.Nodup
    ∧ (unblockId l x).2.Nodup
    ∧ ((blockId l x).1 = true ↔ x ∉ l)
    ∧ ((unblockId l x).1 = true ↔ x ∈ l) := by
  refine ⟨fun hx => blockId_unblockId_roundtrip l x hs hx,
    blockId_sorted l x hs, unblockId_sorted l x hs,
    (blockId_sorted l x hs).nodup, (unblockId_sorted l x hs).nodup, ?_, ?_⟩
  · by_cases hx : x ∈ l
    · rw [blockId, binarySearch, if_pos hx]
      simp [hx]
    · rw [blockId, binarySearch, if_neg hx]
      simp [hx]
  · by_cases hx : x ∈ l
    · rw [unblockId, binarySearch, if_pos hx]
      simp [hx]
    · rw [unblockId, binarySearch, if_neg hx]
      simp [hx]

/-- C9 witness: the amended statement evaluated on the sorted list `[1, 3]`
and the fresh id `2`. -/
theorem c9_witness :
    List.Sorted (· < ·) [1, 3]
    ∧ ((2 ∉ [1, 3] → (unblockId (blockId [1, 3] 2).2 2).2 = [1, 3])
      ∧ List.Sorted (· < ·) (blockId [1, 3] 2).2
      ∧ List.Sorted (· < ·) (unblockId [1, 3] 2).2
      ∧ (blockId [1, 3] 2).2.Nodup
      ∧ (unblockId [1, 3] 2).2.Nodup
      ∧ ((blockId [1, 3] 2).1 = true ↔ 2 ∉ [1, 3])
      ∧ ((unblockId [1, 3] 2).1 = true ↔ 2 ∈ [1, 3])) :=
  ⟨by decide, c9_block_unblock [1, 3] 2 (by decide)⟩

/-! ## Throttling (per-member intake step of `process_room`, src/bin/greld.rs
lines 995-1026, together with `User::drain_byte_quota` and the quota
increment inside `User::try_get`, src/user.rs).

One tick of the intake loop for a single member is modelled as a function of
the member's byte quota and of the message (if any) decoded from the socket
this tick.  An arriving message is abstracted as `some (counts, n)` where
`counts` is `Rcvr::counts()` (the counts-as-noisy flag) and `n` the number of
bytes consumed from the receive buffer. -/

/-- Result of one intake tick for one user: final quota, quota right after
the drain, whether the "You may send messages again." Err was delivered,
whether the over-quota Err was delivered, and whether the decoded message
was dispatched to a handler (as opposed to discarded). -/
structure TickOut where
  qEnd : Nat
  qDrained : Nat
  maySendErr : Bool
  throttleErr : Bool
  dispatched : Bool
deriving DecidableEq, Repr

/-- One intake tick (src/bin/greld.rs 995-1026): compute `over_quota` from the
quota at tick start, drain `byte_tick` bytes (saturating), deliver the
may-send-again Err on a downward crossing, then decode: a decoded message is
dispatched only when the user was not over quota at tick start, and the
over-quota Err is delivered when a dispatched message pushes the (post-drain)
quota above `byte_limit`.  The quota increment happens inside
`User::try_get`, i.e. even for discarded messages. -/
def tickQuota (limit drain q0 : Nat) (inp : Option (Bool × Nat)) : TickOut :=
  let over := decide (q0 > limit)
  let q1 := q0 - drain
  let maySend := over && decide (q1 ≤ limit)
  match inp with
  | none => ⟨q1, q1, maySend, false, false⟩
  | some (counts, n) =>
    let q2 := q1 + (if counts then n else 0)
    if over then ⟨q2, q1, maySend, false, false⟩
    else ⟨q2, q1, maySend, decide (q2 > limit), true⟩

/-- Run the intake step over a sequence of ticks, collecting each tick's
outputs. -/
def runQuota (limit drain : Nat) : Nat → List (Option (Bool × Nat)) → List TickOut
  | _, [] => []
  | q, inp :: rest =>
    let out := tickQuota limit drain q inp
    out :: runQuota limit drain out.qEnd rest

/-- C5 counterexample: with `byte_limit = 512` and `byte_tick = 6`, a user
sends one big noisy message (520 bytes), then while throttled sends a small
noisy message (10 bytes) in the very tick whose drain brings the quota back
under the limit.  At that tick (index 2) the quota is 508 after the drain and
518 — above the limit — at tick end, yet no throttling-active Err is
delivered (the discarded message still counts toward the quota), the
may-send-again Err has just been delivered, and the message is discarded
rather than processed.  One tick later a second may-send-again Err follows
without any intervening throttling-active Err. -/
theorem c5_counterexample :
    (runQuota 512 6 0 [some (true, 520), none, some (true, 10), none]).get? 2
      = some ⟨518, 508, true, false, false⟩
    ∧ (runQuota 512 6 0 [some (true, 520), none, some (true, 10), none]).countP
        (fun o => o.maySendErr) = 2
    ∧ (runQuota 512 6 0 [some (true, 520), none, some (true, 10), none]).countP
        (fun o => o.throttleErr) = 1 := by
  refine ⟨?_, ?_, ?_⟩ <;> decide

/-- Noisy-byte increment carried by a tick input: the bytes consumed when a
message was decoded and counts as noisy, `0` otherwise. -/
def noisyInc (inp : Option (Bool × Nat)) : Nat :=
  match inp with
  | some (c, n) => if c then n else 0
  | none => 0

/-- C5 (amended): the exact emission discipline of the quota machinery.  In
every tick: the throttling-active Err is delivered iff the user started the
tick at or under the limit, a message was decoded, and the post-drain quota
plus the noisy increment exceeds the limit; the decoded message is dispatched
iff the user started the tick at or under the limit; the may-send-again Err
is delivered iff the user started the tick over the limit and the drain
brought the quota to or under it.  Discarded messages still increase the
quota, so the quota can re-cross the limit without a new throttling-active
Err, and a message decoded in the recovery tick itself is still discarded. -/
theorem c5_quota_discipline (limit drain q0 : Nat) (inp : Option (Bool × Nat)) :
    ((tickQuota limit drain q0 inp).throttleErr = true
      ↔ (q0 ≤ limit ∧ inp ≠ none ∧ (q0 - drain) + noisyInc inp > limit))
    ∧ ((tickQuota limit drain q0 inp).dispatched = true
      ↔ (q0 ≤ limit ∧ inp ≠ none))
    ∧ ((tickQuota limit drain q0 inp).maySendErr = true
      ↔ (q0 > limit ∧ q0 - drain ≤ limit))
    ∧ (tickQuota limit drain q0 inp).qDrained = q0 - drain
    ∧ (tickQuota limit drain q0 inp).qEnd = (q0 - drain) + noisyInc inp := by
  match inp with
  | none =>
    by_cases hover : q0 > limit
    · simp [tickQuota, noisyInc, hover, Nat.not_le.mpr hover]
    · simp [tickQuota, noisyInc, hover, Nat.not_lt.mp hover]
  | some (c, n) =>
    by_cases hover : q0 > limit
    · simp [tickQuota, noisyInc, hover, Nat.not_le.mpr hover]
    · simp [tickQuota, noisyInc, hover, Nat.not_lt.mp hover]

/-! ## Wire protocol, structural model (src/proto2.rs / src/proto3.rs)

An `Env` in the Rust sources carries `data: Vec<u8>` obtained from
`Msg::bytes()` (a serde encoding, injective on messages); the structural
model carries the message value itself.  Only the message variants the
server-side handlers construct are needed here. -/

/-- Structural model of the server-to-client / bidirectional `Msg` variants
produced by the handlers in src/bin/greld.rs. -/
inductive SMsg where
  | text (who : String) (lines : List String)
  | ping
  | priv (who txt : String)
  | logout (s : String)
  | info (s : String)
  | err (s : String)
  | misc (what : String) (data : List String) (alt : String)
deriving DecidableEq, Repr

/-- Model of `Endpoint` (src/proto2.rs) / `End` (src/proto3.rs). -/
inductive Endp where
  | user (id : Nat)
  | room (id : Nat)
  | server
  | all
deriving DecidableEq, Repr

/-- Model of `Env`: source and destination endpoints plus the (pre-encoded)
message. -/
structure SEnv where
  source : Endp
  dest : Endp
  msg : SMsg
deriving DecidableEq, Repr

/-! ## Name normalization (`ascollapse`, src/user.rs) -/

/-- Model of `ascollapse` (src/user.rs): lowercase the string and drop every
whitespace character, then fold diacritics through the `unidata` table.
Modelled from the spec: the table itself lives in `src/unidata.rs`, which is
not present under src/; the spec describes it as a character-to-base-character
map, modelled here as the identity map (no claim settled in this development
depends on particular table entries). -/
def ascollapse (s : String) : String :=
  String.mk ((s.data.map Char.toLower).filter (fun c => ¬ c.isWhitespace))

/-! ## Server-side `User` and `Room` state (src/user.rs, src/room.rs) -/

/-- Server-side state of a connected user (src/user.rs).  The frame socket is
abstracted to its outgoing queue (`outbox`, a list of enqueued messages — the
Rust code enqueues their encodings) and a shutdown flag. -/
structure UserM where
  idn : Nat
  name : String
  idstr : String
  blocks : List Nat
  outbox : List SMsg
  quota : Nat
  lastData : Nat
  errs : Nat
  shut : Bool
deriving DecidableEq, Repr

/-- Model of `Room` (src/room.rs). -/
structure RoomM where
  idn : Nat
  name : String
  idstr : String
  members : List Nat
  op : Nat
  closed : Bool
  bans : List Nat
  invites : List Nat
  inbox : List SEnv
deriving DecidableEq, Repr

/-- Model of `Room::new`. -/
def roomNew (id : Nat) (newName : String) (creatorId : Nat) : RoomM :=
  { idn := id, name := newName, idstr := ascollapse newName, members := [],
    op := creatorId, closed := false, bans := [], invites := [], inbox := [] }

/-- Model of `Room::join`: append to `members`. -/
def roomJoin (r : RoomM) (uid : Nat) : RoomM :=
  { r with members := r.members ++ [uid] }

/-- Model of `Room::leave`: filter-remove from `members`. -/
def roomLeave (r : RoomM) (uid : Nat) : RoomM :=
  { r with members := r.members.filter (fun n => n ≠ uid) }

/-- Model of `Room::ban`: remove from `invites`, push onto `bans`. -/
def roomBan (r : RoomM) (uid : Nat) : RoomM :=
  { r with invites := r.invites.filter (fun n => n ≠ uid),
           bans := r.bans ++ [uid] }

/-- Model of `User::deliver_msg` (src/user.rs): enqueue the encoded message on
the socket regardless of origin. -/
def userDeliverMsg (u : UserM) (m : SMsg) : UserM :=
  { u with outbox := u.outbox ++ [m] }

/-- Model of `User::deliver` (src/user.rs): drop silently when the envelope
source is a blocked user (a `binary_search` over the sorted `blocks` list),
otherwise enqueue the envelope bytes. -/
def userDeliver (u : UserM) (env : SEnv) : UserM :=
  match env.source with
  | .user sid =>
    match binarySearch u.blocks sid with
    | .ok _ => u
    | .error _ => { u with outbox := u.outbox ++ [env.msg] }
  | _ => { u with outbox := u.outbox ++ [env.msg] }

/-- Model of `Room::deliver` (src/room.rs): an envelope destined to
`User(uid)` goes to that user when `uid` is a key of the user map (room
membership is not consulted); any other destination is broadcast to every
current member found in the user map. -/
def roomDeliver (r : RoomM) (env : SEnv) (um : List (Nat × UserM)) :
    List (Nat × UserM) :=
  match env.dest with
  | .user uid =>
    match alookup um uid with
    | some u => ainsert um uid (userDeliver u env)
    | none => um
  | _ =>
    r.members.foldl (fun m uid =>
      match alookup m uid with
      | some u => ainsert m uid (userDeliver u env)
      | none => m) um

/-- Model of `Room::deliver_inbox` (src/room.rs): drain the inbox, routing
each envelope with the same logic as `Room::deliver` (the Rust body is a
duplicate of `deliver`); returns the room with its inbox emptied together
with the updated user map. -/
def roomDeliverInbox (r : RoomM) (um : List (Nat × UserM)) :
    RoomM × List (Nat × UserM) :=
  ({ r with inbox := [] }, r.inbox.foldl (fun m env => roomDeliver r env m) um)

/-! ## Process-wide state (owned by `main` in src/bin/greld.rs) -/

/-- The four lookup tables of the main loop, plus the listener's id counter
(`new_user_id` in `listen`, threaded here so that admissions can be part of
an operation sequence). -/
structure GState where
  umap : List (Nat × UserM)
  ustr : List (String × Nat)
  rmap : List (Nat × RoomM)
  rstr : List (String × Nat)
  nextUid : Nat
deriving DecidableEq, Repr

/-- Model of `first_free_id` (src/bin/greld.rs): the smallest id not bound in
the map.  The Rust loop is unbounded; `keys + 1` probes suffice by a
pigeonhole argument (`firstFreeId_free` below). -/
def firstFreeAux {β : Type} (m : List (Nat × β)) : Nat → Nat → Nat
  | 0, n => n
  | fuel + 1, n => if (alookup m n).isSome then firstFreeAux m fuel (n + 1) else n

/-- Model of `first_free_id`, entry point. -/
def firstFreeId {β : Type} (m : List (Nat × β)) : Nat :=
  firstFreeAux m (m.length + 1) 0

/-- Model of `gen_name` (src/bin/greld.rs): the first `user<n>` (counting up
from `init_count`) that is not a key of `users_by_name`.  As with
`first_free_id`, the unbounded Rust loop is given `keys + 1` probes. -/
def genNameAux (m : List (String × Nat)) : Nat → Nat → String
  | 0, n => "user" ++ toString n
  | fuel + 1, n =>
    if (slookup m ("user" ++ toString n)).isSome then genNameAux m fuel (n + 1)
    else "user" ++ toString n

/-- Model of `gen_name`, entry point. -/
def genName (initCount : Nat) (m : List (String × Nat)) : String :=
  genNameAux m (m.length + 1) initCount

/-! ## Message handlers (src/bin/greld.rs)

Each `do_*` function receives a `Context { rid, uid, … }` holding mutable
access to the four tables and returns `Result<Vec<Env>, String>`.  The model
threads the state explicitly: a handler returns the (possibly partially)
mutated state together with either the produced envelopes or the internal
error string — in the Rust code mutations performed before an early internal
`Err` return persist, and the model keeps them. -/

/-- Model of `do_name` (src/bin/greld.rs lines 238-297). -/
def doName (st : GState) (maxUserNameLength : Nat) (rid uid : Nat)
    (newCandidate : String) : GState × Except String (List SEnv) :=
  let newStr := ascollapse newCandidate
  if newStr.length = 0 then
    (st, .ok [⟨.server, .user uid,
      .err "Your name must have more whitespace characters."⟩])
  else if newCandidate.utf8ByteSize > maxUserNameLength then
    (st, .ok [⟨.server, .user uid,
      .err ("Your name cannot be longer than "
        ++ toString maxUserNameLength ++ " characters.")⟩])
  else
    let proceed : GState × Except String (List SEnv) :=
      match alookup st.umap uid with
      | none => (st, .error "gumap_mut returns None")
      | some mu =>
        let oldName := mu.name
        let oldIdstr := mu.idstr
        let mu1 := { mu with name := newCandidate, idstr := newStr }
        let env : SEnv := ⟨.server, .room rid,
          .misc "name" [oldName, newCandidate]
            (oldName ++ " is now known as " ++ newCandidate ++ ".")⟩
        ({ st with umap := ainsert st.umap uid mu1,
                   ustr := sinsert (sremove st.ustr oldIdstr) newStr uid },
         .ok [env])
    match slookup st.ustr newStr with
    | some ouid =>
      match alookup st.umap ouid with
      | none => (st, .error "gumap returns None")
      | some ou =>
        if ouid ≠ uid then
          (st, .ok [⟨.server, .user uid,
            .err ("There is already a user named \"" ++ ou.name ++ "\".")⟩])
        else proceed
    | none => proceed

/-- Model of `do_join` (src/bin/greld.rs lines 301-386). -/
def doJoin (st : GState) (maxRoomNameLength : Nat) (rid uid : Nat)
    (roomName : String) : GState × Except String (List SEnv) :=
  let collapsed := ascollapse roomName
  if collapsed.length = 0 then
    (st, .ok [⟨.server, .user uid,
      .err "A room name must have more non-whitespace characters."⟩])
  else if roomName.utf8ByteSize > maxRoomNameLength then
    (st, .ok [⟨.server, .user uid,
      .err ("Room names cannot be longer than "
        ++ toString maxRoomNameLength ++ " characters.")⟩])
  else
    let resolved : GState × Except String Nat :=
      match slookup st.rstr collapsed with
      | some n => (st, .ok n)
      | none =>
        let newId := firstFreeId st.rmap
        let newRoom := roomNew newId roomName uid
        let st1 := { st with rstr := sinsert st.rstr collapsed newId,
                             rmap := ainsert st.rmap newId newRoom }
        match alookup st1.umap uid with
        | none => (st1, .error "gumap_mut returns None")
        | some mu =>
          ({ st1 with umap := ainsert st1.umap uid (userDeliverMsg mu
              (.info ("You create room \"" ++ roomName ++ "\"."))) },
           .ok newId)
    match resolved with
    | (st1, .error e) => (st1, .error e)
    | (st1, .ok tgtRid) =>
      match alookup st1.umap uid with
      | none => (st1, .error "gumap returns None")
      | some u =>
        let uname := u.name
        match alookup st1.rmap tgtRid with
        | none => (st1, .error "grmap_mut returns None")
        | some targ =>
          if tgtRid = rid then
            (st1, .ok [⟨.server, .user uid,
              .info ("You are already in \"" ++ targ.name ++ "\".")⟩])
          else if targ.bans.contains uid then
            (st1, .ok [⟨.server, .user uid,
              .info ("You are banned from \"" ++ targ.name ++ "\".")⟩])
          else if targ.closed ∧ ¬ (targ.invites.contains uid) then
            (st1, .ok [⟨.server, .user uid,
              .info ("\"" ++ targ.name ++ "\" is closed.")⟩])
          else
            let joinEnv : SEnv := ⟨.server, .room tgtRid,
              .misc "join" [uname, targ.name]
                (uname ++ " joins " ++ targ.name ++ ".")⟩
            let targ1 := { roomJoin targ uid with
                           inbox := (roomJoin targ uid).inbox ++ [joinEnv] }
            let st2 := { st1 with rmap := ainsert st1.rmap tgtRid targ1 }
            match alookup st2.rmap rid with
            | none => (st2, .error "grmap_mut returns None")
            | some cur =>
              let leaveEnv : SEnv := ⟨.server, .room tgtRid,
                .misc "leave" [uname, "[ moved to another room ]"]
                  (uname ++ " moved to another room.")⟩
              ({ st2 with rmap := ainsert st2.rmap rid (roomLeave cur uid) },
               .ok [leaveEnv])

/-- Model of `do_logout` (src/bin/greld.rs lines 480-506).  The removed
`User` value receives `logout("You have logged out.")` (a best-effort send
plus socket shutdown) before being dropped; since the value leaves the user
map here, that call has no further observable effect on the state. -/
def doLogout (st : GState) (rid uid : Nat) (salutation : String) :
    GState × Except String (List SEnv) :=
  match alookup st.rmap rid with
  | none => (st, .error "no Room")
  | some mr =>
    let mr1 := roomLeave mr uid
    let st1 := { st with rmap := ainsert st.rmap rid mr1 }
    match alookup st1.umap uid with
    | none => (st1, .error "no User")
    | some mu =>
      let env : SEnv := ⟨.server, .room rid,
        .misc "leave" [mu.name, salutation]
          (mu.name ++ " leaves: " ++ salutation)⟩
      ({ st1 with umap := aremove st1.umap uid,
                  ustr := sremove st1.ustr mu.idstr,
                  rmap := ainsert st1.rmap rid
                    { mr1 with inbox := mr1.inbox ++ [env] } },
       .ok [])

/-- Model of the `Op::Kick` arm of `do_op` (src/bin/greld.rs lines 637-654
and 815-938), including the operator gate of `do_op`.  The Rust code unwraps
the Lobby from the room map; a missing Lobby (a panic in Rust) is modelled as
an internal error return that keeps the mutations made so far. -/
def doOpKick (st : GState) (rid uid : Nat) (uname : String) :
    GState × Except String (List SEnv) :=
  match alookup st.rmap rid with
  | none => (st, .error "no Room")
  | some r =>
    if r.op ≠ uid then
      (st, .ok [⟨.server, .user uid,
        .err "You are not the operator of this Room."⟩])
    else
      match alookup st.umap uid with
      | none => (st, .error "gumap returns None")
      | some _ =>
        let collapsed := ascollapse uname
        if collapsed.length = 0 then
          (st, .ok [⟨.server, .user uid,
            .info "That cannot be anyone's user name."⟩])
        else
          match slookup st.ustr collapsed with
          | none =>
            (st, .ok [⟨.server, .user uid,
              .info ("No users matching the pattern \""
                ++ collapsed ++ "\".")⟩])
          | some ouid =>
            if ouid = uid then
              (st, .ok [⟨.server, .user uid,
                .info "Bestowing the operator mantle on another and then leaving would be a more orderly transfer of power."⟩])
            else
              match alookup st.umap ouid with
              | none => (st, .error "no target User")
              | some ku =>
                if r.bans.contains ouid then
                  (st, .ok [⟨.server, .user uid,
                    .info (ku.name ++ " is already banned from "
                      ++ r.name ++ ".")⟩])
                else
                  let r1 := roomBan r ouid
                  let inRoom := r1.members.contains ouid
                  if ¬ inRoom then
                    ({ st with rmap := ainsert st.rmap rid r1 },
                     .ok [⟨.server, .user uid,
                       .info ("You have banned " ++ ku.name ++ " from "
                         ++ r1.name ++ ".")⟩])
                  else
                    let ku1 := userDeliverMsg ku
                      (.info ("You have been kicked from " ++ r1.name ++ "."))
                    let r2 := roomLeave r1 ouid
                    let curRoomName := r2.name
                    let st1 := { st with umap := ainsert st.umap ouid ku1,
                                         rmap := ainsert st.rmap rid r2 }
                    match alookup st1.rmap 0 with
                    | none => (st1, .error "panic: no Lobby")
                    | some lobby =>
                      let toLobby : SEnv := ⟨.server, .room rid,
                        .misc "join" [ku.name, lobby.name]
                          (ku.name ++ " joins " ++ lobby.name ++ ".")⟩
                      let lobby1 := { roomJoin lobby ouid with
                        inbox := (roomJoin lobby ouid).inbox ++ [toLobby] }
                      let st2 := { st1 with
                        rmap := ainsert st1.rmap 0 lobby1 }
                      (st2, .ok [⟨.server, .room rid,
                        .misc "kick_other" [ku.name, curRoomName]
                          (ku.name ++ " has been kicked from "
                            ++ curRoomName ++ ".")⟩])

/-- Model of the new-user admission block of the main loop
(src/bin/greld.rs lines 1198-1240): welcome Info, rename when the idstr is
empty, the name over-long, or the idstr collides; then a join envelope into
the Lobby's inbox, Lobby membership, and insertion into both user tables.
The admitted user's id is the listener's counter value, which is then
incremented (src/bin/greld.rs `listen`, lines 125-157). -/
def admitUser (st : GState) (maxUserNameLength : Nat)
    (lobbyName welcome : String) (name : String) : GState :=
  let uid := st.nextUid
  let u0 : UserM :=
    { idn := uid, name := name, idstr := ascollapse name,
      blocks := [], outbox := [.info welcome], quota := 0, lastData := 0,
      errs := 0, shut := false }
  let renameReason : Option String :=
    if u0.idstr.length = 0 then
      some "Your name does not have enough whitespace characters."
    else if u0.name.utf8ByteSize > maxUserNameLength then
      some ("Your name cannot be longer than "
        ++ toString maxUserNameLength ++ " bytes.")
    else
      match slookup st.ustr u0.idstr with
      | some userN =>
        some ("Name \"" ++ (match alookup st.umap userN with
          | some ou => ou.name
          | none => "") ++ "\" exists.")
      | none => none
  let u1 : UserM :=
    match renameReason with
    | none => u0
    | some errMsg =>
      let newName := genName uid st.ustr
      let u := userDeliverMsg u0 (.err errMsg)
      let u2 :=
        { u with name := newName, idstr := ascollapse newName }
      userDeliverMsg u2
        (.misc "name" [u0.name, newName]
          ("You are now known as \"" ++ newName ++ "\"."))
  let joinEnv : SEnv := ⟨.server, .room 0,
    .misc "join" [u1.name, lobbyName]
      (u1.name ++ " joins " ++ lobbyName ++ ".")⟩
  match alookup st.rmap 0 with
  | none => st
  | some lobby =>
    let lobby1 := { roomJoin lobby uid with
      inbox := (roomJoin lobby uid).inbox ++ [joinEnv] }
    { st with rmap := ainsert st.rmap 0 lobby1,
              ustr := sinsert st.ustr u1.idstr uid,
              umap := ainsert st.umap uid u1,
              nextUid := uid + 1 }

/-- Model of Phase C of `process_room` (src/bin/greld.rs lines 1057-1074):
for each id in the idle-`logouts` list, enqueue a server `Logout` message on
that user's socket and append a `Misc leave` envelope to the tick's pending
list.  Nothing is removed from any table and no socket is shut down. -/
def phaseC (um : List (Nat × UserM)) (rid : Nat) (logouts : List Nat)
    (envz : List SEnv) : List (Nat × UserM) × List SEnv :=
  logouts.foldl (fun acc uid =>
    match alookup acc.1 uid with
    | some mu =>
      (ainsert acc.1 uid (userDeliverMsg mu
        (.logout "Too long since the server received data from the client.")),
       acc.2 ++ [⟨.server, .room rid,
         .misc "leave" [mu.name, "[ disconnected by server ]"]
           (mu.name ++ " has been disconnected from the server.")⟩])
    | none => acc) (um, envz)

/-! ## Operation sequences (claim C2) -/

/-- The configuration values consumed by the modelled operations
(`ServerConfig`, src/config.rs). -/
structure CfgM where
  maxUserNameLength : Nat
  maxRoomNameLength : Nat
  lobbyName : String
  welcome : String
deriving DecidableEq, Repr

/-- An operation of the main loop: a `Join`, `Logout` or `Op(Kick)` message
dispatched for user `uid` while room `rid` is being processed, or the
admission of a new user from the listener queue. -/
inductive GOp where
  | join (uid rid : Nat) (roomName : String)
  | logout (uid rid : Nat) (salutation : String)
  | kick (uid rid : Nat) (target : String)
  | admitU (name : String)
deriving DecidableEq, Repr

/-- Apply one operation exactly as `process_room` dispatches it: `rid` is the
room being processed (which the code does not re-check against the user's
actual room), and the handler's state mutations persist regardless of its
`Result`. -/
def applyRaw (cfg : CfgM) (st : GState) : GOp → GState
  | .join uid rid nm => (doJoin st cfg.maxRoomNameLength rid uid nm).1
  | .logout uid rid s => (doLogout st rid uid s).1
  | .kick uid rid t => (doOpKick st rid uid t).1
  | .admitU n => admitUser st cfg.maxUserNameLength cfg.lobbyName cfg.welcome n

/-- Run a sequence of operations as the code dispatches them. -/
def execRaw (cfg : CfgM) (st : GState) (ops : List GOp) : GState :=
  ops.foldl (applyRaw cfg) st

/-- Whether `uid` is currently a member of room `rid`. -/
def memberOf (st : GState) (uid rid : Nat) : Bool :=
  match alookup st.rmap rid with
  | some r => r.members.contains uid
  | none => false

/-- An operation is dispatched in the acting user's current room.  This is
what `process_room` guarantees at the start of a tick (it iterates a snapshot
of the room's member list) but not after a handler run earlier in the same
tick has already moved the user. -/
def validOp (st : GState) : GOp → Bool
  | .join uid rid _ => memberOf st uid rid
  | .logout uid rid _ => memberOf st uid rid
  | .kick uid rid _ => memberOf st uid rid
  | .admitU _ => true

/-- Apply one operation under the same-room dispatch condition; an operation
whose dispatch room is no longer the user's room is skipped. -/
def applyOp (cfg : CfgM) (st : GState) (op : GOp) : GState :=
  if validOp st op then applyRaw cfg st op else st

/-- Run a sequence of operations under the same-room dispatch condition. -/
def exec (cfg : CfgM) (st : GState) (ops : List GOp) : GState :=
  ops.foldl (applyOp cfg) st

/-- The initial state of `main` (src/bin/greld.rs lines 1151-1161): empty
user tables, the Lobby as room 0 with operator id 0, an empty
`rooms_by_name` table (the Lobby is never inserted there), and the
listener's id counter at 100. -/
def initState (lobbyName : String) : GState :=
  { umap := [], ustr := [],
    rmap := [(0, roomLeave (roomNew 0 lobbyName 0) 0)], rstr := [],
    nextUid := 100 }

/-- In how many rooms does `uid` currently appear as a member? -/
def countRooms (st : GState) (uid : Nat) : Nat :=
  st.rmap.countP (fun p => decide (uid ∈ p.2.members))

/-- The state invariant of claim C2, together with the bookkeeping facts
needed to push it through every operation. -/
structure GInv (st : GState) : Prop where
  rkeysNodup : (akeys st.rmap).Nodup
  ukeysNodup : (akeys st.umap).Nodup
  lobbyExists : alookup st.rmap 0 ≠ none
  lobbyOp : ∀ lob, alookup st.rmap 0 = some lob → lob.op = 0
  uidPos : ∀ uid ∈ akeys st.umap, 0 < uid
  uidBound : ∀ uid ∈ akeys st.umap, uid < st.nextUid
  nextPos : 0 < st.nextUid
  membersKnown : ∀ rid r, alookup st.rmap rid = some r →
    ∀ uid ∈ r.members, uid ∈ akeys st.umap
  exactlyOne : ∀ uid ∈ akeys st.umap, countRooms st uid = 1

theorem aremove_eq_of_not_mem {α β : Type} [DecidableEq α]
    (m : List (α × β)) (k : α) (h : k ∉ akeys m) : aremove m k = m := by
  induction m with
  | nil => rfl
  | cons p t ih =>
    have hp : p.1 ≠ k := by
      intro he
      exact h (by simp [akeys, he])
    rw [aremove_cons, if_neg hp, ih (fun hm => h (by simp [akeys] at hm ⊢; exact Or.inr hm))]

theorem akeys_aremove_nodup {α β : Type} [DecidableEq α]
    (m : List (α × β)) (k : α) (h : (akeys m).Nodup) :
    (akeys (aremove m k)).Nodup := by
  induction m with
  | nil => exact h
  | cons p t ih =>
    simp only [akeys, List.map_cons, List.nodup_cons] at h
    rw [aremove_cons]
    by_cases hp : p.1 = k
    · rw [if_pos hp]; exact ih h.2
    · rw [if_neg hp]
      simp only [akeys, List.map_cons, List.nodup_cons]
      refine ⟨fun hm => h.1 ?_, ih h.2⟩
      exact akeys_aremove_subset t k p.1 hm
    
theorem akeys_ainsert_nodup {α β : Type} [DecidableEq α]
    (m : List (α × β)) (k : α) (v : β) (h : (akeys m).Nodup) :
    (akeys (ainsert m k v)).Nodup := by
  rw [ainsert]
  simp only [akeys, List.map_cons, List.nodup_cons]
  constructor
  · intro hm
    have : alookup (aremove m k) k ≠ none :=
      (mem_akeys_iff (aremove m k) k).mp hm
    exact this (alookup_aremove_self m k)
  · exact akeys_aremove_nodup m k h

theorem countP_ainsert {α β : Type} [DecidableEq α]
    (m : List (α × β)) (k : α) (v : β) (q : α × β → Bool) :
    (ainsert m k v).countP q
      = (aremove m k).countP q + (if q (k, v) then 1 else 0) := by
  rw [ainsert, List.countP_cons]

theorem countP_eq_entry {α β : Type} [DecidableEq α]
    (m : List (α × β)) (k : α) (v : β) (q : α × β → Bool)
    (hn : (akeys m).Nodup) (hl : alookup m k = some v) :
    m.countP q = (aremove m k).countP q + (if q (k, v) then 1 else 0) := by
  induction m with
  | nil => simp [alookup_nil] at hl
  | cons p t ih =>
    simp only [akeys, List.map_cons, List.nodup_cons] at hn
    rw [alookup_cons] at hl
    by_cases hp : p.1 = k
    · rw [if_pos hp] at hl
      have hv : p.2 = v := by injection hl
      have hkt : k ∉ akeys t := hp ▸ hn.1
      rw [aremove_cons, if_pos hp, aremove_eq_of_not_mem t k hkt,
        List.countP_cons]
      have hpkv : p = (k, v) := by
        cases p; simp only [Prod.mk.injEq]; exact ⟨hp, hv⟩
      rw [hpkv]
    · rw [if_neg hp] at hl
      rw [aremove_cons, if_neg hp, List.countP_cons, List.countP_cons,
        ih hn.2 hl]
      omega

theorem countP_succ_lt {β : Type} (m : List (Nat × β)) (n : Nat)
    (h : (alookup m n).isSome) :
    m.countP (fun p => decide (n + 1 ≤ p.1)) < m.countP (fun p => decide (n ≤ p.1)) := by
  induction m with
  | nil => simp [alookup_nil] at h
  | cons p t ih =>
    rw [List.countP_cons, List.countP_cons]
    by_cases hp : p.1 = n
    · have h1 : ¬ (n + 1 ≤ p.1) := by omega
      have h2 : n ≤ p.1 := by omega
      have hmono : t.countP (fun p => decide (n + 1 ≤ p.1))
          ≤ t.countP (fun p => decide (n ≤ p.1)) := by
        apply List.countP_mono_left
        intro x _ hx
        simp only [decide_eq_true_eq] at hx ⊢
        omega
      have e1 : (if decide (n + 1 ≤ p.1) = true then 1 else 0) = 0 := by
        simp [h1]
      have e2 : (if decide (n ≤ p.1) = true then 1 else 0) = 1 := by
        simp [h2]
      rw [e1, e2]
      omega
    · rw [alookup_cons, if_neg hp] at h
      have := ih h
      have hcontrib : (if decide (n + 1 ≤ p.1) = true then 1 else 0)
          ≤ (if decide (n ≤ p.1) = true then 1 else 0) := by
        by_cases hc : n + 1 ≤ p.1
        · have : n ≤ p.1 := by omega
          simp [hc, this]
        · simp only [hc, decide_False]
          by_cases hd : n ≤ p.1 <;> simp [hd]
      omega

theorem firstFreeAux_not_mem {β : Type} (m : List (Nat × β)) :
    ∀ fuel n, m.countP (fun p => decide (n ≤ p.1)) < fuel →
    alookup m (firstFreeAux m fuel n) = none := by
  intro fuel
  induction fuel with
  | zero => intro n h; omega
  | succ fuel ih =>
    intro n h
    rw [firstFreeAux]
    by_cases hs : (alookup m n).isSome
    · rw [if_pos hs]
      apply ih
      have := countP_succ_lt m n hs
      omega
    · rw [if_neg hs]
      exact Option.not_isSome_iff_eq_none.mp hs

theorem firstFreeId_free {β : Type} (m : List (Nat × β)) :
    alookup m (firstFreeId m) = none := by
  apply firstFreeAux_not_mem
  have := List.countP_le_length (fun (p : Nat × β) => decide (0 ≤ p.1)) (l := m)
  omega

/-! ### Generic invariant-preservation helpers -/

theorem akeys_ainsert_mem_iff {α β : Type} [DecidableEq α]
    (m : List (α × β)) (k k' : α) (v : β) (h : k ∈ akeys m) :
    (k' ∈ akeys (ainsert m k v) ↔ k' ∈ akeys m) := by
  rw [akeys_ainsert]
  constructor
  · rintro (rfl | h')
    · exact h
    · exact h'
  · exact Or.inr

/-- Updating the value stored for an existing user does not disturb the
invariant. -/
theorem GInv_umap_update (st : GState) (uid : Nat) (u' : UserM)
    (hi : GInv st) (hm : uid ∈ akeys st.umap) :
    GInv { st with umap := ainsert st.umap uid u' } := by
  have hiff : ∀ k', k' ∈ akeys (ainsert st.umap uid u') ↔ k' ∈ akeys st.umap :=
    fun k' => akeys_ainsert_mem_iff st.umap uid k' u' hm
  refine ⟨hi.rkeysNodup, akeys_ainsert_nodup st.umap uid u' hi.ukeysNodup,
    hi.lobbyExists, hi.lobbyOp, ?_, ?_, hi.nextPos, ?_, ?_⟩
  · intro k hk
    exact hi.uidPos k ((hiff k).mp hk)
  · intro k hk
    exact hi.uidBound k ((hiff k).mp hk)
  · intro rid r hr k hk
    exact (hiff k).mpr (hi.membersKnown rid r hr k hk)
  · intro k hk
    exact hi.exactlyOne k ((hiff k).mp hk)

/-- The invariant does not mention `users_by_name`. -/
theorem GInv_ustr_update (st : GState) (ustr' : List (String × Nat))
    (hi : GInv st) : GInv { st with ustr := ustr' } := by
  refine ⟨hi.rkeysNodup, hi.ukeysNodup, hi.lobbyExists, hi.lobbyOp,
    hi.uidPos, hi.uidBound, hi.nextPos, hi.membersKnown, hi.exactlyOne⟩

/-- Replacing one existing room changes each user's room count by the
difference of the membership indicators for that room. -/
theorem countRooms_room_update (rmap : List (Nat × RoomM)) (rid : Nat)
    (r r' : RoomM) (uid : Nat) (hn : (akeys rmap).Nodup)
    (hl : alookup rmap rid = some r) :
    (ainsert rmap rid r').countP (fun p => decide (uid ∈ p.2.members))
      + (if uid ∈ r.members then 1 else 0)
    = rmap.countP (fun p => decide (uid ∈ p.2.members))
      + (if uid ∈ r'.members then 1 else 0) := by
  have h1 := countP_ainsert rmap rid r'
    (fun p => decide (uid ∈ p.2.members))
  have h2 := countP_eq_entry rmap rid r
    (fun p => decide (uid ∈ p.2.members)) hn hl
  simp only [decide_eq_true_eq] at h1 h2
  omega

theorem alookup_of_mem {α β : Type} [DecidableEq α] (m : List (α × β))
    (k : α) (v : β) (hn : (akeys m).Nodup) (hm : (k, v) ∈ m) :
    alookup m k = some v := by
  induction m with
  | nil => cases hm
  | cons p t ih =>
    simp only [akeys, List.map_cons, List.nodup_cons] at hn
    rcases List.mem_cons.mp hm with he | ht
    · subst he
      rw [alookup_cons, if_pos rfl]
    · by_cases hp : p.1 = k
      · exfalso
        apply hn.1
        rw [hp]
        exact List.mem_map.mpr ⟨(k, v), ht, rfl⟩
      · rw [alookup_cons, if_neg hp]
        exact ih hn.2 ht

/-- A user id bound in no room has room count zero. -/
theorem countRooms_eq_zero_of_unknown (st : GState) (uid : Nat)
    (hi : GInv st) (hu : uid ∉ akeys st.umap) : countRooms st uid = 0 := by
  rw [countRooms, List.countP_eq_zero]
  intro p hp
  simp only [decide_eq_true_eq]
  intro hmem
  exact hu (hi.membersKnown p.1 p.2 (alookup_of_mem st.rmap p.1 p.2 hi.rkeysNodup hp)
    uid hmem)

/-- Invariant preservation for the admission shape: one fresh user inserted
into the user tables and appended to the Lobby's members. -/
theorem GInv_admitU_shape (st : GState) (u1 : UserM) (lobby1 : RoomM)
    (s : String) (lobby : RoomM) (hlob : alookup st.rmap 0 = some lobby)
    (hmem : lobby1.members = lobby.members ++ [st.nextUid])
    (hop : lobby1.op = lobby.op) (hi : GInv st) :
    GInv { st with rmap := ainsert st.rmap 0 lobby1,
                   ustr := sinsert st.ustr s st.nextUid,
                   umap := ainsert st.umap st.nextUid u1,
                   nextUid := st.nextUid + 1 } := by
  have hfresh : st.nextUid ∉ akeys st.umap := by
    intro hmm
    exact absurd (hi.uidBound st.nextUid hmm) (by omega)
  refine ⟨akeys_ainsert_nodup st.rmap 0 lobby1 hi.rkeysNodup,
    akeys_ainsert_nodup st.umap st.nextUid u1 hi.ukeysNodup, ?_, ?_, ?_, ?_, ?_, ?_, ?_⟩
  · simp only
    rw [alookup_ainsert_self]
    simp
  · intro lob hl
    simp only at hl
    rw [alookup_ainsert_self] at hl
    injection hl with hl
    rw [← hl, hop]
    exact hi.lobbyOp lobby hlob
  · intro k hk
    simp only at hk
    rcases (akeys_ainsert st.umap st.nextUid k u1).mp hk with he | hm
    · subst he; exact hi.nextPos
    · exact hi.uidPos k hm
  · intro k hk
    simp only at hk ⊢
    rcases (akeys_ainsert st.umap st.nextUid k u1).mp hk with he | hm
    · omega
    · have := hi.uidBound k hm; omega
  · simp only; omega
  · intro rid r hr k hk
    simp only at hr hk ⊢
    by_cases h0 : rid = 0
    · subst h0
      rw [alookup_ainsert_self] at hr
      injection hr with hr
      rw [← hr, hmem] at hk
      rcases List.mem_append.mp hk with hold | hnew
      · exact (akeys_ainsert st.umap st.nextUid k u1).mpr
          (Or.inr (hi.membersKnown 0 lobby hlob k hold))
      · have hke : k = st.nextUid := List.mem_singleton.mp hnew
        exact (akeys_ainsert st.umap st.nextUid k u1).mpr (Or.inl hke)
    · rw [alookup_ainsert_ne st.rmap 0 rid lobby1 h0] at hr
      exact (akeys_ainsert st.umap st.nextUid k u1).mpr
        (Or.inr (hi.membersKnown rid r hr k hk))
  · intro k hk
    simp only at hk ⊢
    have hupd := countRooms_room_update st.rmap 0 lobby lobby1 k
      hi.rkeysNodup hlob
    rcases (akeys_ainsert st.umap st.nextUid k u1).mp hk with he | hm
    · subst he
      have hz : countRooms st st.nextUid = 0 :=
        countRooms_eq_zero_of_unknown st st.nextUid hi hfresh
      have hnotlob : st.nextUid ∉ lobby.members := by
        intro hmm
        exact hfresh (hi.membersKnown 0 lobby hlob st.nextUid hmm)
      have hinlob : st.nextUid ∈ lobby1.members := by
        rw [hmem]
        exact List.mem_append.mpr (Or.inr (List.mem_singleton.mpr rfl))
      rw [countRooms] at hz
      show (ainsert st.rmap 0 lobby1).countP
        (fun p => decide (st.nextUid ∈ p.2.members)) = 1
      rw [if_neg hnotlob, if_pos hinlob] at hupd
      omega
    · have hone := hi.exactlyOne k hm
      have hkne : k ≠ st.nextUid := by
        intro he; subst he; exact hfresh hm
      have e3 : (k ∈ lobby1.members) ↔ (k ∈ lobby.members) := by
        rw [hmem]
        simp [hkne]
      rw [countRooms] at hone
      show (ainsert st.rmap 0 lobby1).countP
        (fun p => decide (k ∈ p.2.members)) = 1
      simp only [e3] at hupd
      omega

/-- Admission of a new user preserves the state invariant. -/
theorem GInv_admitU (st : GState) (maxLen : Nat) (lobName wel nm : String)
    (hi : GInv st) : GInv (admitUser st maxLen lobName wel nm) := by
  cases hlob : alookup st.rmap 0 with
  | none =>
    have he : admitUser st maxLen lobName wel nm = st := by
      rw [admitUser]
      simp only [hlob]
    rw [he]
    exact hi
  | some lobby =>
    rw [admitUser]
    simp only [hlob]
    exact GInv_admitU_shape st _ _ _ lobby hlob (by simp [roomJoin])
      (by simp [roomJoin]) hi

theorem mem_of_alookup {α β : Type} [DecidableEq α] (m : List (α × β))
    (k : α) (v : β) (h : alookup m k = some v) : (k, v) ∈ m := by
  induction m with
  | nil => simp [alookup_nil] at h
  | cons p t ih =>
    rw [alookup_cons] at h
    by_cases hp : p.1 = k
    · rw [if_pos hp] at h
      injection h with h
      cases p with
      | mk a b =>
        simp only at hp h
        subst hp
        subst h
        exact List.mem_cons_self _ _
    · rw [if_neg hp] at h
      exact List.mem_cons_of_mem p (ih h)

theorem mem_akeys_aremove {α β : Type} [DecidableEq α] (m : List (α × β))
    (k k' : α) : k' ∈ akeys (aremove m k) ↔ (k' ≠ k ∧ k' ∈ akeys m) := by
  constructor
  · intro h
    by_cases he : k' = k
    · subst he
      rw [mem_akeys_iff, alookup_aremove_self] at h
      exact absurd rfl h
    · exact ⟨he, akeys_aremove_subset m k k' h⟩
  · rintro ⟨hne, hm⟩
    rw [mem_akeys_iff, alookup_aremove_ne m k k' hne, ← mem_akeys_iff]
    exact hm

theorem aremove_ainsert_self {α β : Type} [DecidableEq α]
    (m : List (α × β)) (k : α) (v : β) :
    aremove (ainsert m k v) k = aremove m k := by
  rw [ainsert, aremove_cons, if_pos rfl]
  simp [aremove, List.filter_filter]

theorem ainsert_ainsert {α β : Type} [DecidableEq α] (m : List (α × β))
    (k : α) (v w : β) : ainsert (ainsert m k v) k w = ainsert m k w := by
  rw [ainsert, aremove_ainsert_self]
  rfl

/-- In an invariant state, a user sitting in room `rid` is in no other room. -/
theorem countRooms_unique (st : GState) (uid rid rid' : Nat) (r r' : RoomM)
    (hi : GInv st) (h1 : alookup st.rmap rid = some r) (hm : uid ∈ r.members)
    (hc : countRooms st uid = 1) (h2 : alookup st.rmap rid' = some r')
    (hne : rid' ≠ rid) : uid ∉ r'.members := by
  have hent := countP_eq_entry st.rmap rid r
    (fun p => decide (uid ∈ p.2.members)) hi.rkeysNodup h1
  rw [countRooms] at hc
  rw [hc] at hent
  simp only [decide_eq_true_eq, hm, if_true] at hent
  have hz : (aremove st.rmap rid).countP (fun p => decide (uid ∈ p.2.members)) = 0 := by
    omega
  rw [List.countP_eq_zero] at hz
  have hmem : (rid', r') ∈ aremove st.rmap rid :=
    mem_of_alookup (aremove st.rmap rid) rid' r'
      ((alookup_aremove_ne st.rmap rid rid' hne).trans h2)
  have := hz (rid', r') hmem
  simpa using this

/-- Invariant preservation for the logout shape: one user removed from the
user tables and filtered out of their (unique) room. -/
theorem GInv_logout_shape (st : GState) (rid uid : Nat) (mr mr2 : RoomM)
    (su : String) (hr : alookup st.rmap rid = some mr)
    (hmem : uid ∈ mr.members)
    (hmembers : mr2.members = mr.members.filter (fun n => n ≠ uid))
    (hop : mr2.op = mr.op) (hi : GInv st) :
    GInv { st with umap := aremove st.umap uid,
                   ustr := sremove st.ustr su,
                   rmap := ainsert st.rmap rid mr2 } := by
  have huid : uid ∈ akeys st.umap := hi.membersKnown rid mr hr uid hmem
  have hnotin2 : uid ∉ mr2.members := by
    rw [hmembers]
    intro hin
    rcases List.mem_filter.mp hin with ⟨_, hne⟩
    simp at hne
  refine ⟨akeys_ainsert_nodup st.rmap rid mr2 hi.rkeysNodup,
    akeys_aremove_nodup st.umap uid hi.ukeysNodup, ?_, ?_, ?_, ?_, hi.nextPos, ?_, ?_⟩
  · simp only
    by_cases h0 : rid = 0
    · subst h0
      rw [alookup_ainsert_self]
      simp
    · rw [alookup_ainsert_ne st.rmap rid 0 mr2 (fun hh => h0 hh.symm)]
      exact hi.lobbyExists
  · intro lob hl
    simp only at hl
    by_cases h0 : rid = 0
    · subst h0
      rw [alookup_ainsert_self] at hl
      injection hl with hl
      rw [← hl, hop]
      exact hi.lobbyOp mr hr
    · rw [alookup_ainsert_ne st.rmap rid 0 mr2 (fun hh => h0 hh.symm)] at hl
      exact hi.lobbyOp lob hl
  · intro k hk
    simp only at hk
    exact hi.uidPos k (akeys_aremove_subset st.umap uid k hk)
  · intro k hk
    simp only at hk ⊢
    exact hi.uidBound k (akeys_aremove_subset st.umap uid k hk)
  · intro rid' r' hr' k hk
    simp only at hr' hk ⊢
    by_cases he : rid' = rid
    · rw [he, alookup_ainsert_self] at hr'
      injection hr' with hr'
      rw [← hr', hmembers] at hk
      rcases List.mem_filter.mp hk with ⟨hin, hne⟩
      simp only [ne_eq, decide_not, Bool.not_eq_true', decide_eq_false_iff_not] at hne
      exact (mem_akeys_aremove st.umap uid k).mpr
        ⟨hne, hi.membersKnown rid mr hr k hin⟩
    · rw [alookup_ainsert_ne st.rmap rid rid' mr2 he] at hr'
      have hknotuid : k ≠ uid := by
        intro hkk
        subst hkk
        exact countRooms_unique st k rid rid' mr r' hi hr hmem
          (hi.exactlyOne k huid) hr' he hk
      exact (mem_akeys_aremove st.umap uid k).mpr
        ⟨hknotuid, hi.membersKnown rid' r' hr' k hk⟩
  · intro k hk
    simp only at hk ⊢
    rcases (mem_akeys_aremove st.umap uid k).mp hk with ⟨hkne, hkm⟩
    have hone := hi.exactlyOne k hkm
    have hupd := countRooms_room_update st.rmap rid mr mr2 k
      hi.rkeysNodup hr
    have e3 : (k ∈ mr2.members) ↔ (k ∈ mr.members) := by
      rw [hmembers]
      constructor
      · intro h; exact (List.mem_filter.mp h).1
      · intro h
        apply List.mem_filter.mpr
        refine ⟨h, ?_⟩
        simp [hkne]
    rw [countRooms] at hone
    show (ainsert st.rmap rid mr2).countP
      (fun p => decide (k ∈ p.2.members)) = 1
    simp only [e3] at hupd
    omega

/-- `do_logout`, dispatched in the acting user's current room, preserves the
state invariant. -/
theorem GInv_logout_valid (st : GState) (rid uid : Nat) (s : String)
    (hi : GInv st) (hv : memberOf st uid rid = true) :
    GInv (doLogout st rid uid s).1 := by
  rw [memberOf] at hv
  cases hr : alookup st.rmap rid with
  | none => rw [hr] at hv; cases hv
  | some mr =>
    rw [hr] at hv
    have hmem : uid ∈ mr.members := List.elem_iff.mp hv
    have huk : uid ∈ akeys st.umap := hi.membersKnown rid mr hr uid hmem
    cases hu : alookup st.umap uid with
    | none =>
      rw [mem_akeys_iff] at huk
      exact absurd hu huk
    | some mu =>
      rw [doLogout]
      simp only [hr, hu, ainsert_ainsert]
      exact GInv_logout_shape st rid uid mr _ mu.idstr hr hmem
        (by simp [roomLeave]) (by simp [roomLeave]) hi

/-- Replacing a room with one having the same member list and operator
preserves the invariant (used for ban-only updates). -/
theorem GInv_room_update_same_members (st : GState) (rid : Nat)
    (r r1 : RoomM) (hr : alookup st.rmap rid = some r)
    (hm : r1.members = r.members) (hop : r1.op = r.op) (hi : GInv st) :
    GInv { st with rmap := ainsert st.rmap rid r1 } := by
  refine ⟨akeys_ainsert_nodup st.rmap rid r1 hi.rkeysNodup, hi.ukeysNodup,
    ?_, ?_, hi.uidPos, hi.uidBound, hi.nextPos, ?_, ?_⟩
  · simp only
    by_cases h0 : rid = 0
    · subst h0; rw [alookup_ainsert_self]; simp
    · rw [alookup_ainsert_ne st.rmap rid 0 r1 (fun hh => h0 hh.symm)]
      exact hi.lobbyExists
  · intro lob hl
    simp only at hl
    by_cases h0 : rid = 0
    · subst h0
      rw [alookup_ainsert_self] at hl
      injection hl with hl
      rw [← hl, hop]
      exact hi.lobbyOp r hr
    · rw [alookup_ainsert_ne st.rmap rid 0 r1 (fun hh => h0 hh.symm)] at hl
      exact hi.lobbyOp lob hl
  · intro rid' r' hr' k hk
    simp only at hr' hk ⊢
    by_cases he : rid' = rid
    · rw [he, alookup_ainsert_self] at hr'
      injection hr' with hr'
      rw [← hr', hm] at hk
      exact hi.membersKnown rid r hr k hk
    · rw [alookup_ainsert_ne st.rmap rid rid' r1 he] at hr'
      exact hi.membersKnown rid' r' hr' k hk
  · intro k hk
    simp only at hk ⊢
    have hone := hi.exactlyOne k hk
    have hupd := countRooms_room_update st.rmap rid r r1 k hi.rkeysNodup hr
    have e3 : (k ∈ r1.members) ↔ (k ∈ r.members) := by rw [hm]
    rw [countRooms] at hone
    show (ainsert st.rmap rid r1).countP
      (fun p => decide (k ∈ p.2.members)) = 1
    simp only [e3] at hupd
    omega

/-- Invariant preservation for the kick shape: the target leaves its (unique)
room `rid` and is appended to the Lobby's members; its user-map entry is
replaced by an updated value. -/
theorem GInv_kick_shape (st : GState) (rid ouid : Nat)
    (r r2 lobby lobby1 : RoomM) (ku1 : UserM)
    (hr : alookup st.rmap rid = some r) (hrid0 : rid ≠ 0)
    (hmem : ouid ∈ r.members)
    (hr2m : r2.members = r.members.filter (fun n => n ≠ ouid))
    (_hr2op : r2.op = r.op)
    (hlob : alookup st.rmap 0 = some lobby)
    (hlob1m : lobby1.members = lobby.members ++ [ouid])
    (hlob1op : lobby1.op = lobby.op) (hi : GInv st) :
    GInv { st with umap := ainsert st.umap ouid ku1,
                   rmap := ainsert (ainsert st.rmap rid r2) 0 lobby1 } := by
  have houidk : ouid ∈ akeys st.umap := hi.membersKnown rid r hr ouid hmem
  have hiff : ∀ k', k' ∈ akeys (ainsert st.umap ouid ku1) ↔ k' ∈ akeys st.umap :=
    fun k' => akeys_ainsert_mem_iff st.umap ouid k' ku1 houidk
  have h0ne : (0 : Nat) ≠ rid := fun hh => hrid0 hh.symm
  have hm1nodup : (akeys (ainsert st.rmap rid r2)).Nodup :=
    akeys_ainsert_nodup st.rmap rid r2 hi.rkeysNodup
  have hlob' : alookup (ainsert st.rmap rid r2) 0 = some lobby := by
    rw [alookup_ainsert_ne st.rmap rid 0 r2 h0ne]
    exact hlob
  have hnotlob : ouid ∉ lobby.members := by
    intro hmm
    exact countRooms_unique st ouid rid 0 r lobby hi hr hmem
      (hi.exactlyOne ouid houidk) hlob h0ne hmm
  refine ⟨akeys_ainsert_nodup _ 0 lobby1 hm1nodup,
    akeys_ainsert_nodup st.umap ouid ku1 hi.ukeysNodup, ?_, ?_, ?_, ?_,
    hi.nextPos, ?_, ?_⟩
  · simp only
    rw [alookup_ainsert_self]
    simp
  · intro lob hl
    simp only at hl
    rw [alookup_ainsert_self] at hl
    injection hl with hl
    rw [← hl, hlob1op]
    exact hi.lobbyOp lobby hlob
  · intro k hk
    simp only at hk
    exact hi.uidPos k ((hiff k).mp hk)
  · intro k hk
    simp only at hk ⊢
    exact hi.uidBound k ((hiff k).mp hk)
  · intro rid' r' hr' k hk
    simp only at hr' hk ⊢
    by_cases he0 : rid' = 0
    · rw [he0, alookup_ainsert_self] at hr'
      injection hr' with hr'
      rw [← hr', hlob1m] at hk
      rcases List.mem_append.mp hk with hold | hnew
      · exact (hiff k).mpr (hi.membersKnown 0 lobby hlob k hold)
      · have hke : k = ouid := List.mem_singleton.mp hnew
        rw [hke]
        exact (hiff ouid).mpr houidk
    · rw [alookup_ainsert_ne _ 0 rid' lobby1 he0] at hr'
      by_cases her : rid' = rid
      · rw [her, alookup_ainsert_self] at hr'
        injection hr' with hr'
        rw [← hr', hr2m] at hk
        rcases List.mem_filter.mp hk with ⟨hin, _⟩
        exact (hiff k).mpr (hi.membersKnown rid r hr k hin)
      · rw [alookup_ainsert_ne st.rmap rid rid' r2 her] at hr'
        exact (hiff k).mpr (hi.membersKnown rid' r' hr' k hk)
  · intro k hk
    simp only at hk ⊢
    have hkm : k ∈ akeys st.umap := (hiff k).mp hk
    have hone := hi.exactlyOne k hkm
    have hupd1 := countRooms_room_update st.rmap rid r r2 k hi.rkeysNodup hr
    have hupd2 := countRooms_room_update (ainsert st.rmap rid r2) 0
      lobby lobby1 k hm1nodup hlob'
    rw [countRooms] at hone
    show (ainsert (ainsert st.rmap rid r2) 0 lobby1).countP
      (fun p => decide (k ∈ p.2.members)) = 1
    by_cases hko : k = ouid
    · have e1 : k ∈ r.members := hko ▸ hmem
      have e2 : k ∉ r2.members := by
        rw [hr2m]
        intro hin
        rcases List.mem_filter.mp hin with ⟨_, hne⟩
        rw [hko] at hne
        simp at hne
      have e3 : k ∉ lobby.members := hko ▸ hnotlob
      have e4 : k ∈ lobby1.members := by
        rw [hlob1m, hko]
        exact List.mem_append.mpr (Or.inr (List.mem_singleton.mpr rfl))
      rw [if_pos e1, if_neg e2] at hupd1
      rw [if_neg e3, if_pos e4] at hupd2
      omega
    · have e5 : (k ∈ r2.members) ↔ (k ∈ r.members) := by
        rw [hr2m]
        constructor
        · intro h; exact (List.mem_filter.mp h).1
        · intro h
          apply List.mem_filter.mpr
          exact ⟨h, by simp [hko]⟩
      have e6 : (k ∈ lobby1.members) ↔ (k ∈ lobby.members) := by
        rw [hlob1m]
        simp [hko]
      simp only [e5] at hupd1
      simp only [e6] at hupd2
      omega

/-- `do_op` with an `Op::Kick`, dispatched in the acting user's current room,
preserves the state invariant. -/
theorem GInv_kick_valid (st : GState) (rid uid : Nat) (t : String)
    (hi : GInv st) (hv : memberOf st uid rid = true) :
    GInv (doOpKick st rid uid t).1 := by
  rw [memberOf] at hv
  cases hr : alookup st.rmap rid with
  | none => rw [hr] at hv; cases hv
  | some r =>
    rw [hr] at hv
    have huidmem : uid ∈ r.members := List.elem_iff.mp hv
    have huidk : uid ∈ akeys st.umap := hi.membersKnown rid r hr uid huidmem
    rw [doOpKick]
    simp only [hr]
    by_cases hop : r.op ≠ uid
    · rw [if_pos hop]
      exact hi
    · rw [if_neg hop]
      cases hu : alookup st.umap uid with
      | none => exact hi
      | some u0 =>
        simp only []
        by_cases hcol : (ascollapse t).length = 0
        · rw [if_pos hcol]
          exact hi
        · rw [if_neg hcol]
          cases hou : slookup st.ustr (ascollapse t) with
          | none => exact hi
          | some ouid =>
            simp only []
            by_cases hself : ouid = uid
            · rw [if_pos hself]
              exact hi
            · rw [if_neg hself]
              cases hku : alookup st.umap ouid with
              | none => exact hi
              | some ku =>
                simp only []
                by_cases hban : r.bans.contains ouid
                · rw [if_pos hban]
                  exact hi
                · rw [if_neg hban]
                  by_cases hin : (roomBan r ouid).members.contains ouid
                  · have hinr : ouid ∈ r.members := by
                      have := List.elem_iff.mp hin
                      simpa [roomBan] using this
                    have hrid0 : rid ≠ 0 := by
                      intro h0
                      have hlo := hi.lobbyOp r (h0 ▸ hr)
                      have hpos := hi.uidPos uid huidk
                      have : r.op = uid := by omega
                      omega
                    have hlob0 : alookup (ainsert st.rmap rid
                        (roomLeave (roomBan r ouid) ouid)) 0
                        = alookup st.rmap 0 := by
                      exact alookup_ainsert_ne st.rmap rid 0 _
                        (fun hh => hrid0 hh.symm)
                    cases hlob : alookup st.rmap 0 with
                    | none => exact absurd hlob hi.lobbyExists
                    | some lobby =>
                      have hnin : ¬ ¬ ((roomBan r ouid).members.contains ouid = true) := by
                        simpa using hin
                      rw [if_neg hnin]
                      simp only [hlob0, hlob]
                      exact GInv_kick_shape st rid ouid r
                        (roomLeave (roomBan r ouid) ouid) lobby _ _ hr hrid0
                        hinr (by simp [roomLeave, roomBan])
                        (by simp [roomLeave, roomBan]) hlob
                        (by simp [roomJoin]) (by simp [roomJoin]) hi
                  · have hnin : ¬ ((roomBan r ouid).members.contains ouid = true) := by
                      simpa using hin
                    rw [if_pos hnin]
                    exact GInv_room_update_same_members st rid r
                      (roomBan r ouid) hr (by simp [roomBan])
                      (by simp [roomBan]) hi

/-- Inserting a fresh empty room (and any `rooms_by_name` table) preserves
the invariant. -/
theorem GInv_new_room (st : GState) (newId : Nat) (newRoom : RoomM)
    (rstr' : List (String × Nat)) (hfresh : alookup st.rmap newId = none)
    (hm : newRoom.members = []) (hi : GInv st) :
    GInv { st with rmap := ainsert st.rmap newId newRoom, rstr := rstr' } := by
  have hnz : newId ≠ 0 := by
    intro h0
    exact hi.lobbyExists (h0 ▸ hfresh)
  have hnotk : newId ∉ akeys st.rmap := by
    rw [mem_akeys_iff]
    simp [hfresh]
  refine ⟨akeys_ainsert_nodup st.rmap newId newRoom hi.rkeysNodup,
    hi.ukeysNodup, ?_, ?_, hi.uidPos, hi.uidBound, hi.nextPos, ?_, ?_⟩
  · simp only
    rw [alookup_ainsert_ne st.rmap newId 0 newRoom (fun hh => hnz hh.symm)]
    exact hi.lobbyExists
  · intro lob hl
    simp only at hl
    rw [alookup_ainsert_ne st.rmap newId 0 newRoom (fun hh => hnz hh.symm)] at hl
    exact hi.lobbyOp lob hl
  · intro rid' r' hr' k hk
    simp only at hr' hk ⊢
    by_cases he : rid' = newId
    · rw [he, alookup_ainsert_self] at hr'
      injection hr' with hr'
      rw [← hr', hm] at hk
      cases hk
    · rw [alookup_ainsert_ne st.rmap newId rid' newRoom he] at hr'
      exact hi.membersKnown rid' r' hr' k hk
  · intro k hk
    simp only at hk ⊢
    have hone := hi.exactlyOne k hk
    rw [countRooms] at hone
    show (ainsert st.rmap newId newRoom).countP
      (fun p => decide (k ∈ p.2.members)) = 1
    rw [countP_ainsert, aremove_eq_of_not_mem st.rmap newId hnotk]
    have hz : (decide (k ∈ newRoom.members)) = false := by
      rw [hm]; simp
    rw [hz]
    simpa using hone

/-- Invariant preservation for a move shape where the target room is updated
first and the source room second (the nesting `do_join` produces). -/
theorem GInv_move_to_from (st : GState) (ridTo ridFrom uid : Nat)
    (rTo rTo1 rFrom rFrom2 : RoomM) (hne : ridTo ≠ ridFrom)
    (hto : alookup st.rmap ridTo = some rTo)
    (hfrom : alookup st.rmap ridFrom = some rFrom)
    (hmem : uid ∈ rFrom.members)
    (h1m : rTo1.members = rTo.members ++ [uid]) (h1op : rTo1.op = rTo.op)
    (h2m : rFrom2.members = rFrom.members.filter (fun n => n ≠ uid))
    (h2op : rFrom2.op = rFrom.op) (hi : GInv st) :
    GInv { st with rmap := ainsert (ainsert st.rmap ridTo rTo1) ridFrom rFrom2 } := by
  have huidk : uid ∈ akeys st.umap := hi.membersKnown ridFrom rFrom hfrom uid hmem
  have hm1nodup : (akeys (ainsert st.rmap ridTo rTo1)).Nodup :=
    akeys_ainsert_nodup st.rmap ridTo rTo1 hi.rkeysNodup
  have hfrom' : alookup (ainsert st.rmap ridTo rTo1) ridFrom = some rFrom := by
    rw [alookup_ainsert_ne st.rmap ridTo ridFrom rTo1 (fun hh => hne hh.symm)]
    exact hfrom
  have hnotto : uid ∉ rTo.members := by
    intro hmm
    exact countRooms_unique st uid ridFrom ridTo rFrom rTo hi hfrom hmem
      (hi.exactlyOne uid huidk) hto hne hmm
  refine ⟨akeys_ainsert_nodup _ ridFrom rFrom2 hm1nodup, hi.ukeysNodup,
    ?_, ?_, hi.uidPos, hi.uidBound, hi.nextPos, ?_, ?_⟩
  · simp only
    by_cases hf0 : ridFrom = 0
    · rw [hf0, alookup_ainsert_self]; simp
    · rw [alookup_ainsert_ne _ ridFrom 0 rFrom2 (fun hh => hf0 hh.symm)]
      by_cases ht0 : ridTo = 0
      · rw [ht0, alookup_ainsert_self]; simp
      · rw [alookup_ainsert_ne st.rmap ridTo 0 rTo1 (fun hh => ht0 hh.symm)]
        exact hi.lobbyExists
  · intro lob hl
    simp only at hl
    by_cases hf0 : ridFrom = 0
    · rw [hf0, alookup_ainsert_self] at hl
      injection hl with hl
      rw [← hl, h2op]
      exact hi.lobbyOp rFrom (hf0 ▸ hfrom)
    · rw [alookup_ainsert_ne _ ridFrom 0 rFrom2 (fun hh => hf0 hh.symm)] at hl
      by_cases ht0 : ridTo = 0
      · rw [ht0, alookup_ainsert_self] at hl
        injection hl with hl
        rw [← hl, h1op]
        exact hi.lobbyOp rTo (ht0 ▸ hto)
      · rw [alookup_ainsert_ne st.rmap ridTo 0 rTo1 (fun hh => ht0 hh.symm)] at hl
        exact hi.lobbyOp lob hl
  · intro rid' r' hr' k hk
    simp only at hr' hk ⊢
    by_cases hef : rid' = ridFrom
    · rw [hef, alookup_ainsert_self] at hr'
      injection hr' with hr'
      rw [← hr', h2m] at hk
      rcases List.mem_filter.mp hk with ⟨hin, _⟩
      exact hi.membersKnown ridFrom rFrom hfrom k hin
    · rw [alookup_ainsert_ne _ ridFrom rid' rFrom2 hef] at hr'
      by_cases het : rid' = ridTo
      · rw [het, alookup_ainsert_self] at hr'
        injection hr' with hr'
        rw [← hr', h1m] at hk
        rcases List.mem_append.mp hk with hold | hnew
        · exact hi.membersKnown ridTo rTo hto k hold
        · have hke : k = uid := List.mem_singleton.mp hnew
          rw [hke]
          exact huidk
      · rw [alookup_ainsert_ne st.rmap ridTo rid' rTo1 het] at hr'
        exact hi.membersKnown rid' r' hr' k hk
  · intro k hk
    simp only at hk ⊢
    have hone := hi.exactlyOne k hk
    have hupd1 := countRooms_room_update st.rmap ridTo rTo rTo1 k
      hi.rkeysNodup hto
    have hupd2 := countRooms_room_update (ainsert st.rmap ridTo rTo1) ridFrom
      rFrom rFrom2 k hm1nodup hfrom'
    rw [countRooms] at hone
    show (ainsert (ainsert st.rmap ridTo rTo1) ridFrom rFrom2).countP
      (fun p => decide (k ∈ p.2.members)) = 1
    by_cases hko : k = uid
    · have e1 : k ∉ rTo.members := hko ▸ hnotto
      have e2 : k ∈ rTo1.members := by
        rw [h1m, hko]
        exact List.mem_append.mpr (Or.inr (List.mem_singleton.mpr rfl))
      have e3 : k ∈ rFrom.members := hko ▸ hmem
      have e4 : k ∉ rFrom2.members := by
        rw [h2m]
        intro hin
        rcases List.mem_filter.mp hin with ⟨_, hne2⟩
        rw [hko] at hne2
        simp at hne2
      rw [if_neg e1, if_pos e2] at hupd1
      rw [if_pos e3, if_neg e4] at hupd2
      omega
    · have e5 : (k ∈ rTo1.members) ↔ (k ∈ rTo.members) := by
        rw [h1m]
        simp [hko]
      have e6 : (k ∈ rFrom2.members) ↔ (k ∈ rFrom.members) := by
        rw [h2m]
        constructor
        · intro h; exact (List.mem_filter.mp h).1
        · intro h
          apply List.mem_filter.mpr
          exact ⟨h, by simp [hko]⟩
      simp only [e5] at hupd1
      simp only [e6] at hupd2
      omega

/-- `do_join`, dispatched in the acting user's current room, preserves the
state invariant. -/
theorem GInv_join_valid (st : GState) (maxLen rid uid : Nat) (nm : String)
    (hi : GInv st) (hv : memberOf st uid rid = true) :
    GInv (doJoin st maxLen rid uid nm).1 := by
  rw [memberOf] at hv
  cases hr : alookup st.rmap rid with
  | none => rw [hr] at hv; cases hv
  | some r =>
    rw [hr] at hv
    have hmem : uid ∈ r.members := List.elem_iff.mp hv
    have huidk : uid ∈ akeys st.umap := hi.membersKnown rid r hr uid hmem
    cases hu : alookup st.umap uid with
    | none =>
      rw [mem_akeys_iff] at huidk
      exact absurd hu huidk
    | some mu =>
      rw [doJoin]
      by_cases hc1 : (ascollapse nm).length = 0
      · rw [if_pos hc1]; exact hi
      · rw [if_neg hc1]
        by_cases hc2 : nm.utf8ByteSize > maxLen
        · rw [if_pos hc2]; exact hi
        · rw [if_neg hc2]
          cases hres : slookup st.rstr (ascollapse nm) with
          | some tgtRid =>
            simp only [hres, hu]
            cases htr : alookup st.rmap tgtRid with
            | none => simp only [htr]; exact hi
            | some targ =>
              simp only [htr]
              by_cases he : tgtRid = rid
              · rw [if_pos he]; exact hi
              · rw [if_neg he]
                by_cases hb : targ.bans.contains uid
                · rw [if_pos hb]; exact hi
                · rw [if_neg hb]
                  by_cases hcl : targ.closed ∧ ¬ (targ.invites.contains uid)
                  · rw [if_pos hcl]; exact hi
                  · rw [if_neg hcl]
                    rw [alookup_ainsert_ne st.rmap tgtRid rid _
                      (fun hh => he hh.symm), hr]
                    simp only []
                    exact GInv_move_to_from st tgtRid rid uid targ _ r _
                      he htr hr hmem (by simp [roomJoin]) (by simp [roomJoin])
                      (by simp [roomLeave]) (by simp [roomLeave]) hi
          | none =>
            have hfreshR : alookup st.rmap (firstFreeId st.rmap) = none :=
              firstFreeId_free st.rmap
            have hfrid : firstFreeId st.rmap ≠ rid := by
              intro h
              rw [h, hr] at hfreshR
              cases hfreshR
            have hC1 : GInv { st with
                rmap := ainsert st.rmap (firstFreeId st.rmap)
                  (roomNew (firstFreeId st.rmap) nm uid),
                rstr := sinsert st.rstr (ascollapse nm) (firstFreeId st.rmap) } :=
              GInv_new_room st (firstFreeId st.rmap) _ _ hfreshR
                (by simp [roomNew]) hi
            have hC2 : GInv { st with
                rmap := ainsert st.rmap (firstFreeId st.rmap)
                  (roomNew (firstFreeId st.rmap) nm uid),
                rstr := sinsert st.rstr (ascollapse nm) (firstFreeId st.rmap),
                umap := ainsert st.umap uid (userDeliverMsg mu
                  (.info ("You create room \"" ++ nm ++ "\"."))) } :=
              GInv_umap_update _ uid _ hC1 huidk
            simp only [hres, hu]
            rw [alookup_ainsert_self]
            simp only [alookup_ainsert_self]
            by_cases he : firstFreeId st.rmap = rid
            · exact absurd he hfrid
            · rw [if_neg he]
              by_cases hb : (roomNew (firstFreeId st.rmap) nm uid).bans.contains uid
              · rw [if_pos hb]; exact hC2
              · rw [if_neg hb]
                by_cases hcl : (roomNew (firstFreeId st.rmap) nm uid).closed
                    ∧ ¬ ((roomNew (firstFreeId st.rmap) nm uid).invites.contains uid)
                · rw [if_pos hcl]; exact hC2
                · rw [if_neg hcl]
                  rw [alookup_ainsert_ne _ (firstFreeId st.rmap) rid _
                    (fun hh => he hh.symm)]
                  rw [alookup_ainsert_ne st.rmap (firstFreeId st.rmap) rid _
                    (fun hh => he hh.symm), hr]
                  simp only []
                  exact GInv_move_to_from _ (firstFreeId st.rmap) rid uid
                    (roomNew (firstFreeId st.rmap) nm uid) _ r _ he
                    (alookup_ainsert_self st.rmap (firstFreeId st.rmap) _)
                    (by rw [alookup_ainsert_ne st.rmap (firstFreeId st.rmap) rid _
                          (fun hh => he hh.symm)]
                        exact hr)
                    hmem (by simp [roomJoin]) (by simp [roomJoin])
                    (by simp [roomLeave]) (by simp [roomLeave]) hC2

/-- One guarded operation preserves the invariant. -/
theorem GInv_applyOp (cfg : CfgM) (st : GState) (op : GOp) (hi : GInv st) :
    GInv (applyOp cfg st op) := by
  cases op with
  | join uid rid nm =>
    rw [applyOp]
    by_cases hv : validOp st (.join uid rid nm)
    · rw [if_pos hv]
      exact GInv_join_valid st cfg.maxRoomNameLength rid uid nm hi
        (by simpa [validOp] using hv)
    · rw [if_neg hv]; exact hi
  | logout uid rid s =>
    rw [applyOp]
    by_cases hv : validOp st (.logout uid rid s)
    · rw [if_pos hv]
      exact GInv_logout_valid st rid uid s hi (by simpa [validOp] using hv)
    · rw [if_neg hv]; exact hi
  | kick uid rid t =>
    rw [applyOp]
    by_cases hv : validOp st (.kick uid rid t)
    · rw [if_pos hv]
      exact GInv_kick_valid st rid uid t hi (by simpa [validOp] using hv)
    · rw [if_neg hv]; exact hi
  | admitU n =>
    rw [applyOp]
    by_cases hv : validOp st (.admitU n)
    · rw [if_pos hv]
      exact GInv_admitU st cfg.maxUserNameLength cfg.lobbyName cfg.welcome n hi
    · rw [if_neg hv]; exact hi

/-- Any guarded operation sequence preserves the invariant. -/
theorem GInv_exec (cfg : CfgM) (st : GState) (ops : List GOp) (hi : GInv st) :
    GInv (exec cfg st ops) := by
  induction ops generalizing st with
  | nil => exact hi
  | cons op rest ih =>
    rw [exec, List.foldl_cons]
    exact ih (applyOp cfg st op) (GInv_applyOp cfg st op hi)

/-- The invariant holds in the initial state of `main`. -/
theorem GInv_initState (lobName : String) : GInv (initState lobName) := by
  refine ⟨?_, ?_, ?_, ?_, ?_, ?_, ?_, ?_, ?_⟩
  · simp [initState, akeys]
  · simp [initState, akeys]
  · simp [initState, alookup_cons]
  · intro lob hl
    simp only [initState] at hl
    rw [alookup_cons, if_pos rfl] at hl
    injection hl with hl
    rw [← hl]
    simp [roomLeave, roomNew]
  · intro k hk
    simp [initState, akeys] at hk
  · intro k hk
    simp [initState, akeys] at hk
  · simp [initState]
  · intro rid r hrr k hk
    simp only [initState] at hrr
    rw [alookup_cons] at hrr
    by_cases h0 : (0 : Nat) = rid
    · rw [if_pos h0] at hrr
      injection hrr with hrr
      rw [← hrr] at hk
      simp [roomLeave, roomNew] at hk
    · rw [if_neg h0] at hrr
      simp [alookup_nil] at hrr
  · intro k hk
    simp [initState, akeys] at hk

/-- C2 counterexample: dispatch as the code performs it within a tick.  In
room "g" (id 1), operator `100` kicks user `101` (moving them to the Lobby);
later in the same tick `101`'s queued `Join("x")` is still dispatched with
the processed room id 1, so `do_join` adds `101` to the new room "x" and the
`leave` call on room 1 is a no-op: user `101` ends the tick in the member
lists of two rooms (the Lobby and "x"). -/
theorem c2_counterexample :
    101 ∈ akeys (execRaw ⟨24, 24, "Lobby", "Welcome!"⟩ (initState "Lobby")
      [.admitU "a", .admitU "b", .join 100 0 "g", .join 101 0 "g",
       .kick 100 1 "b", .join 101 1 "x"]).umap
    ∧ countRooms (execRaw ⟨24, 24, "Lobby", "Welcome!"⟩ (initState "Lobby")
      [.admitU "a", .admitU "b", .join 100 0 "g", .join 101 0 "g",
       .kick 100 1 "b", .join 101 1 "x"]) 101 = 2 := by
  refine ⟨?_, ?_⟩ <;> decide

/-- C2 (amended): for every sequence of Join, Logout, Kick and new-user
admission operations starting from the initial state, each dispatched in the
acting user's current room (operations whose dispatch room no longer matches
are skipped), every user-id present in `users_by_id` appears in the members
list of exactly one room after each operation completes. -/
theorem c2_exactly_one_room (lobName : String) (cfg : CfgM) (ops : List GOp)
    (uid : Nat)
    (hu : uid ∈ akeys (exec cfg (initState lobName) ops).umap) :
    countRooms (exec cfg (initState lobName) ops) uid = 1 :=
  (GInv_exec cfg (initState lobName) ops (GInv_initState lobName)).exactlyOne uid hu

/-- C2 witness: the amended statement evaluated on the singleton sequence
that admits one user. -/
theorem c2_witness :
    100 ∈ akeys (exec ⟨24, 24, "Lobby", "Welcome!"⟩ (initState "Lobby")
      [.admitU "a"]).umap
    ∧ countRooms (exec ⟨24, 24, "Lobby", "Welcome!"⟩ (initState "Lobby")
      [.admitU "a"]) 100 = 1 :=
  ⟨by decide, c2_exactly_one_room "Lobby" ⟨24, 24, "Lobby", "Welcome!"⟩
    [.admitU "a"] 100 (by decide)⟩

/-- C3: a `Kick` by the room operator of a present, not-yet-banned target
moves the target to the Lobby, records the ban, sends the target a direct
Info, returns the `kick_other` envelope for the room, and enqueues a `join`
envelope in the Lobby's inbox. -/
theorem c3_kick_present (st : GState) (rid uid tuid : Nat) (tname : String)
    (r lobby : RoomM) (ku opu : UserM)
    (hr : alookup st.rmap rid = some r)
    (hop : r.op = uid)
    (hopu : alookup st.umap uid = some opu)
    (hcol : (ascollapse tname).length ≠ 0)
    (htu : slookup st.ustr (ascollapse tname) = some tuid)
    (hne : tuid ≠ uid)
    (hku : alookup st.umap tuid = some ku)
    (hnotban : tuid ∉ r.bans)
    (hinroom : tuid ∈ r.members)
    (hlob : alookup st.rmap 0 = some lobby)
    (hrid0 : rid ≠ 0) :
    (doOpKick st rid uid tname).2 = .ok [⟨.server, .room rid,
      .misc "kick_other" [ku.name, r.name]
        (ku.name ++ " has been kicked from " ++ r.name ++ ".")⟩]
    ∧ (∃ lob2, alookup (doOpKick st rid uid tname).1.rmap 0 = some lob2
        ∧ tuid ∈ lob2.members
        ∧ lob2.inbox = lobby.inbox ++ [⟨.server, .room rid,
            .misc "join" [ku.name, lobby.name]
              (ku.name ++ " joins " ++ lobby.name ++ ".")⟩])
    ∧ (∃ r2, alookup (doOpKick st rid uid tname).1.rmap rid = some r2
        ∧ tuid ∉ r2.members ∧ tuid ∈ r2.bans)
    ∧ alookup (doOpKick st rid uid tname).1.umap tuid
        = some (userDeliverMsg ku
            (.info ("You have been kicked from " ++ r.name ++ "."))) := by
  have hb : ¬ (r.bans.contains tuid = true) := by
    simpa [List.elem_iff] using hnotban
  have hin : (roomBan r tuid).members.contains tuid = true := by
    simp [roomBan, List.elem_iff, hinroom]
  have hlob0 : alookup (ainsert st.rmap rid
      (roomLeave (roomBan r tuid) tuid)) 0 = alookup st.rmap 0 :=
    alookup_ainsert_ne st.rmap rid 0 _ (fun hh => hrid0 hh.symm)
  have hname1 : (roomBan r tuid).name = r.name := by simp [roomBan]
  have hname2 : (roomLeave (roomBan r tuid) tuid).name = r.name := by
    simp [roomLeave, roomBan]
  rw [doOpKick]
  simp only [hr]
  rw [if_neg (fun hh => hh hop)]
  simp only [hopu]
  rw [if_neg hcol]
  simp only [htu]
  rw [if_neg hne]
  simp only [hku]
  rw [if_neg hb]
  rw [if_neg (fun hh => hh hin)]
  simp only [hlob0, hlob]
  refine ⟨by rw [hname2], ?_, ?_, ?_⟩
  · refine ⟨_, alookup_ainsert_self _ 0 _, ?_, ?_⟩
    · simp [roomJoin]
    · simp [roomJoin]
  · refine ⟨roomLeave (roomBan r tuid) tuid, ?_, ?_, ?_⟩
    · rw [alookup_ainsert_ne _ 0 rid _ hrid0]
      exact alookup_ainsert_self st.rmap rid _
    · simp [roomLeave, roomBan]
    · simp [roomLeave, roomBan]
  · rw [hname1]
    exact alookup_ainsert_self st.umap tuid _

/-- A concrete user for the kick example. -/
def kickExA : UserM :=
  { idn := 100, name := "a", idstr := "a", blocks := [], outbox := [],
    quota := 0, lastData := 0, errs := 0, shut := false }

/-- A concrete user (the kick target) for the kick example. -/
def kickExB : UserM :=
  { idn := 101, name := "b", idstr := "b", blocks := [], outbox := [],
    quota := 0, lastData := 0, errs := 0, shut := false }

/-- A concrete room "G" whose operator is user 100 and whose members are
users 100 and 101. -/
def kickExG : RoomM :=
  { idn := 1, name := "G", idstr := "g", members := [100, 101], op := 100,
    closed := false, bans := [], invites := [], inbox := [] }

/-- A concrete Lobby. -/
def kickExLobby : RoomM :=
  { idn := 0, name := "Lobby", idstr := "lobby", members := [], op := 0,
    closed := false, bans := [], invites := [], inbox := [] }

/-- A concrete server state for the kick example. -/
def kickExSt : GState :=
  { umap := [(100, kickExA), (101, kickExB)],
    ustr := [("a", 100), ("b", 101)],
    rmap := [(0, kickExLobby), (1, kickExG)],
    rstr := [("g", 1)], nextUid := 102 }

/-- C3 witness: the kick theorem evaluated at the concrete state in which
operator 100 of room "G" kicks the present user "b" (id 101). -/
theorem c3_witness :
    (alookup kickExSt.rmap 1 = some kickExG
      ∧ kickExG.op = 100
      ∧ alookup kickExSt.umap 100 = some kickExA
      ∧ (ascollapse "b").length ≠ 0
      ∧ slookup kickExSt.ustr (ascollapse "b") = some 101
      ∧ (101 : Nat) ≠ 100
      ∧ alookup kickExSt.umap 101 = some kickExB
      ∧ 101 ∉ kickExG.bans
      ∧ 101 ∈ kickExG.members
      ∧ alookup kickExSt.rmap 0 = some kickExLobby
      ∧ (1 : Nat) ≠ 0)
    ∧ ((doOpKick kickExSt 1 100 "b").2 = .ok [⟨.server, .room 1,
        .misc "kick_other" [kickExB.name, kickExG.name]
          (kickExB.name ++ " has been kicked from " ++ kickExG.name ++ ".")⟩]
      ∧ (∃ lob2, alookup (doOpKick kickExSt 1 100 "b").1.rmap 0 = some lob2
          ∧ 101 ∈ lob2.members
          ∧ lob2.inbox = kickExLobby.inbox ++ [⟨.server, .room 1,
              .misc "join" [kickExB.name, kickExLobby.name]
                (kickExB.name ++ " joins " ++ kickExLobby.name ++ ".")⟩])
      ∧ (∃ r2, alookup (doOpKick kickExSt 1 100 "b").1.rmap 1 = some r2
          ∧ 101 ∉ r2.members ∧ 101 ∈ r2.bans)
      ∧ alookup (doOpKick kickExSt 1 100 "b").1.umap 101
          = some (userDeliverMsg kickExB
              (.info ("You have been kicked from " ++ kickExG.name ++ ".")))) :=
  ⟨⟨by decide, by decide, by decide, by decide, by decide, by decide,
    by decide, by decide, by decide, by decide, by decide⟩,
   c3_kick_present kickExSt 1 100 101 "b" kickExG kickExLobby kickExB kickExA
     (by decide) (by decide) (by decide) (by decide) (by decide) (by decide)
     (by decide) (by decide) (by decide) (by decide) (by decide)⟩

/-- C6: behaviour of the `Name` handler.  Empty-normalizing or over-long
candidates produce an Err to the sender and change nothing; a normalized
candidate equal to another user's idstr produces an Err and changes nothing;
otherwise — including a candidate normalizing to the sender's own idstr —
the old idstr is removed from `users_by_name`, the new idstr maps to the
sender, the user record is updated, and a `Misc name` envelope for the
current room is returned. -/
theorem c6_do_name (st : GState) (maxLen rid uid : Nat) (cand : String)
    (u : UserM) (hu : alookup st.umap uid = some u) :
    (((ascollapse cand).length = 0 ∨ cand.utf8ByteSize > maxLen) →
      (doName st maxLen rid uid cand).1 = st
      ∧ ∃ e, (doName st maxLen rid uid cand).2
          = .ok [⟨.server, .user uid, .err e⟩])
    ∧ (∀ ouid ou, ¬ (ascollapse cand).length = 0 →
      ¬ cand.utf8ByteSize > maxLen →
      slookup st.ustr (ascollapse cand) = some ouid → ouid ≠ uid →
      alookup st.umap ouid = some ou →
      (doName st maxLen rid uid cand).1 = st
      ∧ (doName st maxLen rid uid cand).2
          = .ok [⟨.server, .user uid,
              .err ("There is already a user named \"" ++ ou.name ++ "\".")⟩])
    ∧ (¬ (ascollapse cand).length = 0 → ¬ cand.utf8ByteSize > maxLen →
      (slookup st.ustr (ascollapse cand) = none
        ∨ slookup st.ustr (ascollapse cand) = some uid) →
      alookup (doName st maxLen rid uid cand).1.umap uid
          = some { u with name := cand, idstr := ascollapse cand }
      ∧ slookup (doName st maxLen rid uid cand).1.ustr (ascollapse cand)
          = some uid
      ∧ (u.idstr ≠ ascollapse cand →
          slookup (doName st maxLen rid uid cand).1.ustr u.idstr = none)
      ∧ (∀ s, s ≠ u.idstr → s ≠ ascollapse cand →
          slookup (doName st maxLen rid uid cand).1.ustr s
            = slookup st.ustr s)
      ∧ (doName st maxLen rid uid cand).2 = .ok [⟨.server, .room rid,
          .misc "name" [u.name, cand]
            (u.name ++ " is now known as " ++ cand ++ ".")⟩]
      ∧ (doName st maxLen rid uid cand).1.rmap = st.rmap) := by
  refine ⟨?_, ?_, ?_⟩
  · rintro (h1 | h2)
    · rw [doName, if_pos h1]
      exact ⟨rfl, _, rfl⟩
    · rw [doName]
      by_cases h1 : (ascollapse cand).length = 0
      · rw [if_pos h1]
        exact ⟨rfl, _, rfl⟩
      · rw [if_neg h1, if_pos h2]
        exact ⟨rfl, _, rfl⟩
  · intro ouid ou h1 h2 hou hne hok
    rw [doName, if_neg h1, if_neg h2]
    simp only [hou, hok]
    rw [if_pos hne]
    exact ⟨rfl, rfl⟩
  · intro h1 h2 hcase
    have hfin : (doName st maxLen rid uid cand)
        = ({ st with
               umap := ainsert st.umap uid
                 { u with name := cand, idstr := ascollapse cand },
               ustr := sinsert (sremove st.ustr u.idstr)
                 (ascollapse cand) uid },
           .ok [⟨.server, .room rid,
             .misc "name" [u.name, cand]
               (u.name ++ " is now known as " ++ cand ++ ".")⟩]) := by
      rw [doName, if_neg h1, if_neg h2]
      rcases hcase with hnone | hself
      · simp only [hnone, hu]
      · simp only [hself, hu]
        rw [if_neg (fun hh : uid ≠ uid => hh rfl)]
    rw [hfin]
    refine ⟨alookup_ainsert_self st.umap uid _, ?_, ?_, ?_, rfl, rfl⟩
    · exact alookup_ainsert_self _ (ascollapse cand) uid
    · intro hne
      show alookup (ainsert (aremove st.ustr u.idstr) (ascollapse cand) uid)
        u.idstr = none
      rw [alookup_ainsert_ne _ (ascollapse cand) u.idstr uid hne]
      exact alookup_aremove_self st.ustr u.idstr
    · intro s hs1 hs2
      show alookup (ainsert (aremove st.ustr u.idstr) (ascollapse cand) uid) s
        = alookup st.ustr s
      rw [alookup_ainsert_ne _ (ascollapse cand) s uid hs2]
      exact alookup_aremove_ne st.ustr u.idstr s hs1

/-- Fixture for the Name-handler witness: user 100 "Alice". -/
def nmExU : UserM :=
  { idn := 100, name := "Alice", idstr := "alice", blocks := [], outbox := [],
    quota := 0, lastData := 0, errs := 0, shut := false }

/-- Fixture state holding only user 100. -/
def nmExSt : GState :=
  { umap := [(100, nmExU)], ustr := [("alice", 100)], rmap := [], rstr := [],
    nextUid := 101 }

/-- C6 witness: renaming user 100 from "Alice" to the fresh name "Bob"
succeeds, rebinding `users_by_name` and emitting the broadcast envelope. -/
theorem c6_witness :
    (alookup nmExSt.umap 100 = some nmExU
      ∧ ¬ (ascollapse "Bob").length = 0
      ∧ ¬ ("Bob".utf8ByteSize > 24)
      ∧ slookup nmExSt.ustr (ascollapse "Bob") = none)
    ∧ (alookup (doName nmExSt 24 0 100 "Bob").1.umap 100
        = some { nmExU with name := "Bob", idstr := ascollapse "Bob" }
      ∧ slookup (doName nmExSt 24 0 100 "Bob").1.ustr (ascollapse "Bob")
        = some 100
      ∧ (doName nmExSt 24 0 100 "Bob").2 = .ok [⟨.server, .room 0,
          .misc "name" [nmExU.name, "Bob"]
            (nmExU.name ++ " is now known as " ++ "Bob" ++ ".")⟩]) := by
  have h := (c6_do_name nmExSt 24 0 100 "Bob" nmExU (by decide)).2.2
    (by decide) (by decide) (Or.inl (by decide))
  exact ⟨⟨by decide, by decide, by decide, by decide⟩,
    h.1, h.2.1, h.2.2.2.2.1⟩

/-! ## Claim C7: envelope routing in Room::deliver / Room::deliver_inbox -/

/-- Broadcast delivery (the non-`User` arm of `Room::deliver`): folding the
per-member delivery step over a duplicate-free member list updates exactly
the members that are keys of the user map. -/
theorem bcastLookup (env : SEnv) (ms : List Nat) (um : List (Nat × UserM))
    (k : Nat) (hnd : ms.Nodup) :
    alookup (ms.foldl (fun m uid =>
      match alookup m uid with
      | some u => ainsert m uid (userDeliver u env)
      | none => m) um) k
      = if k ∈ ms then (alookup um k).map (fun u => userDeliver u env)
        else alookup um k := by
  induction ms generalizing um with
  | nil => simp
  | cons a t ih =>
    rw [List.nodup_cons] at hnd
    obtain ⟨ha, ht⟩ := hnd
    rw [List.foldl_cons]
    cases hlook : alookup um a with
    | none =>
      simp only [hlook]
      rw [ih um ht]
      by_cases hk : k = a
      · rw [hk, if_neg ha, if_pos (List.mem_cons_self a t), hlook]
        rfl
      · by_cases hkt : k ∈ t
        · rw [if_pos hkt, if_pos (List.mem_cons_of_mem a hkt)]
        · rw [if_neg hkt,
            if_neg (fun hh => (List.mem_cons.mp hh).elim hk hkt)]
    | some u =>
      simp only [hlook]
      rw [ih _ ht]
      by_cases hk : k = a
      · rw [hk, if_neg ha, if_pos (List.mem_cons_self a t),
          alookup_ainsert_self, hlook]
        rfl
      · rw [alookup_ainsert_ne um a k _ hk]
        by_cases hkt : k ∈ t
        · rw [if_pos hkt, if_pos (List.mem_cons_of_mem a hkt)]
        · rw [if_neg hkt,
            if_neg (fun hh => (List.mem_cons.mp hh).elim hk hkt)]

/-- Fixture user for the C7 counterexample. -/
def c7u : UserM :=
  { idn := 42, name := "w", idstr := "w", blocks := [], outbox := [],
    quota := 0, lastData := 0, errs := 0, shut := false }

/-- Fixture room for the C7 counterexample: user 42 is NOT a member. -/
def c7room : RoomM :=
  { idn := 7, name := "Empty", idstr := "empty", members := [], op := 0,
    closed := false, bans := [], invites := [], inbox := [] }

/-- Fixture envelope destined to user 42. -/
def c7env : SEnv := ⟨.server, .user 42, .info "hi"⟩

/-- C7 counterexample: `Room::deliver` with destination `User(42)` delivers
to user 42 although 42 is not a member of the room — the code consults only
`uid_hash`, never the member list, so "delivered to that user only if uid is
present in the room" is false. -/
theorem c7_counterexample :
    (42 : Nat) ∉ c7room.members
    ∧ roomDeliver c7room c7env [(42, c7u)]
        = [(42, { c7u with outbox := [.info "hi"] })] := by
  decide

/-- C7 (amended): routing of `Room::deliver` and `Room::deliver_inbox`.  An
envelope destined to `User(uid)` is delivered to that user exactly when `uid`
is a key of `uid_hash`, irrespective of room membership; any other
destination is delivered to every current member that is a key of `uid_hash`
(and to no one else); `deliver_inbox` drains the inbox through the same
routing. -/
theorem c7_deliver_routing :
    (∀ (r : RoomM) (env : SEnv) (um : List (Nat × UserM)) (uid : Nat)
      (u : UserM), env.dest = .user uid → alookup um uid = some u →
      roomDeliver r env um = ainsert um uid (userDeliver u env))
    ∧ (∀ (r : RoomM) (env : SEnv) (um : List (Nat × UserM)) (uid : Nat),
      env.dest = .user uid → alookup um uid = none →
      roomDeliver r env um = um)
    ∧ (∀ (r : RoomM) (env : SEnv) (um : List (Nat × UserM)) (k : Nat),
      (∀ uid, env.dest ≠ .user uid) → r.members.Nodup →
      alookup (roomDeliver r env um) k
        = if k ∈ r.members
            then (alookup um k).map (fun u => userDeliver u env)
            else alookup um k)
    ∧ (∀ (r : RoomM) (um : List (Nat × UserM)),
      roomDeliverInbox r um
        = ({ r with inbox := [] },
           r.inbox.foldl (fun m env => roomDeliver r env m) um)) := by
  refine ⟨?_, ?_, ?_, fun r um => rfl⟩
  · intro r env um uid u hdest hlook
    obtain ⟨src, dst, m⟩ := env
    simp only at hdest
    rw [hdest]
    simp only [roomDeliver, hlook]
  · intro r env um uid hdest hlook
    obtain ⟨src, dst, m⟩ := env
    simp only at hdest
    rw [hdest]
    simp only [roomDeliver, hlook]
  · intro r env um k hdest hnd
    obtain ⟨src, dst, m⟩ := env
    cases dst with
    | user uid => exact absurd rfl (hdest uid)
    | room rid =>
      simp only [roomDeliver]
      exact bcastLookup ⟨src, .room rid, m⟩ r.members um k hnd
    | server =>
      simp only [roomDeliver]
      exact bcastLookup ⟨src, .server, m⟩ r.members um k hnd
    | all =>
      simp only [roomDeliver]
      exact bcastLookup ⟨src, .all, m⟩ r.members um k hnd

/-- Fixture user for the C7 witness. -/
def c7uB : UserM :=
  { idn := 5, name := "m", idstr := "m", blocks := [], outbox := [],
    quota := 0, lastData := 0, errs := 0, shut := false }

/-- Fixture room for the C7 witness: members 5 and 6, only 5 connected. -/
def c7roomB : RoomM :=
  { idn := 8, name := "B", idstr := "b", members := [5, 6], op := 5,
    closed := false, bans := [], invites := [], inbox := [] }

/-- Fixture broadcast envelope for the C7 witness. -/
def c7envB : SEnv := ⟨.server, .all, .info "yo"⟩

/-- C7 witness: the routing theorem evaluated on a broadcast to a concrete
two-member room in which only member 5 is connected. -/
theorem c7_witness :
    c7roomB.members.Nodup
    ∧ alookup (roomDeliver c7roomB c7envB [(5, c7uB)]) 5
        = if 5 ∈ c7roomB.members
            then (alookup [(5, c7uB)] 5).map (fun u => userDeliver u c7envB)
            else alookup [(5, c7uB)] 5 :=
  ⟨by decide,
   c7_deliver_routing.2.2.1 c7roomB c7envB [(5, c7uB)] 5
     (fun uid h => Endp.noConfusion h) (by decide)⟩

/-! ## Claim C1: idle-kick handling (Phase C of process_room) -/

/-- The server `Logout` message queued for an idle-kicked user. -/
def c1LogoutMsg : SMsg :=
  .logout "Too long since the server received data from the client."

/-- C1: an idle-kicked user is NOT destroyed.  Phase C of `process_room`
(src/bin/greld.rs 1057-1074) merely queues a `Logout` message on the user's
socket; the user map after Phase C binds exactly the same ids as before, and
every user record is unchanged except for the queued messages — in
particular no user is removed and no socket shutdown flag is set.  (The
error-list check claimed by the spec does not exist either: `User::has_errors`
is never called from greld.rs.) -/
theorem c1_idle_user_retained : ∀ (logouts : List Nat)
    (um : List (Nat × UserM)) (rid : Nat) (envz : List SEnv) (k : Nat),
    alookup (phaseC um rid logouts envz).1 k
      = (alookup um k).map (fun mu =>
          { mu with outbox := mu.outbox
              ++ List.replicate (logouts.count k) c1LogoutMsg }) := by
  intro logouts
  induction logouts with
  | nil =>
    intro um rid envz k
    show alookup um k = _
    cases h : alookup um k <;> simp [h]
  | cons a t ih =>
    intro um rid envz k
    cases h : alookup um a with
    | some mu =>
      have hstep : phaseC um rid (a :: t) envz
          = phaseC (ainsert um a (userDeliverMsg mu c1LogoutMsg)) rid t
              (envz ++ [⟨.server, .room rid,
                .misc "leave" [mu.name, "[ disconnected by server ]"]
                  (mu.name ++ " has been disconnected from the server.")⟩]) := by
        simp only [phaseC, List.foldl_cons, h, c1LogoutMsg]
      rw [hstep, ih]
      by_cases hk : k = a
      · subst hk
        rw [alookup_ainsert_self, h]
        simp [userDeliverMsg, List.count_cons_self, List.replicate_succ,
          List.append_assoc]
      · rw [alookup_ainsert_ne um a k _ hk]
        simp [List.count_cons, hk]
    | none =>
      have hstep : phaseC um rid (a :: t) envz = phaseC um rid t envz := by
        simp only [phaseC, List.foldl_cons, h]
      rw [hstep, ih]
      by_cases hk : k = a
      · subst hk
        rw [h]
        rfl
      · simp [List.count_cons, hk]

/-! ## Claim C4: the byte-level frame socket (src/sock.rs with the serde_json
wire contract)

Bytes are modelled as `Nat`; a message (`proto3::Rcvr` with `String` payloads
viewed as their UTF-8 byte lists) is encoded by `enc`, the model of
`serde_json::to_vec_pretty` on the matching `Sndr` value (two-space pretty
printing, byte-escaping per serde_json's escape table).  `parse` models
`serde_json::from_slice::<Rcvr>` by its contract: a scanner (`scanAux`)
finds the end of the first complete JSON value (bracket depth, in-string
and escape states); a complete value covering the whole buffer decodes via
`dec`; a complete value followed by trailing bytes is a syntax error at the
one-based line/column of the first trailing byte; no complete value is an
end-of-input error. -/

/-- State of the JSON value scanner: bracket depth, inside-string flag, and
escaped flag (previous in-string byte was a backslash). -/
structure ScSt where
  dep : Nat
  instr : Bool
  escp : Bool
deriving DecidableEq, Repr

/-- One byte of JSON scanning. -/
def scDelta (st : ScSt) (b : Nat) : ScSt :=
  if st.instr then
    if st.escp then { st with escp := false }
    else if b = 92 then { st with escp := true }
    else if b = 34 then { st with instr := false }
    else st
  else
    if b = 123 ∨ b = 91 then { st with dep := st.dep + 1 }
    else if b = 125 ∨ b = 93 then { st with dep := st.dep - 1 }
    else if b = 34 then { st with instr := true }
    else st

/-- The first JSON value is complete: all brackets closed, not in a string. -/
def scDone (st : ScSt) : Bool := st.dep = 0 && !st.instr

/-- Position (counted from `k`) just after the first complete JSON value,
if it completes within the buffer. -/
def scanAux : ScSt → List Nat → Nat → Option Nat
  | _, [], _ => none
  | st, b :: t, k =>
    let st' := scDelta st b
    if scDone st' then some (k + 1) else scanAux st' t (k + 1)

/-- Run the scanner over a byte list. -/
def runL (st : ScSt) (bs : List Nat) : ScSt := bs.foldl scDelta st

/-- End offset of the first complete JSON value of the buffer, if any. -/
def scan (bs : List Nat) : Option Nat := scanAux ⟨0, false, false⟩ bs 0

theorem scanAux_shift (c : List Nat) : ∀ (st : ScSt) (k : Nat),
    scanAux st c k = (scanAux st c 0).map (fun j => k + j) := by
  induction c with
  | nil => intro st k; rfl
  | cons b t ih =>
    intro st k
    show (if scDone (scDelta st b) then some (k + 1) else scanAux (scDelta st b) t (k + 1))
      = (if scDone (scDelta st b) then some (0 + 1) else scanAux (scDelta st b) t (0 + 1)).map
          (fun j => k + j)
    by_cases h : scDone (scDelta st b)
    · rw [if_pos h, if_pos h]; simp
    · rw [if_neg h, if_neg h, ih _ (k + 1), ih _ (0 + 1)]
      cases hx : scanAux (scDelta st b) t 0
      · simp
      · simp; omega

theorem scanAux_append_some (p : List Nat) : ∀ (st : ScSt) (q : List Nat) (j : Nat),
    scanAux st p 0 = some j → scanAux st (p ++ q) 0 = some j := by
  induction p with
  | nil => intro st q j h; exact absurd h (by simp [scanAux])
  | cons b t ih =>
    intro st q j h
    rw [List.cons_append]
    show (if scDone (scDelta st b) then some (0 + 1)
      else scanAux (scDelta st b) (t ++ q) (0 + 1)) = some j
    have h' : (if scDone (scDelta st b) then some (0 + 1)
      else scanAux (scDelta st b) t (0 + 1)) = some j := h
    by_cases hd : scDone (scDelta st b)
    · rw [if_pos hd] at h' ⊢; exact h'
    · rw [if_neg hd] at h' ⊢
      rw [scanAux_shift] at h' ⊢
      cases hx : scanAux (scDelta st b) t 0 with
      | none => rw [hx] at h'; exact absurd h' (by simp)
      | some j' =>
        rw [hx] at h'
        rw [ih _ q j' hx]
        exact h'

theorem scanAux_append_none (p : List Nat) : ∀ (st : ScSt) (q : List Nat),
    scanAux st p 0 = none →
    scanAux st (p ++ q) 0 = (scanAux (runL st p) q 0).map (fun j => p.length + j) := by
  induction p with
  | nil =>
    intro st q _
    simp [runL]
  | cons b t ih =>
    intro st q h
    rw [List.cons_append]
    have h' : (if scDone (scDelta st b) then some (0 + 1)
      else scanAux (scDelta st b) t (0 + 1)) = none := h
    show (if scDone (scDelta st b) then some (0 + 1)
      else scanAux (scDelta st b) (t ++ q) (0 + 1)) = _
    by_cases hd : scDone (scDelta st b)
    · rw [if_pos hd] at h'; exact absurd h' (by simp)
    · rw [if_neg hd] at h' ⊢
      rw [scanAux_shift] at h'
      have ht : scanAux (scDelta st b) t 0 = none := by
        cases hx : scanAux (scDelta st b) t 0
        · rfl
        · rw [hx] at h'; exact absurd h' (by simp)
      rw [scanAux_shift, ih _ q ht]
      have hrun : runL st (b :: t) = runL (scDelta st b) t := rfl
      rw [hrun]
      cases hy : scanAux (runL (scDelta st b) t) q 0
      · simp
      · simp; omega

theorem scanAux_bound (p : List Nat) : ∀ (st : ScSt) (j : Nat),
    scanAux st p 0 = some j → 1 ≤ j ∧ j ≤ p.length := by
  induction p with
  | nil => intro st j h; exact absurd h (by simp [scanAux])
  | cons b t ih =>
    intro st j h
    have h' : (if scDone (scDelta st b) then some (0 + 1)
      else scanAux (scDelta st b) t (0 + 1)) = some j := h
    by_cases hd : scDone (scDelta st b)
    · rw [if_pos hd] at h'
      have : 0 + 1 = j := Option.some.inj h'
      simp [← this]
    · rw [if_neg hd, scanAux_shift] at h'
      cases hx : scanAux (scDelta st b) t 0 with
      | none => rw [hx] at h'; exact absurd h' (by simp)
      | some j' =>
        rw [hx] at h'
        have hj : 0 + 1 + j' = j := Option.some.inj h'
        have := ih _ j' hx
        simp only [List.length_cons]
        omega

theorem scanAux_prefix_none (p q : List Nat) (st : ScSt) (j : Nat)
    (h : scanAux st (p ++ q) 0 = some j) (hj : p.length < j) :
    scanAux st p 0 = none := by
  cases hx : scanAux st p 0 with
  | none => rfl
  | some j' =>
    have h2 := scanAux_append_some p st q j' hx
    rw [h] at h2
    have : j = j' := Option.some.inj h2
    have := (scanAux_bound p st j' hx).2
    omega

theorem runL_append (st : ScSt) (p q : List Nat) :
    runL st (p ++ q) = runL (runL st p) q := by
  simp [runL]

theorem scan_cat (c r : List Nat) (st : ScSt) (j : Nat)
    (h1 : scanAux st c 0 = none)
    (h2 : scanAux (runL st c) r 0 = some j) :
    scanAux st (c ++ r) 0 = some (c.length + j) := by
  rw [scanAux_append_none c st r h1, h2]; rfl

theorem scan_cat_none (c r : List Nat) (st : ScSt)
    (h1 : scanAux st c 0 = none)
    (h2 : scanAux (runL st c) r 0 = none) :
    scanAux st (c ++ r) 0 = none := by
  rw [scanAux_append_none c st r h1, h2]; rfl

/-- The low hex digit bytes used by serde_json's control-character escapes. -/
def hexDig (n : Nat) : Nat := if n < 10 then 48 + n else 87 + n

/-- Value of one hex digit byte. -/
def unHex (d : Nat) : Option Nat :=
  if 48 ≤ d ∧ d ≤ 57 then some (d - 48)
  else if 97 ≤ d ∧ d ≤ 102 then some (d - 87)
  else if 65 ≤ d ∧ d ≤ 70 then some (d - 55)
  else none

/-- serde_json's escape of one string byte: quote and backslash escaped,
the five short control escapes, `\u00XX` for other control bytes, all other
bytes passed through. -/
def escB (b : Nat) : List Nat :=
  if b = 34 then [92, 34]
  else if b = 92 then [92, 92]
  else if b = 8 then [92, 98]
  else if b = 9 then [92, 116]
  else if b = 10 then [92, 110]
  else if b = 12 then [92, 102]
  else if b = 13 then [92, 114]
  else if b < 32 then [92, 117, 48, 48, hexDig (b / 16), hexDig (b % 16)]
  else [b]

/-- Escape a whole string (byte list). -/
def esc (s : List Nat) : List Nat := (s.map escB).flatten

/-- Read an escaped string up to and over its closing quote, returning the
unescaped content and the rest of the buffer. -/
def readStr : List Nat → Option (List Nat × List Nat)
  | [] => none
  | b :: r =>
    if b = 34 then some ([], r)
    else if b = 92 then
      match r with
      | [] => none
      | c :: r2 =>
        if c = 34 then (readStr r2).map (fun p => (34 :: p.1, p.2))
        else if c = 92 then (readStr r2).map (fun p => (92 :: p.1, p.2))
        else if c = 98 then (readStr r2).map (fun p => (8 :: p.1, p.2))
        else if c = 116 then (readStr r2).map (fun p => (9 :: p.1, p.2))
        else if c = 110 then (readStr r2).map (fun p => (10 :: p.1, p.2))
        else if c = 102 then (readStr r2).map (fun p => (12 :: p.1, p.2))
        else if c = 114 then (readStr r2).map (fun p => (13 :: p.1, p.2))
        else if c = 117 then
          match r2 with
          | h1 :: h2 :: h3 :: h4 :: r3 =>
            match unHex h1, unHex h2, unHex h3, unHex h4 with
            | some x1, some x2, some x3, some x4 =>
              (readStr r3).map
                (fun p => ((((x1 * 16 + x2) * 16 + x3) * 16 + x4) :: p.1, p.2))
            | _, _, _, _ => none
          | _ => none
        else none
    else (readStr r).map (fun p => (b :: p.1, p.2))

theorem unHex_hexDig : ∀ n, n < 16 → unHex (hexDig n) = some n := by decide

theorem hexDig_facts : ∀ n, n < 16 →
    hexDig n ≠ 34 ∧ hexDig n ≠ 92 ∧ hexDig n ≠ 117 := by decide

theorem readStr_quote (r : List Nat) : readStr (34 :: r) = some ([], r) := by
  rw [readStr.eq_def]; simp

theorem readStr_plain (X : List Nat) (b : Nat) (h34 : ¬ b = 34) (h92 : ¬ b = 92) :
    readStr (b :: X) = (readStr X).map (fun p => (b :: p.1, p.2)) := by
  rw [readStr.eq_def]
  simp only []
  rw [if_neg h34, if_neg h92]

theorem readStr_hex (X : List Nat) (h1 h2 h3 h4 : Nat) (x1 x2 x3 x4 : Nat)
    (e1 : unHex h1 = some x1) (e2 : unHex h2 = some x2)
    (e3 : unHex h3 = some x3) (e4 : unHex h4 = some x4) :
    readStr (92 :: 117 :: h1 :: h2 :: h3 :: h4 :: X)
      = (readStr X).map (fun p => ((((x1 * 16 + x2) * 16 + x3) * 16 + x4) :: p.1, p.2)) := by
  rw [readStr.eq_def]
  simp [e1, e2, e3, e4]

theorem readStr_e34 (X : List Nat) :
    readStr (92 :: 34 :: X) = (readStr X).map (fun p => (34 :: p.1, p.2)) := by
  rw [readStr.eq_def]; simp

theorem readStr_e92 (X : List Nat) :
    readStr (92 :: 92 :: X) = (readStr X).map (fun p => (92 :: p.1, p.2)) := by
  rw [readStr.eq_def]; simp

theorem readStr_e98 (X : List Nat) :
    readStr (92 :: 98 :: X) = (readStr X).map (fun p => (8 :: p.1, p.2)) := by
  rw [readStr.eq_def]; simp

theorem readStr_e116 (X : List Nat) :
    readStr (92 :: 116 :: X) = (readStr X).map (fun p => (9 :: p.1, p.2)) := by
  rw [readStr.eq_def]; simp

theorem readStr_e110 (X : List Nat) :
    readStr (92 :: 110 :: X) = (readStr X).map (fun p => (10 :: p.1, p.2)) := by
  rw [readStr.eq_def]; simp

theorem readStr_e102 (X : List Nat) :
    readStr (92 :: 102 :: X) = (readStr X).map (fun p => (12 :: p.1, p.2)) := by
  rw [readStr.eq_def]; simp

theorem readStr_e114 (X : List Nat) :
    readStr (92 :: 114 :: X) = (readStr X).map (fun p => (13 :: p.1, p.2)) := by
  rw [readStr.eq_def]; simp

theorem readStr_esc : ∀ (s r : List Nat), readStr (esc s ++ (34 :: r)) = some (s, r) := by
  intro s
  induction s with
  | nil =>
    intro r
    show readStr (34 :: r) = some ([], r)
    exact readStr_quote r
  | cons b s' ih =>
    intro r
    have hesc : esc (b :: s') = escB b ++ esc s' := by simp [esc]
    rw [hesc, List.append_assoc]
    by_cases h34 : b = 34
    · subst h34
      rw [show escB 34 ++ (esc s' ++ 34 :: r) = 92 :: 34 :: (esc s' ++ 34 :: r) from rfl,
        readStr_e34, ih r]
      rfl
    · by_cases h92 : b = 92
      · subst h92
        rw [show escB 92 ++ (esc s' ++ 34 :: r) = 92 :: 92 :: (esc s' ++ 34 :: r) from rfl,
          readStr_e92, ih r]
        rfl
      · by_cases h8 : b = 8
        · subst h8
          rw [show escB 8 ++ (esc s' ++ 34 :: r) = 92 :: 98 :: (esc s' ++ 34 :: r) from rfl,
            readStr_e98, ih r]
          rfl
        · by_cases h9 : b = 9
          · subst h9
            rw [show escB 9 ++ (esc s' ++ 34 :: r) = 92 :: 116 :: (esc s' ++ 34 :: r) from rfl,
              readStr_e116, ih r]
            rfl
          · by_cases h10 : b = 10
            · subst h10
              rw [show escB 10 ++ (esc s' ++ 34 :: r) = 92 :: 110 :: (esc s' ++ 34 :: r) from rfl,
                readStr_e110, ih r]
              rfl
            · by_cases h12 : b = 12
              · subst h12
                rw [show escB 12 ++ (esc s' ++ 34 :: r) = 92 :: 102 :: (esc s' ++ 34 :: r) from rfl,
                  readStr_e102, ih r]
                rfl
              · by_cases h13 : b = 13
                · subst h13
                  rw [show escB 13 ++ (esc s' ++ 34 :: r) = 92 :: 114 :: (esc s' ++ 34 :: r) from rfl,
                    readStr_e114, ih r]
                  rfl
                · by_cases hlt : b < 32
                  · have hb : escB b = [92, 117, 48, 48, hexDig (b / 16), hexDig (b % 16)] := by
                      simp [escB, h34, h92, h8, h9, h10, h12, h13, hlt]
                    have hdiv : b / 16 < 16 := by omega
                    have hmod : b % 16 < 16 := by omega
                    rw [hb, List.cons_append, List.cons_append, List.cons_append,
                      List.cons_append, List.cons_append, List.cons_append, List.nil_append,
                      readStr_hex _ 48 48 _ _ 0 0 _ _ (by decide) (by decide)
                        (unHex_hexDig _ hdiv) (unHex_hexDig _ hmod), ih r]
                    have hbeq : ((0 * 16 + 0) * 16 + b / 16) * 16 + b % 16 = b := by omega
                    rw [show (some (s', r)).map
                        (fun p => ((((0 * 16 + 0) * 16 + b / 16) * 16 + b % 16) :: p.1, p.2))
                      = some ((((0 * 16 + 0) * 16 + b / 16) * 16 + b % 16) :: s', r) from rfl,
                      hbeq]
                  · have hb : escB b = [b] := by
                      simp [escB, h34, h92, h8, h9, h10, h12, h13, hlt]
                    rw [hb, List.cons_append, List.nil_append,
                      readStr_plain _ b h34 h92, ih r]
                    rfl

theorem escB_scan (b : Nat) (d : Nat) :
    scanAux ⟨d, true, false⟩ (escB b) 0 = none
      ∧ runL ⟨d, true, false⟩ (escB b) = ⟨d, true, false⟩ := by
  by_cases h34 : b = 34
  · subst h34; constructor <;> simp [escB, scanAux, scDelta, scDone, runL]
  · by_cases h92 : b = 92
    · subst h92; constructor <;> simp [escB, scanAux, scDelta, scDone, runL]
    · by_cases h8 : b = 8
      · subst h8; constructor <;> simp [escB, scanAux, scDelta, scDone, runL]
      · by_cases h9 : b = 9
        · subst h9; constructor <;> simp [escB, scanAux, scDelta, scDone, runL]
        · by_cases h10 : b = 10
          · subst h10; constructor <;> simp [escB, scanAux, scDelta, scDone, runL]
          · by_cases h12 : b = 12
            · subst h12; constructor <;> simp [escB, scanAux, scDelta, scDone, runL]
            · by_cases h13 : b = 13
              · subst h13; constructor <;> simp [escB, scanAux, scDelta, scDone, runL]
              · by_cases hlt : b < 32
                · have hb : escB b = [92, 117, 48, 48, hexDig (b / 16), hexDig (b % 16)] := by
                    simp [escB, h34, h92, h8, h9, h10, h12, h13, hlt]
                  have f1 := hexDig_facts (b / 16) (by omega)
                  have f2 := hexDig_facts (b % 16) (by omega)
                  rw [hb]
                  constructor <;>
                    simp [scanAux, scDelta, scDone, runL, f1.1, f1.2.1, f2.1, f2.2.1]
                · have hb : escB b = [b] := by
                    simp [escB, h34, h92, h8, h9, h10, h12, h13, hlt]
                  rw [hb]
                  constructor <;> simp [scanAux, scDelta, scDone, runL, h34, h92]

theorem esc_scan (s : List Nat) (d : Nat) :
    scanAux ⟨d, true, false⟩ (esc s) 0 = none
      ∧ runL ⟨d, true, false⟩ (esc s) = ⟨d, true, false⟩ := by
  induction s with
  | nil => exact ⟨rfl, rfl⟩
  | cons b s' ih =>
    have hesc : esc (b :: s') = escB b ++ esc s' := by simp [esc]
    have hB := escB_scan b d
    rw [hesc]
    constructor
    · rw [scan_cat_none _ _ _ hB.1]
      rw [hB.2]
      exact ih.1
    · rw [runL_append, hB.2, ih.2]

/-! Byte constants of the pretty-printed wire format (serde_json
`to_vec_pretty`, two-space indent; keys and punctuation of each variant). -/

/-- Header of the Logout newtype variant up to its opening string quote. -/
def hLogout : List Nat := [123, 10, 32, 32, 34, 76, 111, 103, 111, 117, 116, 34, 58, 32, 34]

/-- Header of the Name variant. -/
def hName : List Nat := [123, 10, 32, 32, 34, 78, 97, 109, 101, 34, 58, 32, 34]

/-- Header of the Join variant. -/
def hJoin : List Nat := [123, 10, 32, 32, 34, 74, 111, 105, 110, 34, 58, 32, 34]

/-- Header of the Block variant. -/
def hBlock : List Nat := [123, 10, 32, 32, 34, 66, 108, 111, 99, 107, 34, 58, 32, 34]

/-- Header of the Unblock variant. -/
def hUnblock : List Nat := [123, 10, 32, 32, 34, 85, 110, 98, 108, 111, 99, 107, 34, 58, 32, 34]

/-- Header of the Info variant. -/
def hInfo : List Nat := [123, 10, 32, 32, 34, 73, 110, 102, 111, 34, 58, 32, 34]

/-- Header of the Err variant. -/
def hErr : List Nat := [123, 10, 32, 32, 34, 69, 114, 114, 34, 58, 32, 34]

/-- Header of the Priv struct variant up to the opening quote of `who`. -/
def hPriv : List Nat := [123, 10, 32, 32, 34, 80, 114, 105, 118, 34, 58, 32, 123, 10, 32, 32, 32, 32, 34, 119, 104, 111, 34, 58, 32, 34]

/-- Separator of Priv between `who` and the opening quote of `text`. -/
def midPriv : List Nat := [44, 10, 32, 32, 32, 32, 34, 116, 101, 120, 116, 34, 58, 32, 34]

/-- Header of the Query struct variant up to the opening quote of `what`. -/
def hQuery : List Nat := [123, 10, 32, 32, 34, 81, 117, 101, 114, 121, 34, 58, 32, 123, 10, 32, 32, 32, 32, 34, 119, 104, 97, 116, 34, 58, 32, 34]

/-- Separator of Query before the opening quote of `arg`. -/
def midQuery : List Nat := [44, 10, 32, 32, 32, 32, 34, 97, 114, 103, 34, 58, 32, 34]

/-- Header of the Text struct variant up to the opening quote of `who`. -/
def hText : List Nat := [123, 10, 32, 32, 34, 84, 101, 120, 116, 34, 58, 32, 123, 10, 32, 32, 32, 32, 34, 119, 104, 111, 34, 58, 32, 34]

/-- Separator of Text before the `lines` array. -/
def midText : List Nat := [44, 10, 32, 32, 32, 32, 34, 108, 105, 110, 101, 115, 34, 58, 32]

/-- Header of the Misc struct variant up to the opening quote of `what`. -/
def hMisc : List Nat := [123, 10, 32, 32, 34, 77, 105, 115, 99, 34, 58, 32, 123, 10, 32, 32, 32, 32, 34, 119, 104, 97, 116, 34, 58, 32, 34]

/-- Separator of Misc before the `data` array. -/
def midMisc1 : List Nat := [44, 10, 32, 32, 32, 32, 34, 100, 97, 116, 97, 34, 58, 32]

/-- Separator of Misc before the opening quote of `alt`. -/
def midMisc2 : List Nat := [44, 10, 32, 32, 32, 32, 34, 97, 108, 116, 34, 58, 32, 34]

/-- Header of Op(Kick) up to the opening quote of the name. -/
def hOpKick : List Nat := [123, 10, 32, 32, 34, 79, 112, 34, 58, 32, 123, 10, 32, 32, 32, 32, 34, 75, 105, 99, 107, 34, 58, 32, 34]

/-- Header of Op(Invite). -/
def hOpInvite : List Nat := [123, 10, 32, 32, 34, 79, 112, 34, 58, 32, 123, 10, 32, 32, 32, 32, 34, 73, 110, 118, 105, 116, 101, 34, 58, 32, 34]

/-- Header of Op(Give). -/
def hOpGive : List Nat := [123, 10, 32, 32, 34, 79, 112, 34, 58, 32, 123, 10, 32, 32, 32, 32, 34, 71, 105, 118, 101, 34, 58, 32, 34]

/-- Full encoding of Op(Open). -/
def encOpOpen : List Nat := [123, 10, 32, 32, 34, 79, 112, 34, 58, 32, 34, 79, 112, 101, 110, 34, 10, 125]

/-- Full encoding of Op(Close). -/
def encOpClose : List Nat := [123, 10, 32, 32, 34, 79, 112, 34, 58, 32, 34, 67, 108, 111, 115, 101, 34, 10, 125]

/-- Full encoding of Ping (a bare JSON string). -/
def encPing : List Nat := [34, 80, 105, 110, 103, 34]

/-- Opening of a nonempty pretty-printed string array, to the first quote. -/
def arrOpen0 : List Nat := [91, 10, 32, 32, 32, 32, 32, 32, 34]

/-- Separator between string-array elements, to the next opening quote. -/
def arrSep0 : List Nat := [44, 10, 32, 32, 32, 32, 32, 32, 34]

/-- Closing of a nonempty pretty-printed string array. -/
def arrClose : List Nat := [10, 32, 32, 32, 32, 93]

/-- Closing bytes of the two-level struct variants. -/
def tlObj : List Nat := [10, 32, 32, 125, 10, 125]

/-- Closing bytes of the top-level newtype variants. -/
def tlNewt : List Nat := [10, 125]

/-- Model of `proto3::RcvOp` (String payloads as byte lists). -/
inductive RcvOp where
  | opn
  | close
  | kick (s : List Nat)
  | invite (s : List Nat)
  | give (s : List Nat)
deriving DecidableEq, Repr

/-- Model of `proto3::Rcvr` (String payloads as byte lists). -/
inductive Rcvr where
  | text (who : List Nat) (lines : List (List Nat))
  | ping
  | priv (who txt : List Nat)
  | logout (s : List Nat)
  | name (s : List Nat)
  | join (s : List Nat)
  | query (what arg : List Nat)
  | block (s : List Nat)
  | unblock (s : List Nat)
  | op (o : RcvOp)
  | info (s : List Nat)
  | err (s : List Nat)
  | misc (what : List Nat) (data : List (List Nat)) (alt : List Nat)
deriving DecidableEq, Repr

/-- Elements of a pretty-printed string array after the first. -/
def encArrTail : List (List Nat) → List Nat
  | [] => arrClose
  | x :: rest => arrSep0 ++ esc x ++ [34] ++ encArrTail rest

/-- Pretty-printed string array. -/
def encArr : List (List Nat) → List Nat
  | [] => [91, 93]
  | x :: rest => arrOpen0 ++ esc x ++ [34] ++ encArrTail rest

/-- Model of `Sndr::bytes` = `serde_json::to_vec_pretty` on the sending twin
of the message (same variant shape and payloads). -/
def enc : Rcvr → List Nat
  | .ping => encPing
  | .logout s => hLogout ++ esc s ++ [34] ++ tlNewt
  | .name s => hName ++ esc s ++ [34] ++ tlNewt
  | .join s => hJoin ++ esc s ++ [34] ++ tlNewt
  | .block s => hBlock ++ esc s ++ [34] ++ tlNewt
  | .unblock s => hUnblock ++ esc s ++ [34] ++ tlNewt
  | .info s => hInfo ++ esc s ++ [34] ++ tlNewt
  | .err s => hErr ++ esc s ++ [34] ++ tlNewt
  | .priv w t => hPriv ++ esc w ++ [34] ++ midPriv ++ esc t ++ [34] ++ tlObj
  | .query w a => hQuery ++ esc w ++ [34] ++ midQuery ++ esc a ++ [34] ++ tlObj
  | .text w ls => hText ++ esc w ++ [34] ++ midText ++ encArr ls ++ tlObj
  | .misc w d a =>
    hMisc ++ esc w ++ [34] ++ midMisc1 ++ encArr d ++ midMisc2 ++ esc a ++ [34] ++ tlObj
  | .op .opn => encOpOpen
  | .op .close => encOpClose
  | .op (.kick s) => hOpKick ++ esc s ++ [34] ++ tlObj
  | .op (.invite s) => hOpInvite ++ esc s ++ [34] ++ tlObj
  | .op (.give s) => hOpGive ++ esc s ++ [34] ++ tlObj

theorem tailScan (rest : List (List Nat)) :
    scanAux ⟨3, false, false⟩ (encArrTail rest) 0 = none
      ∧ runL ⟨3, false, false⟩ (encArrTail rest) = ⟨2, false, false⟩ := by
  induction rest with
  | nil => exact ⟨by decide, by decide⟩
  | cons x rest ih =>
    have hshape : encArrTail (x :: rest)
        = arrSep0 ++ (esc x ++ ([34] ++ encArrTail rest)) := by
      simp [encArrTail]
    rw [hshape]
    constructor
    · rw [scan_cat_none _ _ _ (by decide)]
      rw [show runL ⟨3, false, false⟩ arrSep0 = ⟨3, true, false⟩ from by decide]
      rw [scan_cat_none _ _ _ (esc_scan x 3).1]
      rw [(esc_scan x 3).2]
      rw [scan_cat_none _ _ _ (by decide)]
      rw [show runL ⟨3, true, false⟩ [34] = ⟨3, false, false⟩ from by decide]
      exact ih.1
    · rw [runL_append, show runL ⟨3, false, false⟩ arrSep0 = ⟨3, true, false⟩ from by decide,
        runL_append, (esc_scan x 3).2, runL_append,
        show runL ⟨3, true, false⟩ [34] = ⟨3, false, false⟩ from by decide]
      exact ih.2

theorem arrScan (xs : List (List Nat)) :
    scanAux ⟨2, false, false⟩ (encArr xs) 0 = none
      ∧ runL ⟨2, false, false⟩ (encArr xs) = ⟨2, false, false⟩ := by
  cases xs with
  | nil => exact ⟨by decide, by decide⟩
  | cons x rest =>
    have hshape : encArr (x :: rest)
        = arrOpen0 ++ (esc x ++ ([34] ++ encArrTail rest)) := by
      simp [encArr]
    rw [hshape]
    constructor
    · rw [scan_cat_none _ _ _ (by decide)]
      rw [show runL ⟨2, false, false⟩ arrOpen0 = ⟨3, true, false⟩ from by decide]
      rw [scan_cat_none _ _ _ (esc_scan x 3).1]
      rw [(esc_scan x 3).2]
      rw [scan_cat_none _ _ _ (by decide)]
      rw [show runL ⟨3, true, false⟩ [34] = ⟨3, false, false⟩ from by decide]
      exact (tailScan rest).1
    · rw [runL_append, show runL ⟨2, false, false⟩ arrOpen0 = ⟨3, true, false⟩ from by decide,
        runL_append, (esc_scan x 3).2, runL_append,
        show runL ⟨3, true, false⟩ [34] = ⟨3, false, false⟩ from by decide]
      exact (tailScan rest).2

theorem scanNewt (hK : List Nat) (s : List Nat)
    (h1 : scanAux ⟨0, false, false⟩ hK 0 = none)
    (h2 : runL ⟨0, false, false⟩ hK = ⟨1, true, false⟩) :
    scan (hK ++ (esc s ++ ([34] ++ tlNewt)))
      = some (hK ++ (esc s ++ ([34] ++ tlNewt))).length := by
  have step3 : scanAux ⟨1, true, false⟩ ([34] ++ tlNewt) 0 = some 3 := by decide
  have step2 : scanAux ⟨1, true, false⟩ (esc s ++ ([34] ++ tlNewt)) 0
      = some ((esc s).length + 3) := by
    apply scan_cat
    · exact (esc_scan s 1).1
    · rw [(esc_scan s 1).2]; exact step3
  have step1 : scanAux ⟨0, false, false⟩ (hK ++ (esc s ++ ([34] ++ tlNewt))) 0
      = some (hK.length + ((esc s).length + 3)) := by
    apply scan_cat
    · exact h1
    · rw [h2]; exact step2
  rw [scan.eq_def, step1]
  congr 1
  simp only [List.length_append, List.length_cons, List.length_nil, tlNewt]

theorem scanTwoStr (hK mid : List Nat) (s1 s2 : List Nat)
    (h1 : scanAux ⟨0, false, false⟩ hK 0 = none)
    (h2 : runL ⟨0, false, false⟩ hK = ⟨2, true, false⟩)
    (h3 : scanAux ⟨2, false, false⟩ mid 0 = none)
    (h4 : runL ⟨2, false, false⟩ mid = ⟨2, true, false⟩) :
    scan (hK ++ (esc s1 ++ ([34] ++ (mid ++ (esc s2 ++ ([34] ++ tlObj))))))
      = some (hK ++ (esc s1 ++ ([34] ++ (mid ++ (esc s2 ++ ([34] ++ tlObj)))))).length := by
  have step6 : scanAux ⟨2, true, false⟩ ([34] ++ tlObj) 0 = some 7 := by decide
  have step5 : scanAux ⟨2, true, false⟩ (esc s2 ++ ([34] ++ tlObj)) 0
      = some ((esc s2).length + 7) := by
    apply scan_cat
    · exact (esc_scan s2 2).1
    · rw [(esc_scan s2 2).2]; exact step6
  have step4 : scanAux ⟨2, false, false⟩ (mid ++ (esc s2 ++ ([34] ++ tlObj))) 0
      = some (mid.length + ((esc s2).length + 7)) := by
    apply scan_cat
    · exact h3
    · rw [h4]; exact step5
  have step3 : scanAux ⟨2, true, false⟩ ([34] ++ (mid ++ (esc s2 ++ ([34] ++ tlObj)))) 0
      = some (1 + (mid.length + ((esc s2).length + 7))) := by
    apply scan_cat
    · decide
    · rw [show runL ⟨2, true, false⟩ [34] = ⟨2, false, false⟩ from by decide]
      exact step4
  have step2 : scanAux ⟨2, true, false⟩
      (esc s1 ++ ([34] ++ (mid ++ (esc s2 ++ ([34] ++ tlObj))))) 0
      = some ((esc s1).length + (1 + (mid.length + ((esc s2).length + 7)))) := by
    apply scan_cat
    · exact (esc_scan s1 2).1
    · rw [(esc_scan s1 2).2]; exact step3
  have step1 : scanAux ⟨0, false, false⟩
      (hK ++ (esc s1 ++ ([34] ++ (mid ++ (esc s2 ++ ([34] ++ tlObj)))))) 0
      = some (hK.length + ((esc s1).length + (1 + (mid.length + ((esc s2).length + 7))))) := by
    apply scan_cat
    · exact h1
    · rw [h2]; exact step2
  rw [scan.eq_def, step1]
  congr 1
  simp only [List.length_append, List.length_cons, List.length_nil, tlObj]

theorem scanStrArr (w : List Nat) (ls : List (List Nat)) :
    scan (hText ++ (esc w ++ ([34] ++ (midText ++ (encArr ls ++ tlObj)))))
      = some (hText ++ (esc w ++ ([34] ++ (midText ++ (encArr ls ++ tlObj))))).length := by
  have step5 : scanAux ⟨2, false, false⟩ tlObj 0 = some 6 := by decide
  have step4 : scanAux ⟨2, false, false⟩ (encArr ls ++ tlObj) 0
      = some ((encArr ls).length + 6) := by
    apply scan_cat
    · exact (arrScan ls).1
    · rw [(arrScan ls).2]; exact step5
  have step3 : scanAux ⟨2, false, false⟩ (midText ++ (encArr ls ++ tlObj)) 0
      = some (midText.length + ((encArr ls).length + 6)) := by
    apply scan_cat
    · decide
    · rw [show runL ⟨2, false, false⟩ midText = ⟨2, false, false⟩ from by decide]
      exact step4
  have step2p : scanAux ⟨2, true, false⟩ ([34] ++ (midText ++ (encArr ls ++ tlObj))) 0
      = some (1 + (midText.length + ((encArr ls).length + 6))) := by
    apply scan_cat
    · decide
    · rw [show runL ⟨2, true, false⟩ [34] = ⟨2, false, false⟩ from by decide]
      exact step3
  have step2 : scanAux ⟨2, true, false⟩
      (esc w ++ ([34] ++ (midText ++ (encArr ls ++ tlObj)))) 0
      = some ((esc w).length + (1 + (midText.length + ((encArr ls).length + 6)))) := by
    apply scan_cat
    · exact (esc_scan w 2).1
    · rw [(esc_scan w 2).2]; exact step2p
  have step1 : scanAux ⟨0, false, false⟩
      (hText ++ (esc w ++ ([34] ++ (midText ++ (encArr ls ++ tlObj))))) 0
      = some (hText.length + ((esc w).length + (1 + (midText.length + ((encArr ls).length + 6))))) := by
    apply scan_cat
    · decide
    · rw [show runL ⟨0, false, false⟩ hText = ⟨2, true, false⟩ from by decide]
      exact step2
  rw [scan.eq_def, step1]
  congr 1
  simp only [List.length_append, List.length_cons, List.length_nil, tlObj, hText, midText]

theorem scanMisc (w : List Nat) (d : List (List Nat)) (a : List Nat) :
    scan (hMisc ++ (esc w ++ ([34] ++ (midMisc1 ++ (encArr d
        ++ (midMisc2 ++ (esc a ++ ([34] ++ tlObj))))))))
      = some (hMisc ++ (esc w ++ ([34] ++ (midMisc1 ++ (encArr d
        ++ (midMisc2 ++ (esc a ++ ([34] ++ tlObj)))))))).length := by
  have step8 : scanAux ⟨2, true, false⟩ ([34] ++ tlObj) 0 = some 7 := by decide
  have step7 : scanAux ⟨2, true, false⟩ (esc a ++ ([34] ++ tlObj)) 0
      = some ((esc a).length + 7) := by
    apply scan_cat
    · exact (esc_scan a 2).1
    · rw [(esc_scan a 2).2]; exact step8
  have step6 : scanAux ⟨2, false, false⟩ (midMisc2 ++ (esc a ++ ([34] ++ tlObj))) 0
      = some (midMisc2.length + ((esc a).length + 7)) := by
    apply scan_cat
    · decide
    · rw [show runL ⟨2, false, false⟩ midMisc2 = ⟨2, true, false⟩ from by decide]
      exact step7
  have step5 : scanAux ⟨2, false, false⟩
      (encArr d ++ (midMisc2 ++ (esc a ++ ([34] ++ tlObj)))) 0
      = some ((encArr d).length + (midMisc2.length + ((esc a).length + 7))) := by
    apply scan_cat
    · exact (arrScan d).1
    · rw [(arrScan d).2]; exact step6
  have step4 : scanAux ⟨2, false, false⟩
      (midMisc1 ++ (encArr d ++ (midMisc2 ++ (esc a ++ ([34] ++ tlObj))))) 0
      = some (midMisc1.length + ((encArr d).length + (midMisc2.length + ((esc a).length + 7)))) := by
    apply scan_cat
    · decide
    · rw [show runL ⟨2, false, false⟩ midMisc1 = ⟨2, false, false⟩ from by decide]
      exact step5
  have step3 : scanAux ⟨2, true, false⟩
      ([34] ++ (midMisc1 ++ (encArr d ++ (midMisc2 ++ (esc a ++ ([34] ++ tlObj)))))) 0
      = some (1 + (midMisc1.length + ((encArr d).length
          + (midMisc2.length + ((esc a).length + 7))))) := by
    apply scan_cat
    · decide
    · rw [show runL ⟨2, true, false⟩ [34] = ⟨2, false, false⟩ from by decide]
      exact step4
  have step2 : scanAux ⟨2, true, false⟩
      (esc w ++ ([34] ++ (midMisc1 ++ (encArr d ++ (midMisc2 ++ (esc a ++ ([34] ++ tlObj))))))) 0
      = some ((esc w).length + (1 + (midMisc1.length + ((encArr d).length
          + (midMisc2.length + ((esc a).length + 7)))))) := by
    apply scan_cat
    · exact (esc_scan w 2).1
    · rw [(esc_scan w 2).2]; exact step3
  have step1 : scanAux ⟨0, false, false⟩
      (hMisc ++ (esc w ++ ([34] ++ (midMisc1 ++ (encArr d
        ++ (midMisc2 ++ (esc a ++ ([34] ++ tlObj)))))))) 0
      = some (hMisc.length + ((esc w).length + (1 + (midMisc1.length + ((encArr d).length
          + (midMisc2.length + ((esc a).length + 7))))))) := by
    apply scan_cat
    · decide
    · rw [show runL ⟨0, false, false⟩ hMisc = ⟨2, true, false⟩ from by decide]
      exact step2
  rw [scan.eq_def, step1]
  congr 1
  simp only [List.length_append, List.length_cons, List.length_nil, tlObj, hMisc,
    midMisc1, midMisc2]

theorem scanOpNewt (hK : List Nat) (s : List Nat)
    (h1 : scanAux ⟨0, false, false⟩ hK 0 = none)
    (h2 : runL ⟨0, false, false⟩ hK = ⟨2, true, false⟩) :
    scan (hK ++ (esc s ++ ([34] ++ tlObj)))
      = some (hK ++ (esc s ++ ([34] ++ tlObj))).length := by
  have step3 : scanAux ⟨2, true, false⟩ ([34] ++ tlObj) 0 = some 7 := by decide
  have step2 : scanAux ⟨2, true, false⟩ (esc s ++ ([34] ++ tlObj)) 0
      = some ((esc s).length + 7) := by
    apply scan_cat
    · exact (esc_scan s 2).1
    · rw [(esc_scan s 2).2]; exact step3
  have step1 : scanAux ⟨0, false, false⟩ (hK ++ (esc s ++ ([34] ++ tlObj))) 0
      = some (hK.length + ((esc s).length + 7)) := by
    apply scan_cat
    · exact h1
    · rw [h2]; exact step2
  rw [scan.eq_def, step1]
  congr 1
  simp only [List.length_append, List.length_cons, List.length_nil, tlObj]

theorem scan_enc (m : Rcvr) : scan (enc m) = some (enc m).length := by
  cases m with
  | ping => decide
  | logout s => simp only [enc, List.append_assoc]; exact scanNewt hLogout s (by decide) (by decide)
  | name s => simp only [enc, List.append_assoc]; exact scanNewt hName s (by decide) (by decide)
  | join s => simp only [enc, List.append_assoc]; exact scanNewt hJoin s (by decide) (by decide)
  | block s => simp only [enc, List.append_assoc]; exact scanNewt hBlock s (by decide) (by decide)
  | unblock s => simp only [enc, List.append_assoc]; exact scanNewt hUnblock s (by decide) (by decide)
  | info s => simp only [enc, List.append_assoc]; exact scanNewt hInfo s (by decide) (by decide)
  | err s => simp only [enc, List.append_assoc]; exact scanNewt hErr s (by decide) (by decide)
  | priv w t => simp only [enc, List.append_assoc]; exact scanTwoStr hPriv midPriv w t (by decide) (by decide) (by decide) (by decide)
  | query w a => simp only [enc, List.append_assoc]; exact scanTwoStr hQuery midQuery w a (by decide) (by decide) (by decide) (by decide)
  | text w ls => simp only [enc, List.append_assoc]; exact scanStrArr w ls
  | misc w d a => simp only [enc, List.append_assoc]; exact scanMisc w d a
  | op o =>
    cases o with
    | opn => decide
    | close => decide
    | kick s => simp only [enc, List.append_assoc]; exact scanOpNewt hOpKick s (by decide) (by decide)
    | invite s => simp only [enc, List.append_assoc]; exact scanOpNewt hOpInvite s (by decide) (by decide)
    | give s => simp only [enc, List.append_assoc]; exact scanOpNewt hOpGive s (by decide) (by decide)

theorem enc_len_pos (m : Rcvr) : 1 ≤ (enc m).length := by
  have h := scan_enc m
  simp only [scan] at h
  exact (scanAux_bound _ _ _ h).1

/-- Strip an expected literal prefix from the buffer. -/
def stripPref (p bs : List Nat) : Option (List Nat) :=
  if bs.take p.length = p then some (bs.drop p.length) else none

theorem stripPref_self (p X : List Nat) : stripPref p (p ++ X) = some X := by
  simp [stripPref]

/-- Decoder of the seven top-level newtype-of-string variants. -/
def decNewt (hK : List Nat) (mk : List Nat → Rcvr) (bs : List Nat) : Option Rcvr :=
  match stripPref hK bs with
  | none => none
  | some r1 =>
    match readStr r1 with
    | none => none
    | some (s, r2) => if r2 = tlNewt then some (mk s) else none

/-- Decoder of the two-string struct variants (Priv, Query). -/
def decTwoStr (hK mid : List Nat) (mk : List Nat → List Nat → Rcvr) (bs : List Nat) :
    Option Rcvr :=
  match stripPref hK bs with
  | none => none
  | some r1 =>
    match readStr r1 with
    | none => none
    | some (s1, r2) =>
      match stripPref mid r2 with
      | none => none
      | some r3 =>
        match readStr r3 with
        | none => none
        | some (s2, r4) => if r4 = tlObj then some (mk s1 s2) else none

/-- Elements of a pretty-printed string array after the first (fuelled). -/
def decArrAux : Nat → List Nat → Option (List (List Nat) × List Nat)
  | 0, _ => none
  | fuel + 1, bs =>
    match stripPref arrClose bs with
    | some r => some ([], r)
    | none =>
      match stripPref arrSep0 bs with
      | none => none
      | some r =>
        match readStr r with
        | none => none
        | some (x, r2) =>
          match decArrAux fuel r2 with
          | none => none
          | some (xs, r3) => some (x :: xs, r3)

/-- Decoder of a pretty-printed string array. -/
def decArr (bs : List Nat) : Option (List (List Nat) × List Nat) :=
  match stripPref [91, 93] bs with
  | some r => some ([], r)
  | none =>
    match stripPref arrOpen0 bs with
    | none => none
    | some r1 =>
      match readStr r1 with
      | none => none
      | some (x, r2) =>
        match decArrAux (r2.length + 1) r2 with
        | none => none
        | some (xs, r3) => some (x :: xs, r3)

/-- Decoder of the Text variant. -/
def decText (bs : List Nat) : Option Rcvr :=
  match stripPref hText bs with
  | none => none
  | some r1 =>
    match readStr r1 with
    | none => none
    | some (w, r2) =>
      match stripPref midText r2 with
      | none => none
      | some r3 =>
        match decArr r3 with
        | none => none
        | some (ls, r4) => if r4 = tlObj then some (.text w ls) else none

/-- Decoder of the Misc variant. -/
def decMisc (bs : List Nat) : Option Rcvr :=
  match stripPref hMisc bs with
  | none => none
  | some r1 =>
    match readStr r1 with
    | none => none
    | some (w, r2) =>
      match stripPref midMisc1 r2 with
      | none => none
      | some r3 =>
        match decArr r3 with
        | none => none
        | some (d, r4) =>
          match stripPref midMisc2 r4 with
          | none => none
          | some r5 =>
            match readStr r5 with
            | none => none
            | some (a, r6) => if r6 = tlObj then some (.misc w d a) else none

/-- Decoder of Op's newtype-of-string sub-variants. -/
def decOpStr (hK : List Nat) (mk : List Nat → RcvOp) (bs : List Nat) : Option Rcvr :=
  match stripPref hK bs with
  | none => none
  | some r1 =>
    match readStr r1 with
    | none => none
    | some (s, r2) => if r2 = tlObj then some (.op (mk s)) else none

/-- Decoder of the Op variant, dispatching on the byte that distinguishes
the five sub-variants. -/
def decOp (bs : List Nat) : Option Rcvr :=
  match bs.get? 17 with
  | some 75 => decOpStr hOpKick .kick bs
  | some 73 => decOpStr hOpInvite .invite bs
  | some 71 => decOpStr hOpGive .give bs
  | some 125 => if bs = encOpOpen then some (.op .opn) else none
  | some 10 => if bs = encOpClose then some (.op .close) else none
  | _ => none

/-- Model of `serde_json::from_slice::<Rcvr>` on a buffer holding exactly one
complete JSON value: Ping is the bare string, and every other variant is an
object whose first key is identified by the byte at offset 5. -/
def dec (bs : List Nat) : Option Rcvr :=
  if bs = encPing then some .ping
  else match bs.get? 5 with
  | some 84 => decText bs
  | some 80 => decTwoStr hPriv midPriv .priv bs
  | some 76 => decNewt hLogout .logout bs
  | some 78 => decNewt hName .name bs
  | some 74 => decNewt hJoin .join bs
  | some 81 => decTwoStr hQuery midQuery .query bs
  | some 66 => decNewt hBlock .block bs
  | some 85 => decNewt hUnblock .unblock bs
  | some 79 => decOp bs
  | some 73 => decNewt hInfo .info bs
  | some 69 => decNewt hErr .err bs
  | some 77 => decMisc bs
  | _ => none

theorem decNewt_enc (hK : List Nat) (mk : List Nat → Rcvr) (s : List Nat) :
    decNewt hK mk (hK ++ (esc s ++ ([34] ++ tlNewt))) = some (mk s) := by
  unfold decNewt
  rw [stripPref_self]
  simp only []
  rw [show esc s ++ ([34] ++ tlNewt) = esc s ++ (34 :: tlNewt) from rfl,
    readStr_esc]
  simp

theorem decTwoStr_enc (hK mid : List Nat) (mk : List Nat → List Nat → Rcvr)
    (s1 s2 : List Nat) :
    decTwoStr hK mid mk (hK ++ (esc s1 ++ ([34] ++ (mid ++ (esc s2 ++ ([34] ++ tlObj))))))
      = some (mk s1 s2) := by
  unfold decTwoStr
  rw [stripPref_self]
  simp only []
  rw [show esc s1 ++ ([34] ++ (mid ++ (esc s2 ++ ([34] ++ tlObj))))
      = esc s1 ++ (34 :: (mid ++ (esc s2 ++ ([34] ++ tlObj)))) from rfl,
    readStr_esc]
  simp only []
  rw [stripPref_self]
  simp only []
  rw [show esc s2 ++ ([34] ++ tlObj) = esc s2 ++ (34 :: tlObj) from rfl,
    readStr_esc]
  simp

theorem encArrTail_len (rest : List (List Nat)) :
    rest.length ≤ (encArrTail rest).length := by
  induction rest with
  | nil => simp [encArrTail, arrClose]
  | cons x r ih =>
    have : encArrTail (x :: r) = arrSep0 ++ esc x ++ [34] ++ encArrTail r := by
      simp [encArrTail]
    rw [this]
    simp only [List.length_append, List.length_cons]
    omega

theorem decArrAux_enc : ∀ (rest : List (List Nat)) (r : List Nat) (fuel : Nat),
    rest.length < fuel → decArrAux fuel (encArrTail rest ++ r) = some (rest, r) := by
  intro rest
  induction rest with
  | nil =>
    intro r fuel hf
    obtain ⟨f, rfl⟩ : ∃ f, fuel = f + 1 := ⟨fuel - 1, by omega⟩
    have hshape : encArrTail [] ++ r = arrClose ++ r := by simp [encArrTail]
    rw [hshape]
    unfold decArrAux
    rw [stripPref_self]
  | cons x rest ih =>
    intro r fuel hf
    obtain ⟨f, rfl⟩ : ∃ f, fuel = f + 1 := ⟨fuel - 1, by omega⟩
    have hshape : encArrTail (x :: rest) ++ r
        = arrSep0 ++ (esc x ++ (34 :: (encArrTail rest ++ r))) := by
      simp [encArrTail, List.append_assoc]
    rw [hshape]
    unfold decArrAux
    have hclose : stripPref arrClose
        (arrSep0 ++ (esc x ++ (34 :: (encArrTail rest ++ r)))) = none := by
      simp [stripPref, arrClose, arrSep0]
    rw [hclose, stripPref_self]
    simp only []
    rw [readStr_esc]
    simp only []
    have hlen : rest.length < f := by
      have := hf
      simp only [List.length_cons] at this
      omega
    rw [ih r f hlen]

theorem decArr_enc (xs : List (List Nat)) (r : List Nat) :
    decArr (encArr xs ++ r) = some (xs, r) := by
  cases xs with
  | nil =>
    have hshape : encArr [] ++ r = [91, 93] ++ r := by simp [encArr]
    rw [hshape]
    unfold decArr
    rw [stripPref_self]
  | cons x rest =>
    have hshape : encArr (x :: rest) ++ r
        = arrOpen0 ++ (esc x ++ (34 :: (encArrTail rest ++ r))) := by
      simp [encArr, List.append_assoc]
    rw [hshape]
    unfold decArr
    have hemp : stripPref [91, 93]
        (arrOpen0 ++ (esc x ++ (34 :: (encArrTail rest ++ r)))) = none := by
      simp [stripPref, arrOpen0]
    rw [hemp, stripPref_self]
    simp only []
    rw [readStr_esc]
    simp only []
    have hlen : rest.length < (encArrTail rest ++ r).length + 1 := by
      have := encArrTail_len rest
      simp only [List.length_append]
      omega
    rw [decArrAux_enc rest r _ hlen]

theorem decText_enc (w : List Nat) (ls : List (List Nat)) :
    decText (hText ++ (esc w ++ ([34] ++ (midText ++ (encArr ls ++ tlObj)))))
      = some (.text w ls) := by
  unfold decText
  rw [stripPref_self]
  simp only []
  rw [show esc w ++ ([34] ++ (midText ++ (encArr ls ++ tlObj)))
      = esc w ++ (34 :: (midText ++ (encArr ls ++ tlObj))) from rfl,
    readStr_esc]
  simp only []
  rw [stripPref_self]
  simp only []
  rw [decArr_enc]
  simp

theorem decMisc_enc (w : List Nat) (d : List (List Nat)) (a : List Nat) :
    decMisc (hMisc ++ (esc w ++ ([34] ++ (midMisc1 ++ (encArr d
        ++ (midMisc2 ++ (esc a ++ ([34] ++ tlObj))))))))
      = some (.misc w d a) := by
  unfold decMisc
  rw [stripPref_self]
  simp only []
  rw [show esc w ++ ([34] ++ (midMisc1 ++ (encArr d ++ (midMisc2 ++ (esc a ++ ([34] ++ tlObj))))))
      = esc w ++ (34 :: (midMisc1 ++ (encArr d ++ (midMisc2 ++ (esc a ++ ([34] ++ tlObj)))))) from rfl,
    readStr_esc]
  simp only []
  rw [stripPref_self]
  simp only []
  rw [decArr_enc]
  simp only []
  rw [stripPref_self]
  simp only []
  rw [show esc a ++ ([34] ++ tlObj) = esc a ++ (34 :: tlObj) from rfl, readStr_esc]
  simp

theorem decOpStr_enc (hK : List Nat) (mk : List Nat → RcvOp) (s : List Nat) :
    decOpStr hK mk (hK ++ (esc s ++ ([34] ++ tlObj))) = some (.op (mk s)) := by
  unfold decOpStr
  rw [stripPref_self]
  simp only []
  rw [show esc s ++ ([34] ++ tlObj) = esc s ++ (34 :: tlObj) from rfl, readStr_esc]
  simp

theorem dec_enc (m : Rcvr) : dec (enc m) = some m := by
  cases m with
  | ping => decide
  | logout s =>
    simp only [enc, List.append_assoc]
    unfold dec
    have hg5 : (hLogout ++ (esc s ++ ([34] ++ tlNewt))).get? 5 = some 76 := by
      simp [hLogout]
    rw [if_neg (by simp [hLogout, encPing]), hg5]
    exact decNewt_enc hLogout .logout s
  | name s =>
    simp only [enc, List.append_assoc]
    unfold dec
    have hg5 : (hName ++ (esc s ++ ([34] ++ tlNewt))).get? 5 = some 78 := by
      simp [hName]
    rw [if_neg (by simp [hName, encPing]), hg5]
    exact decNewt_enc hName .name s
  | join s =>
    simp only [enc, List.append_assoc]
    unfold dec
    have hg5 : (hJoin ++ (esc s ++ ([34] ++ tlNewt))).get? 5 = some 74 := by
      simp [hJoin]
    rw [if_neg (by simp [hJoin, encPing]), hg5]
    exact decNewt_enc hJoin .join s
  | block s =>
    simp only [enc, List.append_assoc]
    unfold dec
    have hg5 : (hBlock ++ (esc s ++ ([34] ++ tlNewt))).get? 5 = some 66 := by
      simp [hBlock]
    rw [if_neg (by simp [hBlock, encPing]), hg5]
    exact decNewt_enc hBlock .block s
  | unblock s =>
    simp only [enc, List.append_assoc]
    unfold dec
    have hg5 : (hUnblock ++ (esc s ++ ([34] ++ tlNewt))).get? 5 = some 85 := by
      simp [hUnblock]
    rw [if_neg (by simp [hUnblock, encPing]), hg5]
    exact decNewt_enc hUnblock .unblock s
  | info s =>
    simp only [enc, List.append_assoc]
    unfold dec
    have hg5 : (hInfo ++ (esc s ++ ([34] ++ tlNewt))).get? 5 = some 73 := by
      simp [hInfo]
    rw [if_neg (by simp [hInfo, encPing]), hg5]
    exact decNewt_enc hInfo .info s
  | err s =>
    simp only [enc, List.append_assoc]
    unfold dec
    have hg5 : (hErr ++ (esc s ++ ([34] ++ tlNewt))).get? 5 = some 69 := by
      simp [hErr]
    rw [if_neg (by simp [hErr, encPing]), hg5]
    exact decNewt_enc hErr .err s
  | priv w t =>
    simp only [enc, List.append_assoc]
    unfold dec
    have hg5 : (hPriv ++ (esc w ++ ([34] ++ (midPriv ++ (esc t ++ ([34] ++ tlObj)))))).get? 5
        = some 80 := by
      simp [hPriv]
    rw [if_neg (by simp [hPriv, encPing]), hg5]
    exact decTwoStr_enc hPriv midPriv .priv w t
  | query w a =>
    simp only [enc, List.append_assoc]
    unfold dec
    have hg5 : (hQuery ++ (esc w ++ ([34] ++ (midQuery ++ (esc a ++ ([34] ++ tlObj)))))).get? 5
        = some 81 := by
      simp [hQuery]
    rw [if_neg (by simp [hQuery, encPing]), hg5]
    exact decTwoStr_enc hQuery midQuery .query w a
  | text w ls =>
    simp only [enc, List.append_assoc]
    unfold dec
    have hg5 : (hText ++ (esc w ++ ([34] ++ (midText ++ (encArr ls ++ tlObj))))).get? 5
        = some 84 := by
      simp [hText]
    rw [if_neg (by simp [hText, encPing]), hg5]
    exact decText_enc w ls
  | misc w d a =>
    simp only [enc, List.append_assoc]
    unfold dec
    have hg5 : (hMisc ++ (esc w ++ ([34] ++ (midMisc1 ++ (encArr d
        ++ (midMisc2 ++ (esc a ++ ([34] ++ tlObj)))))))).get? 5 = some 77 := by
      simp [hMisc]
    rw [if_neg (by simp [hMisc, encPing]), hg5]
    exact decMisc_enc w d a
  | op o =>
    cases o with
    | opn => decide
    | close => decide
    | kick s =>
      simp only [enc, List.append_assoc]
      unfold dec
      have hg5 : (hOpKick ++ (esc s ++ ([34] ++ tlObj))).get? 5 = some 79 := by
        simp [hOpKick]
      rw [if_neg (by simp [hOpKick, encPing]), hg5]
      unfold decOp
      have hg17 : (hOpKick ++ (esc s ++ ([34] ++ tlObj))).get? 17 = some 75 := by
        simp [hOpKick]
      rw [hg17]
      exact decOpStr_enc hOpKick .kick s
    | invite s =>
      simp only [enc, List.append_assoc]
      unfold dec
      have hg5 : (hOpInvite ++ (esc s ++ ([34] ++ tlObj))).get? 5 = some 79 := by
        simp [hOpInvite]
      rw [if_neg (by simp [hOpInvite, encPing]), hg5]
      unfold decOp
      have hg17 : (hOpInvite ++ (esc s ++ ([34] ++ tlObj))).get? 17 = some 73 := by
        simp [hOpInvite]
      rw [hg17]
      exact decOpStr_enc hOpInvite .invite s
    | give s =>
      simp only [enc, List.append_assoc]
      unfold dec
      have hg5 : (hOpGive ++ (esc s ++ ([34] ++ tlObj))).get? 5 = some 79 := by
        simp [hOpGive]
      rw [if_neg (by simp [hOpGive, encPing]), hg5]
      unfold decOp
      have hg17 : (hOpGive ++ (esc s ++ ([34] ++ tlObj))).get? 17 = some 71 := by
        simp [hOpGive]
      rw [hg17]
      exact decOpStr_enc hOpGive .give s

/-- One-based line of byte offset `k`, as serde_json reports it. -/
def lineOf (bs : List Nat) (k : Nat) : Nat := 1 + (bs.take k).count 10

/-- One-based column of byte offset `k`, as serde_json reports it. -/
def colOf (bs : List Nat) (k : Nat) : Nat :=
  1 + ((bs.take k).reverse.takeWhile (fun b => b != 10)).length

/-- Loop of `get_actual_offset` (src/sock.rs 84-109): walk the buffer
counting newlines until the error line is reached. -/
def gaoAux (dat : List Nat) (line : Nat) (lineN n : Nat) : Option Nat :=
  if lineN < line then
    match hg : dat.get? n with
    | none => none
    | some b => gaoAux dat line (if b = 10 then lineN + 1 else lineN) (n + 1)
  else some n
termination_by dat.length - n
decreasing_by
  have hlt : n < dat.length := by
    by_contra hc
    rw [List.get?_eq_none.mpr (by omega)] at hg
    exact Option.noConfusion hg
  omega

/-- Model of `get_actual_offset`: byte offset of the one-based (line, col)
position, or an error (`none`) when the buffer has fewer lines. -/
def getActualOffset (dat : List Nat) (l c : Nat) : Option Nat :=
  (gaoAux dat (l - 1) 0 0).map (fun n => n + (c - 1))

theorem gaoAux_stop (dat : List Nat) (line lineN n : Nat) (h : ¬ lineN < line) :
    gaoAux dat line lineN n = some n := by
  unfold gaoAux
  rw [if_neg h]

theorem gaoAux_step (dat : List Nat) (line lineN n : Nat) (b : Nat)
    (h : lineN < line) (hb : dat.get? n = some b) :
    gaoAux dat line lineN n
      = gaoAux dat line (if b = 10 then lineN + 1 else lineN) (n + 1) := by
  conv_lhs => unfold gaoAux
  rw [if_pos h]
  split
  · next heq => rw [hb] at heq; exact Option.noConfusion heq
  · next b' heq =>
    rw [hb] at heq
    have hbb : b = b' := Option.some.inj heq
    rw [hbb]

theorem count_take_succ (bs : List Nat) (p : Nat) (b : Nat) (hb : bs.get? p = some b) :
    (bs.take (p + 1)).count 10 = (bs.take p).count 10 + (if b = 10 then 1 else 0) := by
  rw [List.take_succ]
  have hg : bs[p]? = some b := by
    rw [← List.get?_eq_getElem?]
    exact hb
  rw [hg]
  by_cases hb10 : b = 10
  · subst hb10; simp
  · simp [hb10, List.count_singleton']

theorem gaoAux_reach (bs : List Nat) (L m : Nat)
    (hm : m ≤ bs.length)
    (hc : (bs.take m).count 10 = L)
    (hlt : ∀ p, p < m → (bs.take p).count 10 < L) :
    gaoAux bs L 0 0 = some m := by
  have main : ∀ d p, p ≤ m → m - p = d →
      gaoAux bs L ((bs.take p).count 10) p = some m := by
    intro d
    induction d with
    | zero =>
      intro p hp hd
      have hpe : p = m := by omega
      subst hpe
      rw [hc]
      exact gaoAux_stop bs L L p (by omega)
    | succ d ih =>
      intro p hp hd
      have hpm : p < m := by omega
      have hpl : p < bs.length := by omega
      obtain ⟨b, hb⟩ : ∃ b, bs.get? p = some b :=
        ⟨bs.get ⟨p, hpl⟩, List.get?_eq_get hpl⟩
      rw [gaoAux_step bs L _ p b (hlt p hpm) hb]
      have hcnt := count_take_succ bs p b hb
      have heq : (if b = 10 then (bs.take p).count 10 + 1 else (bs.take p).count 10)
          = (bs.take (p + 1)).count 10 := by
        by_cases hb10 : b = 10 <;> simp [hb10, hcnt]
      rw [heq]
      exact ih (p + 1) (by omega) (by omega)
  have h0 : (bs.take 0).count 10 = 0 := by simp
  have := main m 0 (by omega) (by omega)
  rw [h0] at this
  exact this

theorem dropWhile_headq_false {α : Type} (p : α → Bool) :
    ∀ (l : List α) (b : α) (t2 : List α), l.dropWhile p = b :: t2 → p b = false := by
  intro l
  induction l with
  | nil => intro b t2 h; simp at h
  | cons a t ih =>
    intro b t2 h
    by_cases hp : p a
    · rw [List.dropWhile_cons_of_pos hp] at h
      exact ih b t2 h
    · rw [List.dropWhile_cons_of_neg hp] at h
      cases h
      simpa using hp

theorem gao_correct (bs : List Nat) (k : Nat) (hk : k ≤ bs.length) :
    getActualOffset bs (lineOf bs k) (colOf bs k) = some k := by
  have hXL : (bs.take k).length = k := by
    rw [List.length_take]; omega
  have htu : ((bs.take k).reverse.takeWhile (fun b => b != 10))
      ++ ((bs.take k).reverse.dropWhile (fun b => b != 10)) = (bs.take k).reverse := by
    simp
  set t := (bs.take k).reverse.takeWhile (fun b => b != 10) with ht
  set u := (bs.take k).reverse.dropWhile (fun b => b != 10) with hu
  have hXdecomp : bs.take k = u.reverse ++ t.reverse := by
    have h2 := congrArg List.reverse htu
    rw [List.reverse_append, List.reverse_reverse] at h2
    exact h2.symm
  have hlen : t.length + u.length = k := by
    have := congrArg List.length htu
    simp only [List.length_append, List.length_reverse] at this
    omega
  have hC : t.length ≤ k := by omega
  have hm : u.reverse.length = k - t.length := by
    simp only [List.length_reverse]; omega
  have htakeN : bs.take (k - t.length) = u.reverse := by
    have h1 : bs.take (k - t.length) = (bs.take k).take (k - t.length) := by
      rw [List.take_take]
      congr 1
      omega
    rw [h1, hXdecomp, List.take_append_eq_append_take, ← hm, List.take_length]
    simp
  have ht10 : t.count 10 = 0 := by
    rw [List.count_eq_zero]
    intro hmem
    have h3 := List.mem_takeWhile_imp hmem
    simp at h3
  have hLsplit : t.count 10 + u.count 10 = (bs.take k).count 10 := by
    have := congrArg (fun l => List.count 10 l) htu
    simp only [List.count_append] at this
    rw [this, List.count_reverse]
  have hcu : u.count 10 = (bs.take k).count 10 := by omega
  have hcnt : (bs.take (k - t.length)).count 10 = (bs.take k).count 10 := by
    rw [htakeN, List.count_reverse, hcu]
  have hlt : ∀ p, p < k - t.length → (bs.take p).count 10 < (bs.take k).count 10 := by
    intro p hp
    have humne : u ≠ [] := by
      intro he
      rw [he] at hlen
      simp at hlen
      omega
    obtain ⟨b0, u', hu'⟩ := List.exists_cons_of_ne_nil humne
    have hb0 : b0 = 10 := by
      have h4 := dropWhile_headq_false (fun b => b != 10) (bs.take k).reverse b0 u'
        (by rw [← hu]; exact hu')
      simpa using h4
    have hurev : u.reverse = u'.reverse ++ [b0] := by
      rw [hu']; simp
    have htp : bs.take p = u'.reverse.take p := by
      have h5 : bs.take p = (bs.take (k - t.length)).take p := by
        rw [List.take_take]
        congr 1
        omega
      rw [h5, htakeN, hurev, List.take_append_eq_append_take]
      have hpl : p ≤ u'.reverse.length := by
        simp only [List.length_reverse]
        have : u.length = u'.length + 1 := by rw [hu']; simp
        omega
      rw [show p - u'.reverse.length = 0 from by omega]
      simp
    have hmono : (u'.reverse.take p).count 10 ≤ u'.count 10 := by
      calc (u'.reverse.take p).count 10 ≤ u'.reverse.count 10 :=
            (List.take_sublist _ _).count_le _
        _ = u'.count 10 := List.count_reverse _ _
    have hcu' : u.count 10 = u'.count 10 + 1 := by
      rw [hu', hb0]
      simp [List.count_cons]
    rw [htp]
    omega
  have hreach := gaoAux_reach bs ((bs.take k).count 10) (k - t.length)
    (by omega) hcnt hlt
  rw [getActualOffset]
  have hl1 : lineOf bs k - 1 = (bs.take k).count 10 := by
    simp only [lineOf]
    omega
  have hc1 : colOf bs k - 1 = t.length := by
    simp only [colOf, ← ht]
    omega
  rw [hl1, hc1, hreach]
  show some (k - t.length + t.length) = some k
  congr 1
  omega

/-- Outcome of `serde_json::from_slice::<Rcvr>` as `Sock::try_get` observes
it: a decoded message, an end-of-input error (incomplete value), a syntax
error at a one-based line/column (trailing bytes after a complete value), or
any other error. -/
inductive POut where
  | okm (m : Rcvr)
  | eof
  | synAt (line col : Nat)
  | other
deriving DecidableEq, Repr

/-- Contract model of `serde_json::from_slice::<Rcvr>` over the buffer. -/
def parse (bs : List Nat) : POut :=
  match scan bs with
  | none => .eof
  | some k =>
    if k = bs.length then
      match dec bs with
      | some m => .okm m
      | none => .other
    else .synAt (lineOf bs k) (colOf bs k)

/-- Result of one `Sock::try_get` call. -/
inductive TryR where
  | got (m : Rcvr)
  | pending
  | fatal
  | crash
deriving DecidableEq, Repr

/-- Model of `Sock::try_get` (src/sock.rs 206-232): decode the whole buffer;
on success clear it; on an end-of-input error report pending; on a syntax
error recover the byte offset with `get_actual_offset` (whose `.unwrap()` is
the `crash` outcome when it fails), decode the prefix and keep the rest; any
other error is fatal. -/
def sockTryGet (cur : List Nat) : TryR × List Nat :=
  match parse cur with
  | .okm m => (.got m, [])
  | .eof => (.pending, cur)
  | .other => (.fatal, cur)
  | .synAt l c =>
    match getActualOffset cur l c with
    | none => (.crash, cur)
    | some k =>
      match parse (cur.take k) with
      | .okm m => (.got m, cur.drop k)
      | _ => (.fatal, cur)

theorem parse_enc (m : Rcvr) : parse (enc m) = .okm m := by
  rw [parse.eq_def, scan_enc]
  simp [dec_enc]

theorem tryGet_exact (m : Rcvr) : sockTryGet (enc m) = (.got m, []) := by
  rw [sockTryGet.eq_def, parse_enc]

theorem scan_enc_trailing (m : Rcvr) (r : List Nat) :
    scan (enc m ++ r) = some (enc m).length := by
  have h := scan_enc m
  simp only [scan] at h ⊢
  exact scanAux_append_some (enc m) _ r _ h

theorem parse_enc_trailing (m : Rcvr) (r : List Nat) (hr : r ≠ []) :
    parse (enc m ++ r) = .synAt (lineOf (enc m ++ r) (enc m).length)
      (colOf (enc m ++ r) (enc m).length) := by
  rw [parse.eq_def, scan_enc_trailing]
  have hlen : (enc m).length ≠ (enc m ++ r).length := by
    simp only [List.length_append]
    have : r.length ≠ 0 := fun h => hr (List.length_eq_zero.mp h)
    omega
  simp only []
  rw [if_neg hlen]

theorem tryGet_trailing (m : Rcvr) (r : List Nat) (hr : r ≠ []) :
    sockTryGet (enc m ++ r) = (.got m, r) := by
  rw [sockTryGet.eq_def, parse_enc_trailing m r hr]
  have hk : (enc m).length ≤ (enc m ++ r).length := by
    simp only [List.length_append]
    omega
  simp only []
  rw [gao_correct (enc m ++ r) (enc m).length hk]
  have htake : (enc m ++ r).take (enc m).length = enc m := by simp
  have hdrop : (enc m ++ r).drop (enc m).length = r := by simp
  simp only []
  rw [htake, parse_enc]
  simp only []
  rw [hdrop]

theorem tryGet_pending (p : List Nat) (hp : scan p = none) :
    sockTryGet p = (.pending, p) := by
  rw [sockTryGet.eq_def, parse.eq_def, hp]

theorem scanProperPref (m : Rcvr) (p t : List Nat)
    (hpt : p ++ t = enc m) (ht : t ≠ []) : scan p = none := by
  have h := scan_enc m
  rw [← hpt] at h
  simp only [scan] at h ⊢
  apply scanAux_prefix_none p t _ _ h
  simp only [List.length_append]
  have : t.length ≠ 0 := fun hz => ht (List.length_eq_zero.mp hz)
  omega

/-- Repeated `try_get` calls against one buffer until no further message can
be decoded (fuelled; each decoded message consumes at least one byte).  The
Bool is false when a fatal error or the unwrap panic was hit. -/
def drainAll : Nat → List Nat → List Rcvr × List Nat × Bool
  | 0, cur => ([], cur, false)
  | fuel + 1, cur =>
    match sockTryGet cur with
    | (.got m, rest) =>
      let out := drainAll fuel rest
      (m :: out.1, out.2.1, out.2.2)
    | (.pending, rest) => ([], rest, true)
    | (.fatal, rest) => ([], rest, false)
    | (.crash, rest) => ([], rest, false)

/-- One `suck` of a chunk into the buffer followed by a full drain. -/
def feedStep (cur chunk : List Nat) : List Rcvr × List Nat × Bool :=
  drainAll ((cur ++ chunk).length + 1) (cur ++ chunk)

/-- Fold one chunk into the accumulated (messages, buffer, ok) state. -/
def feedStepAcc (acc : List Rcvr × List Nat × Bool) (chunk : List Nat) :
    List Rcvr × List Nat × Bool :=
  let s := feedStep acc.2.1 chunk
  (acc.1 ++ s.1, s.2.1, acc.2.2 && s.2.2)

/-- Feed a sequence of chunks through the socket, draining after each. -/
def feedAll (chunks : List (List Nat)) : List Rcvr × List Nat × Bool :=
  chunks.foldl feedStepAcc ([], [], true)

theorem drain_nil (fuel : Nat) (hf : 0 < fuel) : drainAll fuel [] = ([], [], true) := by
  obtain ⟨f, rfl⟩ : ∃ f, fuel = f + 1 := ⟨fuel - 1, by omega⟩
  show drainAll (f + 1) [] = ([], [], true)
  unfold drainAll
  rw [tryGet_pending [] rfl]

theorem drain_spec : ∀ (fuel : Nat) (B t : List Nat) (L : List Rcvr),
    B.length < fuel → B ++ t = (L.map enc).flatten →
    ∃ L1 L2 p, L = L1 ++ L2 ∧ B = (L1.map enc).flatten ++ p
      ∧ p ++ t = (L2.map enc).flatten ∧ scan p = none
      ∧ drainAll fuel B = (L1, p, true) := by
  intro fuel
  induction fuel with
  | zero => intro B t L h; omega
  | succ f ih =>
    intro B t L hf heq
    cases hs : scan B with
    | none =>
      refine ⟨[], L, B, by simp, by simp, heq, hs, ?_⟩
      show drainAll (f + 1) B = ([], B, true)
      unfold drainAll
      rw [tryGet_pending B hs]
    | some k =>
      cases L with
      | nil =>
        exfalso
        simp only [List.map_nil, List.flatten_nil] at heq
        have hB : B = [] := (List.append_eq_nil.mp heq).1
        rw [hB] at hs
        exact Option.noConfusion hs
      | cons m L' =>
        rw [show (List.map enc (m :: L')).flatten = enc m ++ (L'.map enc).flatten from by simp]
          at heq
        by_cases hlen : B.length < (enc m).length
        · exfalso
          have h1 : (B ++ t).take B.length = B := by simp
          rw [heq] at h1
          rw [List.take_append_eq_append_take,
            show B.length - (enc m).length = 0 from by omega] at h1
          simp only [List.take_zero, List.append_nil] at h1
          have hsplit : B ++ (enc m).drop B.length = enc m := by
            conv_rhs => rw [← List.take_append_drop B.length (enc m)]
            rw [h1]
          have hdropne : (enc m).drop B.length ≠ [] := by
            intro hz
            have := congrArg List.length hz
            simp only [List.length_drop, List.length_nil] at this
            omega
          have hscan := scanProperPref m B ((enc m).drop B.length) hsplit hdropne
          rw [hscan] at hs
          exact Option.noConfusion hs
        · push_neg at hlen
          have h1 : (B ++ t).take (enc m).length = B.take (enc m).length := by
            rw [List.take_append_eq_append_take,
              show (enc m).length - B.length = 0 from by omega]
            simp
          rw [heq] at h1
          simp only [List.take_left] at h1
          have hBtake : B.take (enc m).length = enc m := h1.symm
          have hBsplit : B = enc m ++ B.drop (enc m).length := by
            conv_lhs => rw [← List.take_append_drop (enc m).length B]
            rw [hBtake]
          have h2 : (B ++ t).drop (enc m).length = B.drop (enc m).length ++ t := by
            rw [List.drop_append_eq_append_drop,
              show (enc m).length - B.length = 0 from by omega]
            simp
          rw [heq] at h2
          simp only [List.drop_left] at h2
          have hrest : B.drop (enc m).length ++ t = (L'.map enc).flatten := h2.symm
          have hpos := enc_len_pos m
          by_cases hBe : B.drop (enc m).length = []
          · refine ⟨[m], L', [], by simp, ?_, ?_, rfl, ?_⟩
            · rw [hBsplit, hBe]
              simp
            · rw [hBe] at hrest
              simpa using hrest
            · show drainAll (f + 1) B = ([m], [], true)
              unfold drainAll
              rw [show B = enc m from by rw [hBsplit, hBe]; simp, tryGet_exact]
              simp only []
              rw [drain_nil f (by
                have := congrArg List.length hBsplit
                simp only [List.length_append, hBe, List.length_nil] at this
                omega)]
          · obtain ⟨L1', L2', p, hL, hB', hpt, hsc, hdr⟩ :=
              ih (B.drop (enc m).length) t L' (by
                have := congrArg List.length hBsplit
                simp only [List.length_append] at this
                simp only [List.length_drop]
                omega) hrest
            refine ⟨m :: L1', L2', p, by rw [hL]; rfl, ?_, hpt, hsc, ?_⟩
            · rw [show (List.map enc (m :: L1')).flatten
                  = enc m ++ (L1'.map enc).flatten from by simp,
                List.append_assoc, ← hB']
              exact hBsplit
            · show drainAll (f + 1) B = (m :: L1', p, true)
              unfold drainAll
              conv_lhs => rw [hBsplit]
              rw [tryGet_trailing m (B.drop (enc m).length) hBe]
              simp only []
              rw [hdr]

theorem feed_go : ∀ (chunks : List (List Nat)) (g0 : List Rcvr) (cur : List Nat)
    (L : List Rcvr),
    cur ++ chunks.flatten = (L.map enc).flatten → scan cur = none →
    ∃ L1 L2 p, L = L1 ++ L2 ∧ p = (L2.map enc).flatten ∧ scan p = none
      ∧ chunks.foldl feedStepAcc (g0, cur, true) = (g0 ++ L1, p, true) := by
  intro chunks
  induction chunks with
  | nil =>
    intro g0 cur L heq hsc
    refine ⟨[], L, cur, by simp, ?_, hsc, by simp⟩
    simpa using heq
  | cons c cs ih =>
    intro g0 cur L heq hsc
    rw [List.foldl_cons]
    have heq2 : (cur ++ c) ++ cs.flatten = (L.map enc).flatten := by
      rw [List.append_assoc]
      rw [show c ++ cs.flatten = (c :: cs).flatten from by simp]
      exact heq
    obtain ⟨L1a, L2a, p1, hLa, hBa, hpta, hsca, hdra⟩ :=
      drain_spec ((cur ++ c).length + 1) (cur ++ c) cs.flatten L (by omega) heq2
    have hfs : feedStep cur c = (L1a, p1, true) := by
      unfold feedStep
      exact hdra
    have hstep : feedStepAcc (g0, cur, true) c = (g0 ++ L1a, p1, true) := by
      unfold feedStepAcc
      rw [hfs]
      simp
    rw [hstep]
    obtain ⟨L1b, L2b, p, hLb, hpb, hscb, hfold⟩ := ih (g0 ++ L1a) p1 L2a hpta hsca
    refine ⟨L1a ++ L1b, L2b, p, ?_, hpb, hscb, ?_⟩
    · rw [hLa, hLb, List.append_assoc]
    · rw [hfold, List.append_assoc]

theorem feedAll_complete (ms : List Rcvr) (chunks : List (List Nat))
    (h : chunks.flatten = (ms.map enc).flatten) :
    feedAll chunks = (ms, [], true) := by
  obtain ⟨L1, L2, p, hL, hp, hsc, hfold⟩ :=
    feed_go chunks [] [] ms (by simpa using h) rfl
  have hL2 : L2 = [] := by
    cases L2 with
    | nil => rfl
    | cons m L2' =>
      exfalso
      rw [hp, show (List.map enc (m :: L2')).flatten
          = enc m ++ (L2'.map enc).flatten from by simp] at hsc
      rw [scan_enc_trailing m _] at hsc
      exact Option.noConfusion hsc
  rw [hL2] at hL hp
  simp only [List.map_nil, List.flatten_nil] at hp
  rw [feedAll, hfold, hp]
  simp only [List.nil_append]
  rw [hL]
  simp

theorem sockTryGet_no_crash (cur : List Nat) : (sockTryGet cur).1 ≠ .crash := by
  rw [sockTryGet.eq_def]
  cases hp : parse cur with
  | okm m => simp
  | eof => simp
  | other => simp
  | synAt l c =>
    rw [parse.eq_def] at hp
    cases hs : scan cur with
    | none =>
      rw [hs] at hp
      simp only [] at hp
      exact POut.noConfusion hp
    | some k =>
      rw [hs] at hp
      simp only [] at hp
      by_cases hk : k = cur.length
      · rw [if_pos hk] at hp
        cases hd : dec cur with
        | none => rw [hd] at hp; simp at hp
        | some m => rw [hd] at hp; simp at hp
      · rw [if_neg hk] at hp
        have hkb : k ≤ cur.length := by
          have hb := hs
          simp only [scan] at hb
          exact (scanAux_bound _ _ _ hb).2
        have hl : lineOf cur k = l := (POut.synAt.inj hp).1
        have hc : colOf cur k = c := (POut.synAt.inj hp).2
        rw [← hl, ← hc]
        simp only []
        rw [gao_correct cur k hkb]
        simp only []
        cases hpk : parse (cur.take k) <;> simp

theorem parse_synAt_inv (cur : List Nat) (l c : Nat) (hp : parse cur = .synAt l c) :
    ∃ k, k ≤ cur.length ∧ l = lineOf cur k ∧ c = colOf cur k := by
  rw [parse.eq_def] at hp
  cases hs : scan cur with
  | none =>
    rw [hs] at hp
    simp only [] at hp
    exact POut.noConfusion hp
  | some k =>
    rw [hs] at hp
    simp only [] at hp
    by_cases hk : k = cur.length
    · rw [if_pos hk] at hp
      cases hd : dec cur with
      | none => rw [hd] at hp; simp at hp
      | some m => rw [hd] at hp; simp at hp
    · rw [if_neg hk] at hp
      have hkb : k ≤ cur.length := by
        have hb := hs
        simp only [scan] at hb
        exact (scanAux_bound _ _ _ hb).2
      exact ⟨k, hkb, (POut.synAt.inj hp).1.symm, (POut.synAt.inj hp).2.symm⟩

/-- C4: frame-socket round trip.  Concatenating the encodings of any message
sequence and feeding the bytes to the socket in arbitrary chunks yields
exactly those messages in order with an empty final buffer and no errors;
in particular a buffer holding one complete encoding followed by the start
of another decodes the first message and leaves exactly the remainder, and
a buffer holding a proper prefix of one encoding yields None with the buffer
untouched. -/
theorem c4_frame_roundtrip :
    (∀ (ms : List Rcvr) (chunks : List (List Nat)),
      chunks.flatten = (ms.map enc).flatten → feedAll chunks = (ms, [], true))
    ∧ (∀ (m : Rcvr) (r : List Nat), r ≠ [] → sockTryGet (enc m ++ r) = (.got m, r))
    ∧ (∀ (m : Rcvr) (p t : List Nat), p ++ t = enc m → t ≠ [] →
      sockTryGet p = (.pending, p)) :=
  ⟨feedAll_complete,
   tryGet_trailing,
   fun m p t hpt ht => tryGet_pending p (scanProperPref m p t hpt ht)⟩

/-- C4 witness: a Ping and a Logout("hi") whose concatenated encodings are
split into four chunks across both message boundaries. -/
theorem c4_witness :
    (([[34, 80], [105, 110, 103, 34, 123, 10, 32, 32, 34, 76],
        [111, 103, 111, 117, 116, 34, 58, 32, 34, 104, 105, 34, 10],
        [125]] : List (List Nat)).flatten
      = ([Rcvr.ping, Rcvr.logout [104, 105]].map enc).flatten
      ∧ ([123] : List Nat) ≠ []
      ∧ [34, 80, 105] ++ [110, 103, 34] = enc Rcvr.ping
      ∧ ([110, 103, 34] : List Nat) ≠ [])
    ∧ feedAll [[34, 80], [105, 110, 103, 34, 123, 10, 32, 32, 34, 76],
        [111, 103, 111, 117, 116, 34, 58, 32, 34, 104, 105, 34, 10], [125]]
      = ([Rcvr.ping, Rcvr.logout [104, 105]], [], true)
    ∧ sockTryGet (enc Rcvr.ping ++ [123]) = (.got Rcvr.ping, [123])
    ∧ sockTryGet [34, 80, 105] = (.pending, [34, 80, 105]) :=
  ⟨⟨by decide, by decide, by decide, by decide⟩,
   c4_frame_roundtrip.1 _ _ (by decide),
   c4_frame_roundtrip.2.1 Rcvr.ping [123] (by decide),
   c4_frame_roundtrip.2.2 Rcvr.ping [34, 80, 105] [110, 103, 34] (by decide) (by decide)⟩

/-- C10: `Sock::try_get` never panics.  Whenever the decode failure is a
syntax error at (line, col), that position lies within the buffer, so
`get_actual_offset` returns `Ok` and its `.unwrap()` succeeds; the model's
try_get therefore never reaches the crash outcome for any buffer. -/
theorem c10_tryget_never_panics :
    ∀ (cur : List Nat),
      (∀ l c, parse cur = .synAt l c →
        ∃ k, k ≤ cur.length ∧ getActualOffset cur l c = some k)
      ∧ (sockTryGet cur).1 ≠ .crash := by
  intro cur
  constructor
  · intro l c hp
    obtain ⟨k, hk, hl, hc⟩ := parse_synAt_inv cur l c hp
    exact ⟨k, hk, by rw [hl, hc]; exact gao_correct cur k hk⟩
  · exact sockTryGet_no_crash cur

/-- C10 witness: the buffer holding a complete Ping followed by the start of
an object fails with a syntax error at line 1, column 7, and
`get_actual_offset` recovers offset 6 inside the buffer. -/
theorem c10_witness :
    (parse (encPing ++ [123]) = POut.synAt 1 7)
    ∧ (∃ k, k ≤ (encPing ++ [123]).length
        ∧ getActualOffset (encPing ++ [123]) 1 7 = some k)
    ∧ (sockTryGet (encPing ++ [123])).1 ≠ TryR.crash :=
  ⟨by decide,
   (c10_tryget_never_panics (encPing ++ [123])).1 1 7 (by decide),
   (c10_tryget_never_panics (encPing ++ [123])).2⟩

/-- Model of `Rcvr::counts` (src/proto3.rs): the noisy message kinds. -/
def rcounts : Rcvr → Bool
  | .text _ _ => true
  | .priv _ _ => true
  | .name _ => true
  | .join _ => true
  | _ => false

/-- The `User` state touched by `User::try_get` (src/user.rs): the socket's
receive buffer, the error count, `last_data_time` and `quota_bytes`. -/
structure UserSockM where
  cur : List Nat
  errs : Nat
  lastData : Nat
  quota : Nat
deriving DecidableEq, Repr

/-- Result of `Sock::suck` as `User::try_get` sees it: a socket error, or
`Ok` having appended the freshly read bytes to the receive buffer. -/
inductive SuckR where
  | err
  | ok (bytes : List Nat)
deriving DecidableEq, Repr

/-- Model of `User::try_get` (src/user.rs 252-282): suck (errors accumulate
and return None); if the receive buffer is nonempty, call `Sock::try_get` —
an error accumulates and returns None, while `Ok(msg_opt)` sets
`last_data_time` to the current instant whether or not a message was decoded,
and bumps `quota_bytes` by the consumed bytes when the message counts as
noisy.  (The unreachable panic of `Sock::try_get` is lumped with its error
return.) -/
def userTryGet (u : UserSockM) (suckRes : SuckR) (now : Nat) :
    Option Rcvr × UserSockM :=
  match suckRes with
  | .err => (none, { u with errs := u.errs + 1 })
  | .ok bytes =>
    let cur1 := u.cur ++ bytes
    let nBuff := cur1.length
    if nBuff > 0 then
      match sockTryGet cur1 with
      | (.got m, rest) =>
        let q1 := u.quota + (if rcounts m then nBuff - rest.length else 0)
        (some m, { u with cur := rest, lastData := now, quota := q1 })
      | (.pending, rest) => (none, { u with cur := rest, lastData := now })
      | (.fatal, rest) => (none, { u with cur := rest, errs := u.errs + 1 })
      | (.crash, rest) => (none, { u with cur := rest, errs := u.errs + 1 })
    else (none, u)

/-- C8 (code behaviour at the failing input): a `try_get` call that decodes
nothing still updates `last_data_time`.  With an empty buffer, sucking the
single byte of an incomplete object makes `Sock::try_get` return `Ok(None)`,
and `User::try_get` sets `last_data_time` to the current instant anyway,
contradicting the claim (and the field's own documentation). -/
theorem c8_lastdata_on_none :
    (userTryGet ⟨[], 0, 0, 0⟩ (.ok [123]) 5).1 = none
    ∧ ((userTryGet ⟨[], 0, 0, 0⟩ (.ok [123]) 5).2).lastData = 5
    ∧ ((userTryGet ⟨[], 0, 0, 0⟩ (.ok [123]) 5).2).cur = [123] := by
  decide
